import Mathlib

/-! # CUVID hardware decoder facade: a shallow embedding of `src/ffhdd/cuvid_decoder.cpp`

The class `CUVIDDecoderImpl` is embedded as a record `Decoder` and its member
functions as pure functions on that record.  The NVIDIA parser
(`cuvidParseVideoData`) is an external collaborator: a packet is modelled by the
sequence of callbacks the parser makes while it parses the packet, together
with the parser's own verdict.  Everything the driver answers (capabilities,
decode status, whether `cuvidCreateDecoder` succeeds) travels with the event.

Machine integers are `Nat`/`Int` with explicit reduction: `unsigned int` values
are reduced modulo `2^32`, `size_t` modulo `2^64`.  Enumerations of the NVIDIA
headers are natural numbers with the values of `cuviddec.h`.
-/

namespace FFHDDecoder

/-! ## Machine integers -/

/-- Conversion of an integer value to `unsigned int`. -/
def toU32 (x : Int) : Nat := (x % 2 ^ 32).toNat

/-- Conversion of an integer value to `size_t` (64 bit). -/
def toU64 (x : Int) : Nat := (x % 2 ^ 64).toNat

/-- Conversion of an integer value to `int`. -/
def toI32 (x : Int) : Int :=
  let m := x % 2 ^ 32
  if m < 2 ^ 31 then m else m - 2 ^ 32

/-- Conversion of an integer value to `short`. -/
def toI16 (x : Int) : Int :=
  let m := x % 2 ^ 16
  if m < 2 ^ 15 then m else m - 2 ^ 16

/-- Conversion `unsigned int -> float`: the nearest value with a 24 bit
significand, ties to even.  The result is again a whole number. -/
def floatOfUnsigned (x : Nat) : Nat :=
  if x < 2 ^ 24 then x
  else
    let e := Nat.log2 x - 23
    let q := x / 2 ^ e
    let r := x % 2 ^ e
    let half := 2 ^ (e - 1)
    let q1 := if r > half ∨ (r = half ∧ q % 2 = 1) then q + 1 else q
    q1 * 2 ^ e

/-! ## Enumerations of `cuviddec.h` -/

/-- Value of `cudaVideoChromaFormat_420`. -/
def cudaVideoChromaFormat_420 : Nat := 1

/-- Value of `cudaVideoChromaFormat_422`. -/
def cudaVideoChromaFormat_422 : Nat := 2

/-- Value of `cudaVideoChromaFormat_444`. -/
def cudaVideoChromaFormat_444 : Nat := 3

/-- Value of `cudaVideoSurfaceFormat_NV12`. -/
def cudaVideoSurfaceFormat_NV12 : Nat := 0

/-- Value of `cudaVideoSurfaceFormat_P016`. -/
def cudaVideoSurfaceFormat_P016 : Nat := 1

/-- Value of `cudaVideoSurfaceFormat_YUV444`. -/
def cudaVideoSurfaceFormat_YUV444 : Nat := 2

/-- Value of `cudaVideoSurfaceFormat_YUV444_16Bit`. -/
def cudaVideoSurfaceFormat_YUV444_16Bit : Nat := 3

/-- `GetChromaHeightFactor`, in units of one half: `1` stands for the float
`0.5` and `2` for `1.0`. -/
def GetChromaHeightFactor (eSurfaceFormat : Nat) : Nat :=
  if eSurfaceFormat = cudaVideoSurfaceFormat_NV12 ∨ eSurfaceFormat = cudaVideoSurfaceFormat_P016 then 1
  else if eSurfaceFormat = cudaVideoSurfaceFormat_YUV444
      ∨ eSurfaceFormat = cudaVideoSurfaceFormat_YUV444_16Bit then 2
  else 1

/-- `GetChromaPlaneCount`. -/
def GetChromaPlaneCount (eSurfaceFormat : Nat) : Nat :=
  if eSurfaceFormat = cudaVideoSurfaceFormat_NV12 ∨ eSurfaceFormat = cudaVideoSurfaceFormat_P016 then 1
  else if eSurfaceFormat = cudaVideoSurfaceFormat_YUV444
      ∨ eSurfaceFormat = cudaVideoSurfaceFormat_YUV444_16Bit then 2
  else 1

/-! ## Data model -/

/-- `CropRect` (`int l, t, r, b`). -/
structure CropRect where
  l : Int
  t : Int
  r : Int
  b : Int
  deriving DecidableEq, Repr

/-- `ResizeDim` (`int w, h`). -/
structure ResizeDim where
  w : Int
  h : Int
  deriving DecidableEq, Repr

/-- The `display_area` member of `CUVIDEOFORMAT` (`int` fields). -/
structure DisplayArea where
  left : Int
  top : Int
  right : Int
  bottom : Int
  deriving DecidableEq, Repr

/-- The members of `CUVIDEOFORMAT` that the decoder reads. -/
structure CUVIDEOFORMAT where
  codec : Nat
  chroma_format : Nat
  bit_depth_luma_minus8 : Nat
  coded_width : Nat
  coded_height : Nat
  display_area : DisplayArea
  progressive_sequence : Nat
  min_num_decode_surfaces : Nat
  deriving DecidableEq, Repr

/-- The members of `CUVIDDECODECAPS` as filled in by `cuvidGetDecoderCaps`. -/
structure CUVIDDECODECAPS where
  bIsSupported : Nat
  nMaxWidth : Nat
  nMaxHeight : Nat
  nMaxMBCount : Nat
  nOutputFormatMask : Nat
  deriving DecidableEq, Repr

/-- The members of `CUVIDPARSERDISPINFO` that the decoder reads, with the
answer of `cuvidGetDecodeStatus` for the picture (`statusError` is true when the
call succeeds and reports `Error` or `Error_Concealed`). -/
structure CUVIDPARSERDISPINFO where
  picture_index : Int
  timestamp : Int
  statusError : Bool
  deriving DecidableEq, Repr

/-- The data members of `CUVIDDecoderImpl`.  `m_vpFrame` holds, for each pool
slot, the byte size it was allocated with.  `m_hDecoder = 0` is the null
handle.  The last two fields are ghost state of the driver: the handles made by
`cuvidCreateDecoder` and not yet destroyed, and the number of handles made. -/
structure Decoder where
  m_hDecoder : Nat
  m_bUseDeviceFrame : Bool
  m_nWidth : Nat
  m_nLumaHeight : Nat
  m_nChromaHeight : Nat
  m_nNumChromaPlanes : Nat
  m_nSurfaceHeight : Int
  m_nSurfaceWidth : Int
  m_eCodec : Nat
  m_eChromaFormat : Nat
  m_eOutputFormat : Nat
  m_nBitDepthMinus8 : Int
  m_nBPP : Int
  m_videoFormat : CUVIDEOFORMAT
  m_displayRect : CropRect
  m_vpFrame : List Nat
  m_vTimestamp : List Int
  m_nDecodedFrame : Int
  m_nDecodedFrameReturned : Int
  m_nDecodePicCnt : Int
  m_nPicNumInDecodeOrder : List Int
  m_cropRect : CropRect
  m_resizeDim : ResizeDim
  m_iFrameIndex : Nat
  m_nMaxCache : Int
  m_gpuID : Int
  m_nMaxWidth : Nat
  m_nMaxHeight : Nat
  liveSessions : List Nat
  sessionsCreated : Nat
  deriving DecidableEq, Repr

/-- The `std::runtime_error`s thrown by the callbacks. -/
inductive Thrown where
  | codecNotSupported
  | resolutionNotSupported
  | mbCountNotSupported
  | noOutputFormat
  | decoderNotInitialized
  deriving DecidableEq, Repr

/-- Outcome of one callback: it returns a value, throws (the state is the one
reached when the exception leaves the callback), or leaves defined behaviour
(out-of-range access, failed `assert`, out-of-range conversion). -/
inductive Handled where
  | ret (value : Int) (d : Decoder)
  | throw (e : Thrown) (d : Decoder)
  | undefined
  deriving DecidableEq, Repr

/-- One callback made by the parser while it parses one packet. -/
inductive Event where
  | sequence (fmt : CUVIDEOFORMAT) (caps : CUVIDDECODECAPS) (createOk : Bool)
  | picture (CurrPicIdx : Int)
  | display (info : CUVIDPARSERDISPINFO)
  deriving DecidableEq, Repr

/-- One call of `cuvidParseVideoData`: the callbacks it makes, in order, and
whether the parser itself reports success when no callback throws. -/
structure Packet where
  events : List Event
  parserOk : Bool
  deriving DecidableEq, Repr

/-- What `get_frame` hands out: the pool slot whose pointer is returned, the
timestamp written to `*pTimestamp` and the index written to `*pFrameIndex`. -/
structure Frame where
  slot : Nat
  timestamp : Int
  frameIndex : Nat
  deriving DecidableEq, Repr

/-! ## Definitions for Construction -/

/-- The all-zero `CUVIDEOFORMAT` of `m_videoFormat = {}`. -/
def zeroFormat : CUVIDEOFORMAT :=
  { codec := 0, chroma_format := 0, bit_depth_luma_minus8 := 0, coded_width := 0,
    coded_height := 0, display_area := ⟨0, 0, 0, 0⟩, progressive_sequence := 0,
    min_num_decode_surfaces := 0 }

/-- `create_cuvid_decoder` followed by a successful `create`: the object is
value-initialised (`new CUVIDDecoderImpl()`), then `create` stores its
arguments (`maxWidth = maxHeight = 0`).  A null `pCropRect`/`pResizeDim` leaves
the zero rectangle. -/
def create_cuvid_decoder (bUseDeviceFrame : Bool) (eCodec : Nat) (max_cache : Int)
    (gpu_id : Int) (cropRect : CropRect) (resizeDim : ResizeDim) : Decoder :=
  { m_hDecoder := 0
    m_bUseDeviceFrame := bUseDeviceFrame
    m_nWidth := 0, m_nLumaHeight := 0, m_nChromaHeight := 0
    m_nNumChromaPlanes := 0
    m_nSurfaceHeight := 0, m_nSurfaceWidth := 0
    m_eCodec := eCodec
    m_eChromaFormat := 0
    m_eOutputFormat := 0
    m_nBitDepthMinus8 := 0
    m_nBPP := 1
    m_videoFormat := zeroFormat
    m_displayRect := ⟨0, 0, 0, 0⟩
    m_vpFrame := []
    m_vTimestamp := []
    m_nDecodedFrame := 0, m_nDecodedFrameReturned := 0
    m_nDecodePicCnt := 0
    m_nPicNumInDecodeOrder := List.replicate 32 0
    m_cropRect := cropRect
    m_resizeDim := resizeDim
    m_iFrameIndex := 0
    m_nMaxCache := max_cache
    m_gpuID := gpu_id
    m_nMaxWidth := 0, m_nMaxHeight := 0
    liveSessions := []
    sessionsCreated := 0 }

/-! ## Format negotiation: `handleVideoSequence` -/

/-- The test `decodecaps.nOutputFormatMask & (1 << fmt)` of lines 277-286. -/
def maskHas (nOutputFormatMask fmt : Nat) : Bool :=
  (nOutputFormatMask &&& (1 <<< fmt)) != 0

/-- Lines 256-274: the stored codec, chroma format, bit depth, bytes per pixel
and the default output format.  For a chroma format other than 4:2:0, 4:4:4 and
4:2:2 no branch assigns `m_eOutputFormat`. -/
def storeFormat (d : Decoder) (fmt : CUVIDEOFORMAT) : Decoder :=
  let d1 : Decoder :=
    { d with
      m_eCodec := fmt.codec
      m_eChromaFormat := fmt.chroma_format
      m_nBitDepthMinus8 := fmt.bit_depth_luma_minus8
      m_nBPP := if (fmt.bit_depth_luma_minus8 : Int) > 0 then 2 else 1 }
  if d1.m_eChromaFormat = cudaVideoChromaFormat_420 then
    { d1 with m_eOutputFormat :=
        if fmt.bit_depth_luma_minus8 ≠ 0 then cudaVideoSurfaceFormat_P016
        else cudaVideoSurfaceFormat_NV12 }
  else if d1.m_eChromaFormat = cudaVideoChromaFormat_444 then
    { d1 with m_eOutputFormat :=
        if fmt.bit_depth_luma_minus8 ≠ 0 then cudaVideoSurfaceFormat_YUV444_16Bit
        else cudaVideoSurfaceFormat_YUV444 }
  else if d1.m_eChromaFormat = cudaVideoChromaFormat_422 then
    { d1 with m_eOutputFormat := cudaVideoSurfaceFormat_NV12 }
  else d1

/-- Lines 276-291: keep the default when its bit is in the mask, otherwise the
fallback chain; `none` is the `throw` of line 290. -/
def checkOutputFormat (d : Decoder) (caps : CUVIDDECODECAPS) : Option Decoder :=
  if !(maskHas caps.nOutputFormatMask d.m_eOutputFormat) then
    if maskHas caps.nOutputFormatMask cudaVideoSurfaceFormat_NV12 then
      some { d with m_eOutputFormat := cudaVideoSurfaceFormat_NV12 }
    else if maskHas caps.nOutputFormatMask cudaVideoSurfaceFormat_P016 then
      some { d with m_eOutputFormat := cudaVideoSurfaceFormat_P016 }
    else if maskHas caps.nOutputFormatMask cudaVideoSurfaceFormat_YUV444 then
      some { d with m_eOutputFormat := cudaVideoSurfaceFormat_YUV444 }
    else if maskHas caps.nOutputFormatMask cudaVideoSurfaceFormat_YUV444_16Bit then
      some { d with m_eOutputFormat := cudaVideoSurfaceFormat_YUV444_16Bit }
    else none
  else some d

/-- The members of the local `CUVIDDECODECREATEINFO` that flow back into the
decoder: the target size (`unsigned long`) and the display area (`short`). -/
structure CreateInfo where
  ulTargetWidth : Nat
  ulTargetHeight : Nat
  left : Int
  top : Int
  right : Int
  bottom : Int
  deriving DecidableEq, Repr

/-- Lines 333-373: the output width, the luma height and the create-info
members for the three cases (no crop and no resize, resize, crop written over
resize).  `m_cropRect` and `m_resizeDim` are only read. -/
def targetSize (d : Decoder) (fmt : CUVIDEOFORMAT) : Nat × Nat × CreateInfo :=
  let cropSet : Bool := d.m_cropRect.r != 0 && d.m_cropRect.b != 0
  let resizeSet : Bool := d.m_resizeDim.w != 0 && d.m_resizeDim.h != 0
  if !cropSet && !resizeSet then
    (toU32 (fmt.display_area.right - fmt.display_area.left),
     toU32 (fmt.display_area.bottom - fmt.display_area.top),
     { ulTargetWidth := fmt.coded_width, ulTargetHeight := fmt.coded_height,
       left := 0, top := 0, right := 0, bottom := 0 })
  else
    let info0 : CreateInfo :=
      { ulTargetWidth := 0, ulTargetHeight := 0, left := 0, top := 0, right := 0, bottom := 0 }
    let afterResize : Nat × Nat × CreateInfo :=
      if resizeSet then
        (toU32 d.m_resizeDim.w, toU32 d.m_resizeDim.h,
         { info0 with
           left := toI16 fmt.display_area.left, top := toI16 fmt.display_area.top
           right := toI16 fmt.display_area.right, bottom := toI16 fmt.display_area.bottom })
      else (d.m_nWidth, d.m_nLumaHeight, info0)
    let afterCrop : Nat × Nat × CreateInfo :=
      if cropSet then
        (toU32 (d.m_cropRect.r - d.m_cropRect.l), toU32 (d.m_cropRect.b - d.m_cropRect.t),
         { afterResize.2.2 with
           left := toI16 d.m_cropRect.l, top := toI16 d.m_cropRect.t
           right := toI16 d.m_cropRect.r, bottom := toI16 d.m_cropRect.b })
      else afterResize
    (afterCrop.1, afterCrop.2.1,
     { afterCrop.2.2 with ulTargetWidth := afterCrop.1, ulTargetHeight := afterCrop.2.1 })

/-- Lines 322-373: the running maximum of the coded size, then the target
geometry of `targetSize` stored in `m_nWidth` and `m_nLumaHeight`. -/
def targetGeometry (d : Decoder) (fmt : CUVIDEOFORMAT) : Decoder × CreateInfo :=
  let d1 : Decoder :=
    if d.m_nMaxWidth < fmt.coded_width then { d with m_nMaxWidth := fmt.coded_width } else d
  let d2 : Decoder :=
    if d1.m_nMaxHeight < fmt.coded_height then { d1 with m_nMaxHeight := fmt.coded_height } else d1
  ({ d2 with m_nWidth := (targetSize d fmt).1, m_nLumaHeight := (targetSize d fmt).2.1 },
   (targetSize d fmt).2.2)

/-- Line 376, `(int)(m_nLumaHeight * GetChromaHeightFactor(m_eOutputFormat))`:
the luma height is converted to `float`, multiplied, and truncated to `int`;
the conversion is undefined (`none`) when the value is not below `2^31`. -/
def chromaHeight (lumaHeight eOutputFormat : Nat) : Option Nat :=
  let v := floatOfUnsigned lumaHeight * GetChromaHeightFactor eOutputFormat / 2
  if v < 2 ^ 31 then some v else none

/-- Line 393, `cuvidCreateDecoder(&m_hDecoder, ...)`: on success the driver
makes a new context and stores its handle; nothing is destroyed. -/
def cuvidCreateDecoder (d : Decoder) (createOk : Bool) : Decoder :=
  if createOk then
    { d with
      m_hDecoder := d.sessionsCreated + 1
      liveSessions := (d.sessionsCreated + 1) :: d.liveSessions
      sessionsCreated := d.sessionsCreated + 1 }
  else d

/-- Lines 292-394: everything after the output format has been settled. -/
def createSession (d : Decoder) (fmt : CUVIDEOFORMAT) (createOk : Bool) : Handled :=
  let d1 : Decoder := { d with m_videoFormat := fmt }
  let (d2, info) := targetGeometry d1 fmt
  match chromaHeight d2.m_nLumaHeight d2.m_eOutputFormat with
  | none => Handled.undefined
  | some ch =>
    let d3 : Decoder :=
      { d2 with
        m_nChromaHeight := ch
        m_nNumChromaPlanes := GetChromaPlaneCount d2.m_eOutputFormat
        m_nSurfaceHeight := toI32 info.ulTargetHeight
        m_nSurfaceWidth := toI32 info.ulTargetWidth
        m_displayRect := ⟨info.left, info.top, info.right, info.bottom⟩ }
    Handled.ret fmt.min_num_decode_surfaces (cuvidCreateDecoder d3 createOk)

/-- Lines 276-394: the mask test on the default output format and what
follows it.  The shift `1 << m_eOutputFormat` is undefined for a count of 32
or more. -/
def settleOutputFormat (d : Decoder) (fmt : CUVIDEOFORMAT) (caps : CUVIDDECODECAPS)
    (createOk : Bool) : Handled :=
  if 32 ≤ d.m_eOutputFormat then Handled.undefined
  else
    match checkOutputFormat d caps with
    | none => Handled.throw Thrown.noOutputFormat d
    | some d2 => createSession d2 fmt createOk

/-- `CUVIDDecoderImpl::handleVideoSequence`.  `caps` is what
`cuvidGetDecoderCaps` answers for the format; `createOk` tells whether
`cuvidCreateDecoder` succeeds. -/
def handleVideoSequence (d : Decoder) (fmt : CUVIDEOFORMAT) (caps : CUVIDDECODECAPS)
    (createOk : Bool) : Handled :=
  if caps.bIsSupported = 0 then Handled.throw Thrown.codecNotSupported d
  else if fmt.coded_width > caps.nMaxWidth ∨ fmt.coded_height > caps.nMaxHeight then
    Handled.throw Thrown.resolutionNotSupported d
  else if ((fmt.coded_width >>> 4) * (fmt.coded_height >>> 4)) % 2 ^ 32 > caps.nMaxMBCount then
    Handled.throw Thrown.mbCountNotSupported d
  else settleOutputFormat (storeFormat d fmt) fmt caps createOk

/-! ## Picture callbacks -/

/-- `CUVIDDecoderImpl::handlePictureDecode`: throws without a decoder handle,
otherwise records the decode order in the 32-entry array. -/
def handlePictureDecode (d : Decoder) (CurrPicIdx : Int) : Handled :=
  if d.m_hDecoder = 0 then Handled.throw Thrown.decoderNotInitialized d
  else if 0 ≤ CurrPicIdx ∧ CurrPicIdx < 32 then
    Handled.ret 1
      { d with
        m_nPicNumInDecodeOrder := d.m_nPicNumInDecodeOrder.set CurrPicIdx.toNat d.m_nDecodePicCnt
        m_nDecodePicCnt := d.m_nDecodePicCnt + 1 }
  else Handled.undefined

/-- `CUVIDDecoderImpl::get_frame_size`: `none` when `assert(m_nWidth)` fails;
the product is formed in `unsigned int` and returned as `int`. -/
def get_frame_size (d : Decoder) : Option Int :=
  if d.m_nWidth = 0 then none
  else
    some (toI32 ((d.m_nWidth * (d.m_nLumaHeight + d.m_nChromaHeight * d.m_nNumChromaPlanes)
      * toU32 d.m_nBPP) % 2 ^ 32 : Nat))

/-- Lines 453-486 of `handlePictureDisplay`: the buffered-frame counter is
incremented; when it exceeds the pool, the pool grows by one slot unless the
cache limit is set and reached, in which case the increment is taken back. -/
def selectSlot (d : Decoder) : Option Decoder :=
  let d1 : Decoder := { d with m_nDecodedFrame := d.m_nDecodedFrame + 1 }
  if toU32 d1.m_nDecodedFrame > d1.m_vpFrame.length then
    if d1.m_nMaxCache ≠ -1 ∧ d1.m_vpFrame.length ≥ toU64 d1.m_nMaxCache then
      some { d1 with m_nDecodedFrame := d1.m_nDecodedFrame - 1 }
    else
      match get_frame_size d1 with
      | none => none
      | some size =>
        some { d1 with
               m_vpFrame := d1.m_vpFrame ++ [toU64 size]
               m_vTimestamp := d1.m_vTimestamp ++ [0] }
  else some d1

/-- `CUVIDDecoderImpl::handlePictureDisplay`, as far as the decoder's own
state goes (the plane copies write into the slot chosen here).  The log line
of a decode error reads `m_nPicNumInDecodeOrder[picture_index]`; the slot
`m_nDecodedFrame - 1` is read from `m_vpFrame` and written in `m_vTimestamp`. -/
def handlePictureDisplay (d : Decoder) (info : CUVIDPARSERDISPINFO) : Handled :=
  if info.statusError ∧ ¬ (0 ≤ info.picture_index ∧ info.picture_index < 32) then
    Handled.undefined
  else
    match selectSlot d with
    | none => Handled.undefined
    | some d1 =>
      let i := d1.m_nDecodedFrame - 1
      if 0 ≤ i ∧ i.toNat < d1.m_vpFrame.length ∧ i.toNat < d1.m_vTimestamp.length then
        Handled.ret 1 { d1 with m_vTimestamp := d1.m_vTimestamp.set i.toNat info.timestamp }
      else Handled.undefined

/-! ## The facade: `decode` and `get_frame` -/

/-- One callback, dispatched to its handler. -/
def handleEvent (d : Decoder) : Event → Handled
  | Event.sequence fmt caps createOk => handleVideoSequence d fmt caps createOk
  | Event.picture idx => handlePictureDecode d idx
  | Event.display info => handlePictureDisplay d info

/-- The callbacks of one `cuvidParseVideoData` call, run in order; the first
exception or undefined step ends the run.  The value of a completed run is
not used. -/
def runEvents (d : Decoder) : List Event → Handled
  | [] => Handled.ret 0 d
  | e :: es =>
    match handleEvent d e with
    | Handled.ret _ d1 => runEvents d1 es
    | Handled.throw t d1 => Handled.throw t d1
    | Handled.undefined => Handled.undefined

/-- Lines 137-140 of `decode`: both counters are set to zero. -/
def resetCounters (d : Decoder) : Decoder :=
  { d with m_nDecodedFrame := 0, m_nDecodedFrameReturned := 0 }

/-- `CUVIDDecoderImpl::decode`: both counters are reset, the packet is parsed,
and the result is `-1` when the parser fails or a callback throws, otherwise
`m_nDecodedFrame` after `m_iFrameIndex++`.  `none` stands for a call that left
defined behaviour. -/
def decode (d : Decoder) (pkt : Packet) : Option (Int × Decoder) :=
  match runEvents (resetCounters d) pkt.events with
  | Handled.undefined => none
  | Handled.throw _ d1 => some (-1, d1)
  | Handled.ret _ d1 =>
    if !pkt.parserOk then some (-1, d1)
    else
      some (d1.m_nDecodedFrame, { d1 with m_iFrameIndex := (d1.m_iFrameIndex + 1) % 2 ^ 32 })

/-- `CUVIDDecoderImpl::get_frame` with both out-parameters supplied.  The outer
`none` is an out-of-range read of the vectors; the inner `none` is `nullptr`. -/
def get_frame (d : Decoder) : Option (Option Frame × Decoder) :=
  if d.m_nDecodedFrame > 0 then
    let i := d.m_nDecodedFrameReturned
    if 0 ≤ i ∧ i.toNat < d.m_vpFrame.length then
      match d.m_vTimestamp[i.toNat]? with
      | none => none
      | some ts =>
        some (some { slot := i.toNat, timestamp := ts, frameIndex := d.m_iFrameIndex },
              { d with
                m_nDecodedFrame := d.m_nDecodedFrame - 1
                m_nDecodedFrameReturned := d.m_nDecodedFrameReturned + 1 })
    else none
  else some (none, d)

/-- `n` successive `get_frame` calls; the results in call order. -/
def get_frames : Nat → Decoder → Option (List (Option Frame) × Decoder)
  | 0, d => some ([], d)
  | n + 1, d =>
    match get_frame d with
    | none => none
    | some (f, d1) =>
      match get_frames n d1 with
      | none => none
      | some (fs, d2) => some (f :: fs, d2)

/-- `CUVIDDecoderImpl::~CUVIDDecoderImpl`, as far as decode sessions go: only
the handle held in `m_hDecoder` is destroyed. -/
def destroy (d : Decoder) : Decoder :=
  if d.m_hDecoder ≠ 0 then { d with liveSessions := d.liveSessions.erase d.m_hDecoder }
  else d

/-- One call on the public interface. -/
inductive Call where
  | feed (pkt : Packet)
  | pull
  deriving DecidableEq, Repr

/-- What one call on the public interface gives back. -/
inductive Output where
  | decoded (n : Int)
  | frame (f : Option Frame)
  deriving DecidableEq, Repr

/-- A sequence of calls on the public interface, with what each call returns. -/
def run (d : Decoder) : List Call → Option (List Output × Decoder)
  | [] => some ([], d)
  | Call.feed pkt :: cs =>
    match decode d pkt with
    | none => none
    | some (n, d1) =>
      match run d1 cs with
      | none => none
      | some (os, d2) => some (Output.decoded n :: os, d2)
  | Call.pull :: cs =>
    match get_frame d with
    | none => none
    | some (f, d1) =>
      match run d1 cs with
      | none => none
      | some (os, d2) => some (Output.frame f :: os, d2)

/-! ## Auxiliary definitions for the statements -/

/-- The timestamps of the picture-ready-for-display callbacks of a packet, in
callback order. -/
def displayTimestamps : List Event → List Int
  | [] => []
  | Event.display info :: es => info.timestamp :: displayTimestamps es
  | _ :: es => displayTimestamps es

/-- The frames handed out for pool slots `start, start+1, ...` carrying the
given timestamps and one frame index. -/
def framesFrom (frameIndex : Nat) : Nat → List Int → List (Option Frame)
  | _, [] => []
  | start, t :: ts =>
    some { slot := start, timestamp := t, frameIndex := frameIndex }
      :: framesFrom frameIndex (start + 1) ts

/-- The part of the decoder that the frame pool and the delivery cursor live
in: both vectors, both counters, the cache limit and the frame index. -/
def poolView (d : Decoder) : List Nat × List Int × Int × Int × Int × Nat :=
  (d.m_vpFrame, d.m_vTimestamp, d.m_nDecodedFrame, d.m_nDecodedFrameReturned,
   d.m_nMaxCache, d.m_iFrameIndex)

/-! ## Definitions for the unbounded-cache lemmas -/

/-- The state inside a `decode` call after the pictures with timestamps `ts`
have been displayed: the counter equals their number, nothing has been handed
out, and the first slots carry the timestamps in order. -/
def Buffered (d : Decoder) (ts : List Int) : Prop :=
  d.m_nDecodedFrame = ts.length ∧ d.m_nDecodedFrameReturned = 0
    ∧ ts.length ≤ d.m_vpFrame.length ∧ ∀ i, i < ts.length → d.m_vTimestamp[i]? = ts[i]?

/-! ## Example data -/

/-- A 1920x1088 H.264 4:2:0 8-bit sequence header with a 1920x1080 display area. -/
def exampleFormat : CUVIDEOFORMAT :=
  { codec := 4, chroma_format := cudaVideoChromaFormat_420, bit_depth_luma_minus8 := 0,
    coded_width := 1920, coded_height := 1088, display_area := ⟨0, 0, 1920, 1080⟩,
    progressive_sequence := 1, min_num_decode_surfaces := 4 }

/-- Capabilities that accept `exampleFormat`: up to 4096x4096, 65536
macroblocks, output formats NV12 and P016. -/
def exampleCaps : CUVIDDECODECAPS :=
  { bIsSupported := 1, nMaxWidth := 4096, nMaxHeight := 4096, nMaxMBCount := 65536,
    nOutputFormatMask := 3 }

/-- A display callback for decode surface 0 with the given timestamp. -/
def exampleDisplay (t : Int) : Event :=
  Event.display { picture_index := 0, timestamp := t, statusError := false }

/-- A decoder made with `max_cache = -1`, no crop and no resize. -/
def exampleDecoder : Decoder := create_cuvid_decoder true 4 (-1) 0 ⟨0, 0, 0, 0⟩ ⟨0, 0⟩

/-- A first packet: the sequence header, one picture to decode, two pictures
to display. -/
def examplePacket : Packet :=
  { events := [Event.sequence exampleFormat exampleCaps true, Event.picture 0,
               exampleDisplay 100, exampleDisplay 200],
    parserOk := true }

/-- The decoder after `examplePacket` has been fed to `exampleDecoder`. -/
def exampleAfter : Decoder :=
  ((decode exampleDecoder examplePacket).getD (0, exampleDecoder)).2

/-! ## Definitions for C2: frames left after several calls without a pull in between -/

/-- The sum of the counts returned by the `decode` calls of a run. -/
def decodedSum : List Output → Int
  | [] => 0
  | Output.decoded n :: os => n + decodedSum os
  | Output.frame _ :: os => decodedSum os

/-- The number of frames handed out by the `get_frame` calls of a run. -/
def framesReturned : List Output → Nat
  | [] => 0
  | Output.frame (some _) :: os => framesReturned os + 1
  | _ :: os => framesReturned os

/-- Ten packets with one picture each, timestamps 1 to 10; the first packet
carries the sequence header. -/
def tenPackets : List Packet :=
  { events := [Event.sequence exampleFormat exampleCaps true, Event.picture 0, exampleDisplay 1],
    parserOk := true }
  :: (List.range 9).map fun i =>
      { events := [Event.picture 0, exampleDisplay (i + 2)], parserOk := true }

/-- A later packet with one picture to display, timestamp 300. -/
def examplePacket2 : Packet :=
  { events := [Event.picture 1, exampleDisplay 300], parserOk := true }

/-- The decoder after `examplePacket` and `examplePacket2` have been fed. -/
def exampleAfter2 : Decoder :=
  ((decode exampleAfter examplePacket2).getD (0, exampleAfter)).2

/-! ## Definitions for C3: the value `decode` returns -/

/-- Inside a `decode` call on a cache of capacity `K`: after `c` display
callbacks the counter is `min c K`, within the pool, and the pool is within
the capacity. -/
def Capped (K : Int) (d : Decoder) (c : Nat) : Prop :=
  d.m_nMaxCache = K ∧ d.m_nDecodedFrame = min (c : Int) K
    ∧ d.m_nDecodedFrame ≤ d.m_vpFrame.length ∧ (d.m_vpFrame.length : Int) ≤ K

/-- Whether a run of callbacks ended in an exception. -/
def threw : Handled → Bool
  | Handled.throw _ _ => true
  | _ => false

/-- A decoder made with `max_cache = 1`, no crop and no resize. -/
def cappedDecoder : Decoder := create_cuvid_decoder true 4 1 0 ⟨0, 0, 0, 0⟩ ⟨0, 0⟩

/-- The decoder after `examplePacket` has been fed to `cappedDecoder`. -/
def cappedAfter : Decoder :=
  ((decode cappedDecoder examplePacket).getD (0, cappedDecoder)).2

/-! ## Definitions for C4: the pool and the counter stay within the capacity -/

/-- The points at which the decoder's state changes: entry of `decode` (both
counters reset), one parser callback (returning or throwing), the exit of a
successful `decode` (`m_iFrameIndex++`), and one `get_frame` call. -/
inductive Step where
  | reset
  | event (e : Event)
  | bump
  | pull
  deriving DecidableEq, Repr

/-- The state after one step; `none` when the step leaves defined behaviour. -/
def step (d : Decoder) : Step → Option Decoder
  | Step.reset => some (resetCounters d)
  | Step.event e =>
    match handleEvent d e with
    | Handled.ret _ d1 => some d1
    | Handled.throw _ d1 => some d1
    | Handled.undefined => none
  | Step.bump => some { d with m_iFrameIndex := (d.m_iFrameIndex + 1) % 2 ^ 32 }
  | Step.pull =>
    match get_frame d with
    | none => none
    | some (_, d1) => some d1

/-- The state after a sequence of steps. -/
def steps (d : Decoder) : List Step → Option Decoder
  | [] => some d
  | s :: ss =>
    match step d s with
    | none => none
    | some d1 => steps d1 ss

/-- The invariant behind C4: the cache limit is `K`, the counter is within the
pool and the pool is within `K`. -/
def WithinCapacity (K : Int) (d : Decoder) : Prop :=
  d.m_nMaxCache = K ∧ d.m_nDecodedFrame ≤ d.m_vpFrame.length ∧ (d.m_vpFrame.length : Int) ≤ K

/-- One `decode` call with five pictures to display, then one `get_frame`. -/
def fiveDisplays : List Step :=
  [Step.reset, Step.event (Event.sequence exampleFormat exampleCaps true),
   Step.event (exampleDisplay 1), Step.event (exampleDisplay 2), Step.event (exampleDisplay 3),
   Step.event (exampleDisplay 4), Step.event (exampleDisplay 5), Step.bump, Step.pull]

/-- The decoder with capacity 3 after `fiveDisplays`. -/
def fiveDisplaysAfter : Decoder :=
  (steps (create_cuvid_decoder true 4 3 0 ⟨0, 0, 0, 0⟩ ⟨0, 0⟩) fiveDisplays).getD exampleDecoder

/-! ## Definitions for C5: the frame index reported by `get_frame` -/

/-- The number of `decode` calls of a run that did not return `-1`. -/
def successes : List Output → Nat
  | [] => 0
  | Output.decoded n :: os => (if n = -1 then 0 else 1) + successes os
  | Output.frame _ :: os => successes os

/-! ## Definitions for C6: a descriptor beyond the hardware maximum -/

/-- A sequence header of 8192x4320, beyond the 4096x4096 of `exampleCaps`. -/
def oversizeFormat : CUVIDEOFORMAT :=
  { codec := 4, chroma_format := cudaVideoChromaFormat_420, bit_depth_luma_minus8 := 0,
    coded_width := 8192, coded_height := 4320, display_area := ⟨0, 0, 8192, 4320⟩,
    progressive_sequence := 1, min_num_decode_surfaces := 4 }

/-- A packet in which the parser first hands over a pending picture (timestamp
300) and then announces `oversizeFormat`. -/
def oversizePacket : Packet :=
  { events := [exampleDisplay 300, Event.sequence oversizeFormat exampleCaps true],
    parserOk := true }

/-- The state carried by an outcome, or the given one when there is none. -/
def stateOr (dflt : Decoder) : Handled → Decoder
  | Handled.ret _ d => d
  | Handled.throw _ d => d
  | Handled.undefined => dflt

/-- The decoder after the display callback of `oversizePacket` has run inside a
`decode` call on `exampleAfter`. -/
def oversizeBefore : Decoder :=
  stateOr exampleAfter (runEvents (resetCounters exampleAfter) [exampleDisplay 300])

/-! ## Definitions for C7: the macroblock-count check -/

/-- A descriptor of 1048576x1048576 luma samples: 65536x65536 macroblocks. -/
def hugeFormat : CUVIDEOFORMAT :=
  { codec := 4, chroma_format := cudaVideoChromaFormat_420, bit_depth_luma_minus8 := 0,
    coded_width := 1048576, coded_height := 1048576, display_area := ⟨0, 0, 1920, 1080⟩,
    progressive_sequence := 1, min_num_decode_surfaces := 4 }

/-- Capabilities that report the combination supported, a maximum size of
1048576x1048576 and at most 65536 macroblocks. -/
def hugeCaps : CUVIDDECODECAPS :=
  { bIsSupported := 1, nMaxWidth := 1048576, nMaxHeight := 1048576, nMaxMBCount := 65536,
    nOutputFormatMask := 3 }

/-- Reference, after the specification (section 4.1, step 5): the default
output format by chroma format and bit depth; 4:2:2 is downgraded to the
8-bit 4:2:0 layout. -/
def referenceDefaultFormat (chroma_format bit_depth_luma_minus8 : Nat) : Nat :=
  if chroma_format = cudaVideoChromaFormat_420 then
    if bit_depth_luma_minus8 + 8 > 8 then cudaVideoSurfaceFormat_P016
    else cudaVideoSurfaceFormat_NV12
  else if chroma_format = cudaVideoChromaFormat_444 then
    if bit_depth_luma_minus8 + 8 > 8 then cudaVideoSurfaceFormat_YUV444_16Bit
    else cudaVideoSurfaceFormat_YUV444
  else cudaVideoSurfaceFormat_NV12

/-- Reference, after the specification (section 4.1, step 6): the default when
the capability mask has its bit, otherwise the first format of the fixed
priority list whose bit is in the mask; `none` when there is none. -/
def referenceOutputFormat (chroma_format bit_depth_luma_minus8 mask : Nat) : Option Nat :=
  if mask.testBit (referenceDefaultFormat chroma_format bit_depth_luma_minus8) then
    some (referenceDefaultFormat chroma_format bit_depth_luma_minus8)
  else
    [cudaVideoSurfaceFormat_NV12, cudaVideoSurfaceFormat_P016, cudaVideoSurfaceFormat_YUV444,
      cudaVideoSurfaceFormat_YUV444_16Bit].find? fun f => mask.testBit f

/-- A 10-bit 4:4:4 HEVC sequence header, 1280x720. -/
def format444 : CUVIDEOFORMAT :=
  { codec := 8, chroma_format := cudaVideoChromaFormat_444, bit_depth_luma_minus8 := 2,
    coded_width := 1280, coded_height := 720, display_area := ⟨0, 0, 1280, 720⟩,
    progressive_sequence := 1, min_num_decode_surfaces := 6 }

/-- The decoder after `format444` has been negotiated on `exampleDecoder`. -/
def negotiated444 : Decoder :=
  stateOr exampleDecoder (handleVideoSequence exampleDecoder format444 exampleCaps true)

/-! ## Definitions for C9: the stored format after a failed negotiation -/

/-- Capabilities as `exampleCaps`, but with an empty output-format mask. -/
def noFormatCaps : CUVIDDECODECAPS :=
  { bIsSupported := 1, nMaxWidth := 4096, nMaxHeight := 4096, nMaxMBCount := 65536,
    nOutputFormatMask := 0 }

/-- The decoder after the negotiation of `format444` against `noFormatCaps` has
thrown on `exampleAfter`. -/
def partlyStored : Decoder :=
  stateOr exampleAfter (handleVideoSequence exampleAfter format444 noFormatCaps true)

/-- A monochrome (4:0:0) 8-bit H.264 sequence header, 1280x720. -/
def monochromeFormat : CUVIDEOFORMAT :=
  { codec := 4, chroma_format := 0, bit_depth_luma_minus8 := 0,
    coded_width := 1280, coded_height := 720, display_area := ⟨0, 0, 1280, 720⟩,
    progressive_sequence := 1, min_num_decode_surfaces := 4 }

/-- The decoder after the negotiation of `monochromeFormat` against
`noFormatCaps` has thrown on `partlyStored`. -/
def monochromeStored : Decoder :=
  stateOr partlyStored (handleVideoSequence partlyStored monochromeFormat noFormatCaps true)

/-! ## Definitions for C10: decode sessions made and destroyed -/

/-- A packet that announces a format change to `format444`. -/
def renegotiatePacket : Packet :=
  { events := [Event.sequence format444 exampleCaps true], parserOk := true }

/-- The decoder after `examplePacket` and then `renegotiatePacket`. -/
def exampleRenegotiated : Decoder :=
  ((decode exampleAfter renegotiatePacket).getD (0, exampleAfter)).2

/-! ## Definitions for C11: crop and resize -/

/-- A decoder made with the crop rectangle (100, 50)-(740, 410) and the resize
dimensions 1280x720 both set. -/
def cropResizeDecoder : Decoder :=
  create_cuvid_decoder true 4 (-1) 0 ⟨100, 50, 740, 410⟩ ⟨1280, 720⟩

/-- The decoder `cropResizeDecoder` after `exampleFormat` has been negotiated. -/
def cropResizeNegotiated : Decoder :=
  stateOr cropResizeDecoder (handleVideoSequence cropResizeDecoder exampleFormat exampleCaps true)

/-- A decoder made with a crop rectangle whose left edge (100) lies right of
its right edge (50). -/
def invertedCropDecoder : Decoder :=
  create_cuvid_decoder true 4 (-1) 0 ⟨100, 0, 50, 50⟩ ⟨0, 0⟩

/-- The decoder `invertedCropDecoder` after `exampleFormat` has been negotiated. -/
def invertedCropNegotiated : Decoder :=
  stateOr invertedCropDecoder
    (handleVideoSequence invertedCropDecoder exampleFormat exampleCaps true)

/-- A decoder made with the crop rectangle (0, 0)-(40000, 40000). -/
def wideCropDecoder : Decoder :=
  create_cuvid_decoder true 4 (-1) 0 ⟨0, 0, 40000, 40000⟩ ⟨0, 0⟩

/-- The decoder `wideCropDecoder` after `exampleFormat` has been negotiated. -/
def wideCropNegotiated : Decoder :=
  stateOr wideCropDecoder (handleVideoSequence wideCropDecoder exampleFormat exampleCaps true)

/-! ## Definitions for C18: bytes per pixel and output format -/

/-- A 10-bit 4:2:0 HEVC sequence header, 1920x1088. -/
def format420_10bit : CUVIDEOFORMAT :=
  { codec := 8, chroma_format := cudaVideoChromaFormat_420, bit_depth_luma_minus8 := 2,
    coded_width := 1920, coded_height := 1088, display_area := ⟨0, 0, 1920, 1080⟩,
    progressive_sequence := 1, min_num_decode_surfaces := 5 }

/-- Capabilities whose output-format mask holds NV12 only. -/
def onlyNV12Caps : CUVIDDECODECAPS :=
  { bIsSupported := 1, nMaxWidth := 4096, nMaxHeight := 4096, nMaxMBCount := 65536,
    nOutputFormatMask := 1 }

/-- The decoder after `format420_10bit` has been negotiated against
`onlyNV12Caps` on `exampleDecoder`. -/
def negotiated10bitNV12 : Decoder :=
  stateOr exampleDecoder (handleVideoSequence exampleDecoder format420_10bit onlyNV12Caps true)

/-- A 10-bit 4:2:2 HEVC sequence header, 1920x1088. -/
def format422_10bit : CUVIDEOFORMAT :=
  { codec := 8, chroma_format := cudaVideoChromaFormat_422, bit_depth_luma_minus8 := 2,
    coded_width := 1920, coded_height := 1088, display_area := ⟨0, 0, 1920, 1080⟩,
    progressive_sequence := 1, min_num_decode_surfaces := 5 }

/-- The decoder after `format422_10bit` has been negotiated against
`exampleCaps` (NV12 and P016) on `exampleDecoder`. -/
def negotiated422 : Decoder :=
  stateOr exampleDecoder (handleVideoSequence exampleDecoder format422_10bit exampleCaps true)

/-- The decoder after `format420_10bit` has been negotiated against
`exampleCaps` (NV12 and P016) on `exampleDecoder`. -/
def negotiated10bitP016 : Decoder :=
  stateOr exampleDecoder (handleVideoSequence exampleDecoder format420_10bit exampleCaps true)

/-! ## Definitions for C15 and C17: the plane copies -/

/-- The destination side of one `cuMemcpy2DAsync` call: `Height` rows of
`WidthInBytes` bytes each, row `r` starting `dstOffset + r * dstPitch` bytes
into the pool slot. -/
structure PlaneCopy where
  dstOffset : Nat
  dstPitch : Nat
  WidthInBytes : Nat
  Height : Nat
  deriving DecidableEq, Repr

/-- Byte `b` of the pool slot is written by the copy. -/
def PlaneCopy.writes (c : PlaneCopy) (b : Nat) : Prop :=
  ∃ r, r < c.Height ∧ c.dstOffset + r * c.dstPitch ≤ b
    ∧ b < c.dstOffset + r * c.dstPitch + c.WidthInBytes

instance (c : PlaneCopy) (b : Nat) : Decidable (c.writes b) := by
  unfold PlaneCopy.writes
  infer_instance

/-- Lines 506-508: `m_nWidth * m_nBPP`, a product in `unsigned int`. -/
def dstPitch (d : Decoder) : Nat := (d.m_nWidth * toU32 d.m_nBPP) % 2 ^ 32

/-- Lines 493-534 of `handlePictureDisplay`: the luma copy at the start of the
slot, the first chroma copy `dstPitch * m_nLumaHeight` bytes in, and, with two
chroma planes, the second chroma copy `dstPitch * m_nLumaHeight * 2` bytes in
(offsets are formed in `size_t`). -/
def planeCopies (d : Decoder) : List PlaneCopy :=
  [{ dstOffset := 0, dstPitch := dstPitch d, WidthInBytes := dstPitch d,
     Height := d.m_nLumaHeight },
   { dstOffset := (dstPitch d * d.m_nLumaHeight) % 2 ^ 64, dstPitch := dstPitch d,
     WidthInBytes := dstPitch d, Height := d.m_nChromaHeight }]
  ++ (if d.m_nNumChromaPlanes = 2 then
        [{ dstOffset := (dstPitch d * d.m_nLumaHeight * 2) % 2 ^ 64, dstPitch := dstPitch d,
           WidthInBytes := dstPitch d, Height := d.m_nChromaHeight }]
      else [])

/-- A decoder made with the resize dimensions 65536x43692. -/
def hugeResizeDecoder : Decoder :=
  create_cuvid_decoder true 4 (-1) 0 ⟨0, 0, 0, 0⟩ ⟨65536, 43692⟩

/-- The decoder `hugeResizeDecoder` after `exampleFormat` has been negotiated. -/
def hugeResizeNegotiated : Decoder :=
  stateOr hugeResizeDecoder (handleVideoSequence hugeResizeDecoder exampleFormat exampleCaps true)

/-- Inside a `decode` call that started from an empty pool: after `c` display
callbacks the counter and the pool size are both `c`. -/
def GrownTo (d : Decoder) (c : Nat) : Prop :=
  d.m_nDecodedFrame = c ∧ d.m_vpFrame.length = c

/-- A decoder made with `max_cache = -5`, after `exampleFormat` has been
negotiated. -/
def minusFiveDecoder : Decoder :=
  stateOr exampleDecoder
    (handleVideoSequence (create_cuvid_decoder true 4 (-5) 0 ⟨0, 0, 0, 0⟩ ⟨0, 0⟩)
      exampleFormat exampleCaps true)

/-- A packet with three pictures to display, timestamps 10, 20, 30. -/
def threeDisplays : Packet :=
  { events := [exampleDisplay 10, exampleDisplay 20, exampleDisplay 30], parserOk := true }

/-- The decoder `minusFiveDecoder` after `threeDisplays` has been fed. -/
def minusFiveAfter : Decoder :=
  ((decode minusFiveDecoder threeDisplays).getD (0, minusFiveDecoder)).2

/-! ## Definitions for C14: reuse of the last slot at capacity -/

/-- Inside a `decode` call on a cache of capacity `K`, after the pictures with
timestamps `pre` have been displayed: the counter is `min pre.length K` within
a pool of at most `K` slots, the slots before the last one of the capacity
carry the timestamps of their pictures, and once `K` pictures have been
displayed slot `K - 1` carries the newest timestamp. -/
def CappedStamps (K : Nat) (d : Decoder) (pre : List Int) : Prop :=
  d.m_nMaxCache = K ∧ d.m_nDecodedFrame = (min pre.length K : Nat)
    ∧ d.m_nDecodedFrameReturned = 0
    ∧ d.m_nDecodedFrame ≤ d.m_vpFrame.length ∧ d.m_vpFrame.length ≤ K
    ∧ (∀ i, i < pre.length → i + 1 < K → d.m_vTimestamp[i]? = pre[i]?)
    ∧ (K ≤ pre.length → d.m_vTimestamp[K - 1]? = pre.getLast?)

/-- A decoder made with `max_cache = 3`, after `exampleFormat` has been
negotiated. -/
def capacityThreeDecoder : Decoder :=
  stateOr exampleDecoder
    (handleVideoSequence (create_cuvid_decoder true 4 3 0 ⟨0, 0, 0, 0⟩ ⟨0, 0⟩)
      exampleFormat exampleCaps true)

/-- A packet with five pictures to display, timestamps 1 to 5. -/
def fiveDisplayPacket : Packet :=
  { events := [exampleDisplay 1, exampleDisplay 2, exampleDisplay 3, exampleDisplay 4,
               exampleDisplay 5],
    parserOk := true }

/-- The decoder `capacityThreeDecoder` after `fiveDisplayPacket` has been fed. -/
def capacityThreeAfter : Decoder :=
  ((decode capacityThreeDecoder fiveDisplayPacket).getD (0, capacityThreeDecoder)).2

/-! ## Definitions for C13: the decode loop of `test_hard_decode` -/

/-- The local state of `test_hard_decode` (`src/application/app_hard_decode.cpp`):
the decoder, `ever_success`, `decode_infos[index].total_frames`, and the
number of "Always failed" lines logged so far. -/
structure AppState where
  decoder : Decoder
  ever_success : Bool
  total_frames : Int
  alwaysFailed : Nat
  deriving DecidableEq, Repr

/-- Lines 71-87: the `for` loop over the frames of one call; each of its
remaining iterations logs "Always failed" when `get_frame_index() > 1000` and
`ever_success == false`. -/
def frameLoop (frameIndex : Nat) (ever_success : Bool) : Nat → Nat → Nat
  | 0, logged => logged
  | n + 1, logged =>
    frameLoop frameIndex ever_success n
      (if frameIndex > 1000 ∧ ever_success = false then logged + 1 else logged)

/-- Lines 59-87: one iteration of the `do ... while` loop for the packet the
demuxer delivers. -/
def loopBody (st : AppState) (pkt : Packet) : Option AppState :=
  match decode st.decoder pkt with
  | none => none
  | some (ndecoded_frame, d1) =>
    let ever_success : Bool := if ndecoded_frame > 0 then true else st.ever_success
    some { decoder := d1
           ever_success := ever_success
           total_frames := st.total_frames + ndecoded_frame
           alwaysFailed :=
             frameLoop d1.m_iFrameIndex ever_success ndecoded_frame.toNat st.alwaysFailed }

/-- The iterations of the loop for the packets of the stream, in order. -/
def decodeLoop (st : AppState) : List Packet → Option AppState
  | [] => some st
  | pkt :: pkts =>
    match loopBody st pkt with
    | none => none
    | some st1 => decodeLoop st1 pkts

/-- `test_hard_decode` from the creation of the decoder (line 27:
`max_cache = -1`, device 0) on: the extra data are fed once, then the loop
runs over the packets of the stream. -/
def test_hard_decode (codec : Nat) (extra : Packet) (stream : List Packet) : Option AppState :=
  match decode (create_cuvid_decoder true codec (-1) 0 ⟨0, 0, 0, 0⟩ ⟨0, 0⟩) extra with
  | none => none
  | some (_, d) =>
    decodeLoop { decoder := d, ever_success := false, total_frames := 0, alwaysFailed := 0 } stream

/-- A packet the parser accepts without making any callback. -/
def silentPacket : Packet := { events := [], parserOk := true }

/-- A packet the parser rejects. -/
def rejectedPacket : Packet := { events := [], parserOk := false }

/-- What the claim looks at: `get_frame_index()`, `ever_success`, the frame
total and the number of "Always failed" lines logged. -/
def appSummary (st : AppState) : Nat × Bool × Int × Nat :=
  (st.decoder.m_iFrameIndex, st.ever_success, st.total_frames, st.alwaysFailed)

/-! ## Definitions for C16: the slot index with capacity 0 -/

/-- A decoder made with `max_cache = 0`, after `exampleFormat` has been
negotiated. -/
def zeroCacheDecoder : Decoder :=
  stateOr exampleDecoder
    (handleVideoSequence (create_cuvid_decoder true 4 0 0 ⟨0, 0, 0, 0⟩ ⟨0, 0⟩)
      exampleFormat exampleCaps true)

/-! ## Definitions for C17: slot sizes across a format change -/

/-- A 1280x720 H.264 4:2:0 8-bit sequence header. -/
def smallFormat : CUVIDEOFORMAT :=
  { codec := 4, chroma_format := cudaVideoChromaFormat_420, bit_depth_luma_minus8 := 0,
    coded_width := 1280, coded_height := 720, display_area := ⟨0, 0, 1280, 720⟩,
    progressive_sequence := 1, min_num_decode_surfaces := 4 }

/-- A first packet: the 1280x720 sequence header and one picture. -/
def smallPacket : Packet :=
  { events := [Event.sequence smallFormat exampleCaps true, Event.picture 0, exampleDisplay 100],
    parserOk := true }

/-- A later packet: a format change to 1920x1080 and one picture. -/
def largePacket : Packet :=
  { events := [Event.sequence exampleFormat exampleCaps true, Event.picture 0,
               exampleDisplay 200],
    parserOk := true }

/-- The decoder after `smallPacket`, one `get_frame`, and `largePacket`. -/
def upscaledAfter : Decoder :=
  ((run exampleDecoder [Call.feed smallPacket, Call.pull, Call.feed largePacket]).getD
    ([], exampleDecoder)).2

/-! # Theorems -/

/-! ## Frame lemmas: what each callback leaves alone -/

theorem storeFormat_poolView (d : Decoder) (fmt : CUVIDEOFORMAT) :
    poolView (storeFormat d fmt) = poolView d := by
  unfold storeFormat
  simp only []
  split_ifs <;> rfl

theorem checkOutputFormat_poolView (d d1 : Decoder) (caps : CUVIDDECODECAPS)
    (h : checkOutputFormat d caps = some d1) : poolView d1 = poolView d := by
  unfold checkOutputFormat at h
  split_ifs at h <;> simp at h <;> subst h <;> rfl

theorem targetGeometry_poolView (d : Decoder) (fmt : CUVIDEOFORMAT) :
    poolView (targetGeometry d fmt).1 = poolView d := by
  unfold targetGeometry
  simp only []
  split_ifs <;> rfl

theorem cuvidCreateDecoder_poolView (d : Decoder) (ok : Bool) :
    poolView (cuvidCreateDecoder d ok) = poolView d := by
  unfold cuvidCreateDecoder
  split_ifs <;> rfl

theorem createSession_poolView (d d1 : Decoder) (fmt : CUVIDEOFORMAT) (ok : Bool) (v : Int)
    (h : createSession d fmt ok = Handled.ret v d1) : poolView d1 = poolView d := by
  unfold createSession at h
  have hg := targetGeometry_poolView { d with m_videoFormat := fmt } fmt
  dsimp only at h
  generalize targetGeometry { d with m_videoFormat := fmt } fmt = g at h hg
  obtain ⟨d2, info⟩ := g
  dsimp only at h hg
  split at h
  · cases h
  · simp only [Handled.ret.injEq] at h
    rw [← h.2, cuvidCreateDecoder_poolView]
    exact hg

theorem createSession_no_throw (d d1 : Decoder) (fmt : CUVIDEOFORMAT) (ok : Bool) (e : Thrown) :
    createSession d fmt ok ≠ Handled.throw e d1 := by
  unfold createSession
  dsimp only
  generalize targetGeometry { d with m_videoFormat := fmt } fmt = g
  obtain ⟨d2, info⟩ := g
  intro h
  dsimp only at h
  split at h <;> cases h

theorem settleOutputFormat_poolView (d : Decoder) (fmt : CUVIDEOFORMAT)
    (caps : CUVIDDECODECAPS) (ok : Bool) (d1 : Decoder)
    (h : (∃ v, settleOutputFormat d fmt caps ok = Handled.ret v d1)
       ∨ (∃ e, settleOutputFormat d fmt caps ok = Handled.throw e d1)) :
    poolView d1 = poolView d := by
  unfold settleOutputFormat at h
  split_ifs at h
  · rcases h with ⟨v, h⟩ | ⟨e, h⟩ <;> cases h
  · cases hc : checkOutputFormat d caps with
    | none =>
      simp only [hc] at h
      rcases h with ⟨v, h⟩ | ⟨e, h⟩
      · cases h
      · cases h; rfl
    | some d2 =>
      simp only [hc] at h
      have h2 := checkOutputFormat_poolView _ _ _ hc
      rcases h with ⟨v, h⟩ | ⟨e, h⟩
      · rw [createSession_poolView _ _ _ _ _ h, h2]
      · exact absurd h (createSession_no_throw _ _ _ _ _)

/-- Format negotiation never touches the frame pool, the delivery cursor, the
cache limit or the frame index, whether it returns or throws. -/
theorem handleVideoSequence_poolView (d : Decoder) (fmt : CUVIDEOFORMAT)
    (caps : CUVIDDECODECAPS) (ok : Bool) (d1 : Decoder)
    (h : (∃ v, handleVideoSequence d fmt caps ok = Handled.ret v d1)
       ∨ (∃ e, handleVideoSequence d fmt caps ok = Handled.throw e d1)) :
    poolView d1 = poolView d := by
  unfold handleVideoSequence at h
  split_ifs at h
  · rcases h with ⟨v, h⟩ | ⟨e, h⟩
    · cases h
    · cases h; rfl
  · rcases h with ⟨v, h⟩ | ⟨e, h⟩
    · cases h
    · cases h; rfl
  · rcases h with ⟨v, h⟩ | ⟨e, h⟩
    · cases h
    · cases h; rfl
  · rw [settleOutputFormat_poolView _ _ _ _ _ h, storeFormat_poolView]

theorem handlePictureDecode_poolView (d : Decoder) (idx : Int) (d1 : Decoder)
    (h : (∃ v, handlePictureDecode d idx = Handled.ret v d1)
       ∨ (∃ e, handlePictureDecode d idx = Handled.throw e d1)) :
    poolView d1 = poolView d := by
  unfold handlePictureDecode at h
  split_ifs at h
  · rcases h with ⟨v, h⟩ | ⟨e, h⟩
    · cases h
    · cases h; rfl
  · rcases h with ⟨v, h⟩ | ⟨e, h⟩
    · cases h; rfl
    · cases h
  · rcases h with ⟨v, h⟩ | ⟨e, h⟩ <;> cases h

theorem handlePictureDisplay_no_throw (d d1 : Decoder) (info : CUVIDPARSERDISPINFO)
    (e : Thrown) : handlePictureDisplay d info ≠ Handled.throw e d1 := by
  unfold handlePictureDisplay
  split_ifs
  · simp
  · cases selectSlot d with
    | none => simp
    | some d2 => simp only []; split_ifs <;> simp

/-! ## The slot choice of `handlePictureDisplay` -/

/-- The three ways `selectSlot` can end: the counter moves into an existing
slot, the cache limit takes the increment back, or the pool grows. -/
theorem selectSlot_cases (d d1 : Decoder) (h : selectSlot d = some d1) :
    (toU32 (d.m_nDecodedFrame + 1) ≤ d.m_vpFrame.length
      ∧ d1 = { d with m_nDecodedFrame := d.m_nDecodedFrame + 1 })
    ∨ (d.m_vpFrame.length < toU32 (d.m_nDecodedFrame + 1)
      ∧ d.m_nMaxCache ≠ -1 ∧ toU64 d.m_nMaxCache ≤ d.m_vpFrame.length
      ∧ d1 = { d with m_nDecodedFrame := d.m_nDecodedFrame + 1 - 1 })
    ∨ (d.m_vpFrame.length < toU32 (d.m_nDecodedFrame + 1)
      ∧ ¬ (d.m_nMaxCache ≠ -1 ∧ toU64 d.m_nMaxCache ≤ d.m_vpFrame.length)
      ∧ ∃ size, d1 = { d with
                       m_nDecodedFrame := d.m_nDecodedFrame + 1
                       m_vpFrame := d.m_vpFrame ++ [size]
                       m_vTimestamp := d.m_vTimestamp ++ [0] }) := by
  unfold selectSlot at h
  dsimp only at h
  split_ifs at h with h1 h2
  · right; left
    refine ⟨h1, h2.1, h2.2, ?_⟩
    simpa using h.symm
  · right; right
    refine ⟨h1, h2, ?_⟩
    split at h
    · cases h
    · rename_i size _
      exact ⟨toU64 size, by simpa using h.symm⟩
  · left
    exact ⟨not_lt.mp h1, by simpa using h.symm⟩

/-- What one picture-ready-for-display callback does when it returns. -/
theorem handlePictureDisplay_ret (d d1 : Decoder) (info : CUVIDPARSERDISPINFO) (v : Int)
    (h : handlePictureDisplay d info = Handled.ret v d1) :
    ∃ d2, selectSlot d = some d2
      ∧ 0 ≤ d2.m_nDecodedFrame - 1
      ∧ (d2.m_nDecodedFrame - 1).toNat < d2.m_vpFrame.length
      ∧ (d2.m_nDecodedFrame - 1).toNat < d2.m_vTimestamp.length
      ∧ d1 = { d2 with m_vTimestamp :=
                d2.m_vTimestamp.set (d2.m_nDecodedFrame - 1).toNat info.timestamp } := by
  unfold handlePictureDisplay at h
  split_ifs at h
  cases hs : selectSlot d with
  | none => simp [hs] at h
  | some d2 =>
    simp only [hs] at h
    split_ifs at h with hi
    injection h with _ h
    exact ⟨d2, rfl, hi.1, hi.2.1, hi.2.2, h.symm⟩

/-! ## Unbounded cache: what one `decode` call leaves buffered -/

theorem Buffered_of_poolView (d d1 : Decoder) (ts : List Int)
    (h : poolView d1 = poolView d) (hb : Buffered d ts) : Buffered d1 ts := by
  simp only [poolView, Prod.mk.injEq] at h
  obtain ⟨h1, h2, h3, h4, _, _⟩ := h
  unfold Buffered at *
  rw [h1, h2, h3, h4]
  exact hb

theorem getElem?_snoc_set (l ts : List Int) (n : Nat) (t : Int) (hn : n = ts.length)
    (hl : n < l.length) (hpre : ∀ i, i < ts.length → l[i]? = ts[i]?) :
    ∀ i, i < (ts ++ [t]).length → (l.set n t)[i]? = (ts ++ [t])[i]? := by
  intro i hi
  simp only [List.length_append, List.length_singleton] at hi
  by_cases hin : i < ts.length
  · rw [List.getElem?_set_ne (by omega), hpre i hin, List.getElem?_append_left hin]
  · have : i = n := by omega
    subst this
    rw [List.getElem?_set, if_pos rfl, if_pos hl, hn,
      List.getElem?_append_right (le_refl _)]
    simp

theorem handlePictureDisplay_unbounded (d d1 : Decoder) (info : CUVIDPARSERDISPINFO)
    (v : Int) (ts : List Int) (hmc : d.m_nMaxCache = -1) (hb : Buffered d ts)
    (h : handlePictureDisplay d info = Handled.ret v d1) :
    Buffered d1 (ts ++ [info.timestamp]) ∧ d1.m_nMaxCache = -1
      ∧ d1.m_iFrameIndex = d.m_iFrameIndex := by
  obtain ⟨d2, hs, h0, hvp, hvt, rfl⟩ := handlePictureDisplay_ret d d1 info v h
  obtain ⟨hn, hr, hlen, hts⟩ := hb
  rcases selectSlot_cases d d2 hs with ⟨_, rfl⟩ | ⟨_, hne, _, rfl⟩ | ⟨_, _, size, rfl⟩
  · dsimp only at h0 hvp hvt ⊢
    have hidx : (d.m_nDecodedFrame + 1 - 1).toNat = ts.length := by rw [hn]; simp
    rw [hidx] at hvp hvt ⊢
    refine ⟨⟨?_, hr, ?_, ?_⟩, hmc, rfl⟩
    · dsimp only; rw [hn]; simp
    · dsimp only; simp only [List.length_append, List.length_singleton]; omega
    · dsimp only
      exact getElem?_snoc_set _ ts _ _ rfl hvt hts
  · exact absurd hmc hne
  · dsimp only at h0 hvp hvt ⊢
    have hidx : (d.m_nDecodedFrame + 1 - 1).toNat = ts.length := by rw [hn]; simp
    rw [hidx] at hvp hvt ⊢
    refine ⟨⟨?_, hr, ?_, ?_⟩, hmc, rfl⟩
    · dsimp only; rw [hn]; simp
    · dsimp only; simp only [List.length_append, List.length_singleton] at hvp ⊢; omega
    · dsimp only
      refine getElem?_snoc_set _ ts _ _ rfl hvt ?_
      intro i hi
      have hsome := hts i hi
      have hil : i < d.m_vTimestamp.length := by
        by_contra hcon
        rw [List.getElem?_eq_none (not_lt.mp hcon), List.getElem?_eq_getElem hi] at hsome
        cases hsome
      rw [List.getElem?_append_left hil]
      exact hsome

theorem handleEvent_poolView (d d1 : Decoder) (e : Event) (v : Int)
    (hnd : ∀ info, e ≠ Event.display info)
    (h : handleEvent d e = Handled.ret v d1) : poolView d1 = poolView d := by
  cases e with
  | sequence fmt caps ok => exact handleVideoSequence_poolView d fmt caps ok d1 (Or.inl ⟨v, h⟩)
  | picture idx => exact handlePictureDecode_poolView d idx d1 (Or.inl ⟨v, h⟩)
  | display info => exact absurd rfl (hnd info)

theorem runEvents_unbounded (es : List Event) :
    ∀ (d d1 : Decoder) (ts : List Int) (v : Int), d.m_nMaxCache = -1 → Buffered d ts →
      runEvents d es = Handled.ret v d1 →
      Buffered d1 (ts ++ displayTimestamps es) ∧ d1.m_nMaxCache = -1
        ∧ d1.m_iFrameIndex = d.m_iFrameIndex := by
  induction es with
  | nil =>
    intro d d1 ts v hmc hb h
    simp only [runEvents, Handled.ret.injEq] at h
    rw [← h.2]
    simpa [displayTimestamps] using ⟨hb, hmc⟩
  | cons e es ih =>
    intro d d1 ts v hmc hb h
    simp only [runEvents] at h
    cases he : handleEvent d e with
    | undefined => simp [he] at h
    | throw t d2 => simp [he] at h
    | ret w d2 =>
      simp only [he] at h
      cases e with
      | display info =>
        obtain ⟨hb2, hmc2, hfi2⟩ := handlePictureDisplay_unbounded d d2 info w ts hmc hb he
        obtain ⟨hb1, hmc1, hfi1⟩ := ih d2 d1 _ v hmc2 hb2 h
        refine ⟨?_, hmc1, hfi1.trans hfi2⟩
        simpa [displayTimestamps] using hb1
      | sequence fmt caps ok =>
        have hp := handleEvent_poolView d d2 _ w (by intro info hc; cases hc) he
        have hmc2 : d2.m_nMaxCache = -1 := by
          simp only [poolView, Prod.mk.injEq] at hp; rw [hp.2.2.2.2.1]; exact hmc
        have hfi2 : d2.m_iFrameIndex = d.m_iFrameIndex := by
          simp only [poolView, Prod.mk.injEq] at hp; exact hp.2.2.2.2.2
        obtain ⟨hb1, hmc1, hfi1⟩ := ih d2 d1 ts v hmc2 (Buffered_of_poolView d d2 ts hp hb) h
        exact ⟨by simpa [displayTimestamps] using hb1, hmc1, hfi1.trans hfi2⟩
      | picture idx =>
        have hp := handleEvent_poolView d d2 _ w (by intro info hc; cases hc) he
        have hmc2 : d2.m_nMaxCache = -1 := by
          simp only [poolView, Prod.mk.injEq] at hp; rw [hp.2.2.2.2.1]; exact hmc
        have hfi2 : d2.m_iFrameIndex = d.m_iFrameIndex := by
          simp only [poolView, Prod.mk.injEq] at hp; exact hp.2.2.2.2.2
        obtain ⟨hb1, hmc1, hfi1⟩ := ih d2 d1 ts v hmc2 (Buffered_of_poolView d d2 ts hp hb) h
        exact ⟨by simpa [displayTimestamps] using hb1, hmc1, hfi1.trans hfi2⟩

/-- A call of `decode` that does not fail went through the success branch. -/
theorem decode_success (d d1 : Decoder) (pkt : Packet) (r : Int)
    (h : decode d pkt = some (r, d1)) (hr : r ≠ -1) :
    ∃ v d2, runEvents (resetCounters d) pkt.events = Handled.ret v d2
      ∧ pkt.parserOk = true
      ∧ d1 = { d2 with m_iFrameIndex := (d2.m_iFrameIndex + 1) % 2 ^ 32 }
      ∧ r = d2.m_nDecodedFrame := by
  unfold decode at h
  cases hre : runEvents (resetCounters d) pkt.events with
  | undefined => simp [hre] at h
  | throw t d2 =>
    simp only [hre, Option.some.injEq, Prod.mk.injEq] at h
    exact absurd h.1.symm hr
  | ret v d2 =>
    simp only [hre] at h
    cases hp : pkt.parserOk with
    | false =>
      simp only [hp, Bool.not_false, if_true, Option.some.injEq, Prod.mk.injEq] at h
      exact absurd h.1.symm hr
    | true =>
      simp only [hp, Bool.not_true, Bool.false_eq_true, if_false, Option.some.injEq,
        Prod.mk.injEq] at h
      exact ⟨v, d2, rfl, rfl, h.2.symm, h.1.symm⟩

theorem get_frames_succ (n : Nat) (d : Decoder) :
    get_frames (n + 1) d =
      match get_frame d with
      | none => none
      | some (f, d1) =>
        match get_frames n d1 with
        | none => none
        | some (fs, d2) => some (f :: fs, d2) := rfl

/-- Pulling from a state that holds `ts.length` buffered frames whose slots,
from the cursor on, carry `ts`: the frames come out in slot order with those
timestamps, and the next call gives `nullptr`. -/
theorem get_frames_buffered (ts : List Int) :
    ∀ (d : Decoder) (j : Nat), d.m_nDecodedFrame = ts.length →
      d.m_nDecodedFrameReturned = j → j + ts.length ≤ d.m_vpFrame.length →
      (∀ i, i < ts.length → d.m_vTimestamp[j + i]? = ts[i]?) →
      get_frames (ts.length + 1) d
        = some (framesFrom d.m_iFrameIndex j ts ++ [none],
                { d with m_nDecodedFrame := 0, m_nDecodedFrameReturned := (j + ts.length : Nat) }) := by
  induction ts with
  | nil =>
    intro d j hn hr _ _
    have h0 : get_frame d = some (none, d) := by
      unfold get_frame
      rw [if_neg (by rw [hn]; simp)]
    simp only [List.length_nil, zero_add, get_frames, h0, framesFrom, List.nil_append,
      Nat.add_zero]
    simp only [List.length_nil, Nat.cast_zero] at hn
    cases d
    simp_all
  | cons t ts ih =>
    intro d j hn hr hlen hts
    simp only [List.length_cons] at hn hlen
    have ht : d.m_vTimestamp[j]? = some t := by simpa using hts 0 (by simp)
    have h1 : get_frame d
        = some (some { slot := j, timestamp := t, frameIndex := d.m_iFrameIndex },
            { d with m_nDecodedFrame := d.m_nDecodedFrame - 1
                     m_nDecodedFrameReturned := d.m_nDecodedFrameReturned + 1 }) := by
      unfold get_frame
      rw [if_pos (by rw [hn]; push_cast; omega)]
      dsimp only
      rw [if_pos (by rw [hr]; simp; omega)]
      simp only [hr, Int.toNat_ofNat, ht]
    have hrec := ih
      { d with m_nDecodedFrame := d.m_nDecodedFrame - 1
               m_nDecodedFrameReturned := d.m_nDecodedFrameReturned + 1 } (j + 1)
      (by dsimp only; rw [hn]; push_cast; omega)
      (by dsimp only; rw [hr]; push_cast; rfl)
      (by dsimp only; omega)
      (by
        intro i hi
        dsimp only
        have := hts (i + 1) (by simp; omega)
        rw [List.getElem?_cons_succ] at this
        rw [← this]
        congr 1
        omega)
    rw [List.length_cons, get_frames_succ, h1]
    dsimp only
    rw [hrec]
    simp only [framesFrom, List.cons_append, Option.some.injEq, Prod.mk.injEq, true_and]
    congr 1
    push_cast
    omega

/-! ## The cache limit is never written after construction -/

theorem handleEvent_maxCache (d d1 : Decoder) (e : Event)
    (h : (∃ v, handleEvent d e = Handled.ret v d1) ∨ (∃ t, handleEvent d e = Handled.throw t d1)) :
    d1.m_nMaxCache = d.m_nMaxCache := by
  cases e with
  | sequence fmt caps ok =>
    have hp := handleVideoSequence_poolView d fmt caps ok d1 h
    simp only [poolView, Prod.mk.injEq] at hp
    exact hp.2.2.2.2.1
  | picture idx =>
    have hp := handlePictureDecode_poolView d idx d1 h
    simp only [poolView, Prod.mk.injEq] at hp
    exact hp.2.2.2.2.1
  | display info =>
    rcases h with ⟨v, h⟩ | ⟨t, h⟩
    · obtain ⟨d2, hs, _, _, _, rfl⟩ := handlePictureDisplay_ret d d1 info v h
      rcases selectSlot_cases d d2 hs with ⟨_, rfl⟩ | ⟨_, _, _, rfl⟩ | ⟨_, _, size, rfl⟩ <;> rfl
    · exact absurd h (handlePictureDisplay_no_throw d d1 info t)

theorem runEvents_maxCache (es : List Event) :
    ∀ (d d1 : Decoder),
      ((∃ v, runEvents d es = Handled.ret v d1) ∨ (∃ t, runEvents d es = Handled.throw t d1)) →
      d1.m_nMaxCache = d.m_nMaxCache := by
  induction es with
  | nil =>
    intro d d1 h
    rcases h with ⟨v, h⟩ | ⟨t, h⟩
    · simp only [runEvents, Handled.ret.injEq] at h; rw [← h.2]
    · simp [runEvents] at h
  | cons e es ih =>
    intro d d1 h
    simp only [runEvents] at h
    cases he : handleEvent d e with
    | undefined => simp [he] at h
    | throw t d2 =>
      simp only [he, Handled.throw.injEq, exists_false, false_or, reduceCtorEq] at h
      obtain ⟨t1, _, rfl⟩ := h
      exact handleEvent_maxCache d d2 e (Or.inr ⟨t, he⟩)
    | ret w d2 =>
      simp only [he] at h
      rw [ih d2 d1 h]
      exact handleEvent_maxCache d d2 e (Or.inl ⟨w, he⟩)

theorem decode_maxCache (d d1 : Decoder) (pkt : Packet) (r : Int)
    (h : decode d pkt = some (r, d1)) : d1.m_nMaxCache = d.m_nMaxCache := by
  unfold decode at h
  cases hre : runEvents (resetCounters d) pkt.events with
  | undefined => simp [hre] at h
  | throw t d2 =>
    simp only [hre, Option.some.injEq, Prod.mk.injEq] at h
    rw [← h.2]
    exact runEvents_maxCache pkt.events (resetCounters d) d2 (Or.inr ⟨t, hre⟩)
  | ret v d2 =>
    simp only [hre] at h
    have h2 : d2.m_nMaxCache = d.m_nMaxCache :=
      runEvents_maxCache pkt.events (resetCounters d) d2 (Or.inl ⟨v, hre⟩)
    split_ifs at h
    · simp only [Option.some.injEq, Prod.mk.injEq] at h
      rw [← h.2]; exact h2
    · simp only [Option.some.injEq, Prod.mk.injEq] at h
      rw [← h.2]; exact h2

/-- One successful call on an unbounded cache: for every decoder state with
`m_nMaxCache = -1` and every `decode` call
on it that does not fail, if the call's display callbacks carry the timestamps
`t1..td` in callback order, then the next `d` `get_frame` calls return pool
slots `0..d-1` in that order with timestamps `t1..td`, and call `d+1` returns
`nullptr`; the call itself returned `d`. -/
theorem decode_unbounded_frames (d d1 : Decoder) (pkt : Packet) (r : Int)
    (hmc : d.m_nMaxCache = -1) (h : decode d pkt = some (r, d1)) (hr : r ≠ -1) :
    r = (displayTimestamps pkt.events).length
      ∧ get_frames ((displayTimestamps pkt.events).length + 1) d1
        = some (framesFrom d1.m_iFrameIndex 0 (displayTimestamps pkt.events) ++ [none],
                { d1 with
                  m_nDecodedFrame := 0
                  m_nDecodedFrameReturned := ((displayTimestamps pkt.events).length : Nat) }) := by
  obtain ⟨v, d2, hrun, _, rfl, rfl⟩ := decode_success d d1 pkt r h hr
  have hb0 : Buffered (resetCounters d) [] :=
    ⟨rfl, rfl, Nat.zero_le _, fun i hi => absurd hi (Nat.not_lt_zero i)⟩
  obtain ⟨⟨hn, hret, hlen, hts⟩, _, _⟩ := runEvents_unbounded pkt.events
    (resetCounters d) d2 [] v hmc hb0 hrun
  simp only [List.nil_append] at hn hret hlen hts
  refine ⟨hn, ?_⟩
  have := get_frames_buffered (displayTimestamps pkt.events)
    { d2 with m_iFrameIndex := (d2.m_iFrameIndex + 1) % 2 ^ 32 } 0 hn
    (by simpa using hret) (by simpa using hlen) (by simpa using hts)
  simpa using this

/-! ## C1: FIFO hand-out after one successful call, unbounded cache -/

/-- C1: for every decoder state with `m_nMaxCache = -1` and every `decode` call
on it that does not fail, if the call's display callbacks carry the timestamps
`t1..td` in callback order, then the next `d` `get_frame` calls return pool
slots `0..d-1` in that order with timestamps `t1..td`, and call `d+1` returns
`nullptr`; the call itself returned `d`. -/
theorem get_frame_fifo_after_decode (d d1 : Decoder) (pkt : Packet) (r : Int)
    (hmc : d.m_nMaxCache = -1) (h : decode d pkt = some (r, d1)) (hr : r ≠ -1) :
    r = (displayTimestamps pkt.events).length
      ∧ get_frames ((displayTimestamps pkt.events).length + 1) d1
        = some (framesFrom d1.m_iFrameIndex 0 (displayTimestamps pkt.events) ++ [none],
                { d1 with
                  m_nDecodedFrame := 0
                  m_nDecodedFrameReturned := ((displayTimestamps pkt.events).length : Nat) }) := by
  obtain ⟨v, d2, hrun, _, rfl, rfl⟩ := decode_success d d1 pkt r h hr
  have hb0 : Buffered (resetCounters d) [] :=
    ⟨rfl, rfl, Nat.zero_le _, fun i hi => absurd hi (Nat.not_lt_zero i)⟩
  obtain ⟨⟨hn, hret, hlen, hts⟩, _, _⟩ := runEvents_unbounded pkt.events
    (resetCounters d) d2 [] v hmc hb0 hrun
  simp only [List.nil_append] at hn hret hlen hts
  refine ⟨hn, ?_⟩
  have := get_frames_buffered (displayTimestamps pkt.events)
    { d2 with m_iFrameIndex := (d2.m_iFrameIndex + 1) % 2 ^ 32 } 0 hn
    (by simpa using hret) (by simpa using hlen) (by simpa using hts)
  simpa using this

/-- C1 at `examplePacket`: two pictures displayed with timestamps 100 and 200. -/
theorem get_frame_fifo_after_decode_witness :
    exampleDecoder.m_nMaxCache = -1
      ∧ decode exampleDecoder examplePacket = some (2, exampleAfter)
      ∧ (get_frames 3 exampleAfter).map Prod.fst
        = some [some { slot := 0, timestamp := 100, frameIndex := 1 },
                some { slot := 1, timestamp := 200, frameIndex := 1 }, none] :=
  ⟨rfl, rfl, by
    have h := (get_frame_fifo_after_decode exampleDecoder exampleAfter examplePacket 2 rfl rfl
      (by decide)).2
    rw [show (displayTimestamps examplePacket.events).length + 1 = 3 from rfl] at h
    rw [h]
    rfl⟩

/-! ## C2: frames left after several calls without a pull in between -/

/-- C2, counterexample: ten successful calls with one picture each on a decoder
with unbounded cache, then eleven `get_frame` calls.  Every call returns 1 (sum
10), but only one frame comes back, the one of the tenth packet, in slot 0. -/
theorem frames_after_ten_feeds_counterexample :
    (run exampleDecoder (tenPackets.map Call.feed ++ List.replicate 11 Call.pull)).map Prod.fst
        = some (List.replicate 10 (Output.decoded 1)
            ++ Output.frame (some { slot := 0, timestamp := 10, frameIndex := 10 })
            :: List.replicate 10 (Output.frame none))
      ∧ (run exampleDecoder (tenPackets.map Call.feed ++ List.replicate 11 Call.pull)).map
          (fun r => (decodedSum r.1, framesReturned r.1)) = some (10, 1) := by
  constructor <;> rfl

theorem run_feed_cons (d : Decoder) (pkt : Packet) (cs : List Call) :
    run d (Call.feed pkt :: cs) =
      match decode d pkt with
      | none => none
      | some (n, d1) =>
        match run d1 cs with
        | none => none
        | some (os, d2) => some (Output.decoded n :: os, d2) := rfl

theorem run_pull_cons (d : Decoder) (cs : List Call) :
    run d (Call.pull :: cs) =
      match get_frame d with
      | none => none
      | some (f, d1) =>
        match run d1 cs with
        | none => none
        | some (os, d2) => some (Output.frame f :: os, d2) := rfl

/-- A completed run gives one output per call. -/
theorem run_length (cs : List Call) :
    ∀ (d : Decoder) (os : List Output) (d1 : Decoder), run d cs = some (os, d1) →
      os.length = cs.length := by
  induction cs with
  | nil =>
    intro d os d1 h
    simp only [run, Option.some.injEq, Prod.mk.injEq] at h
    rw [← h.1]
    rfl
  | cons c cs ih =>
    intro d os d1 h
    cases c with
    | feed pkt =>
      rw [run_feed_cons] at h
      cases hd : decode d pkt with
      | none => simp [hd] at h
      | some rd =>
        obtain ⟨r, d2⟩ := rd
        simp only [hd] at h
        cases hrun : run d2 cs with
        | none => simp [hrun] at h
        | some od =>
          obtain ⟨os1, d3⟩ := od
          simp only [hrun, Option.some.injEq, Prod.mk.injEq] at h
          rw [← h.1, List.length_cons, List.length_cons, ih d2 os1 d3 hrun]
    | pull =>
      rw [run_pull_cons] at h
      cases hd : get_frame d with
      | none => simp [hd] at h
      | some rd =>
        obtain ⟨f, d2⟩ := rd
        simp only [hd] at h
        cases hrun : run d2 cs with
        | none => simp [hrun] at h
        | some od =>
          obtain ⟨os1, d3⟩ := od
          simp only [hrun, Option.some.injEq, Prod.mk.injEq] at h
          rw [← h.1, List.length_cons, List.length_cons, ih d2 os1 d3 hrun]

/-- C2, amended: after any sequence of `decode` calls on a decoder with
unbounded cache, with no `get_frame` call in between and the last call
successful, the calls of `get_frame` that follow hand out exactly the pictures
displayed during the last call, in slots `0..d-1` and callback order, and then
`nullptr`; `d` is the count the last call returned. -/
theorem frames_after_feeds_are_last_calls (pkts : List Packet) :
    ∀ (d d1 : Decoder) (pkt : Packet) (outs : List Output), d.m_nMaxCache = -1 →
      run d (pkts.map Call.feed ++ [Call.feed pkt]) = some (outs, d1) →
      outs.getLast? ≠ some (Output.decoded (-1)) →
      outs.getLast? = some (Output.decoded (displayTimestamps pkt.events).length)
        ∧ get_frames ((displayTimestamps pkt.events).length + 1) d1
          = some (framesFrom d1.m_iFrameIndex 0 (displayTimestamps pkt.events) ++ [none],
                  { d1 with
                    m_nDecodedFrame := 0
                    m_nDecodedFrameReturned := ((displayTimestamps pkt.events).length : Nat) }) := by
  induction pkts with
  | nil =>
    intro d d1 pkt outs hmc h hlast
    simp only [List.map_nil, List.nil_append, run_feed_cons, run] at h
    cases hd : decode d pkt with
    | none => simp [hd] at h
    | some rd =>
      obtain ⟨r, d2⟩ := rd
      simp only [hd, Option.some.injEq, Prod.mk.injEq] at h
      obtain ⟨rfl, rfl⟩ := h
      have hr : r ≠ -1 := by
        intro hc
        apply hlast
        simp [hc]
      obtain ⟨h1, h2⟩ := decode_unbounded_frames d d2 pkt r hmc hd hr
      exact ⟨by simp [h1], h2⟩
  | cons p ps ih =>
    intro d d1 pkt outs hmc h hlast
    simp only [List.map_cons, List.cons_append, run_feed_cons] at h
    cases hd : decode d p with
    | none => simp [hd] at h
    | some rd =>
      obtain ⟨r, d2⟩ := rd
      simp only [hd] at h
      cases hrun : run d2 (List.map Call.feed ps ++ [Call.feed pkt]) with
      | none => simp [hrun] at h
      | some od =>
        obtain ⟨os, d3⟩ := od
        simp only [hrun, Option.some.injEq, Prod.mk.injEq] at h
        obtain ⟨rfl, rfl⟩ := h
        have hmc2 : d2.m_nMaxCache = -1 := (decode_maxCache d d2 p r hd).trans hmc
        have hne : os ≠ [] := by
          intro hc
          have := run_length _ d2 os d3 hrun
          rw [hc] at this
          simp at this
        have hl : (Output.decoded r :: os).getLast? = os.getLast? := by
          cases os with
          | nil => exact absurd rfl hne
          | cons o os => simp [List.getLast?_cons_cons]
        rw [hl] at hlast ⊢
        exact ih d2 d3 pkt os hmc2 hrun hlast

/-- C2, amended, at `examplePacket` followed by `examplePacket2`: the calls
return 2 and 1, and one frame (timestamp 300) comes back. -/
theorem frames_after_feeds_are_last_calls_witness :
    exampleDecoder.m_nMaxCache = -1
      ∧ run exampleDecoder ([examplePacket].map Call.feed ++ [Call.feed examplePacket2])
          = some ([Output.decoded 2, Output.decoded 1], exampleAfter2)
      ∧ (get_frames 2 exampleAfter2).map Prod.fst
          = some [some { slot := 0, timestamp := 300, frameIndex := 2 }, none] :=
  ⟨rfl, rfl, by
    have h := (frames_after_feeds_are_last_calls [examplePacket] exampleDecoder exampleAfter2
      examplePacket2 [Output.decoded 2, Output.decoded 1] rfl rfl (by decide)).2
    rw [show (displayTimestamps examplePacket2.events).length + 1 = 2 from rfl] at h
    rw [h]
    rfl⟩

/-! ## C3: the value `decode` returns -/

theorem toU32_of_range (x : Int) (h0 : 0 ≤ x) (h1 : x < 2 ^ 32) : (toU32 x : Int) = x := by
  unfold toU32
  rw [Int.emod_eq_of_lt h0 h1, Int.toNat_of_nonneg h0]

theorem toU64_of_range (x : Int) (h0 : 0 ≤ x) (h1 : x < 2 ^ 64) : (toU64 x : Int) = x := by
  unfold toU64
  rw [Int.emod_eq_of_lt h0 h1, Int.toNat_of_nonneg h0]

theorem toU32_le (x : Int) (h0 : 0 ≤ x) : (toU32 x : Int) ≤ x := by
  unfold toU32
  omega

theorem Capped_of_poolView (K : Int) (d d1 : Decoder) (c : Nat)
    (h : poolView d1 = poolView d) (hb : Capped K d c) : Capped K d1 c := by
  simp only [poolView, Prod.mk.injEq] at h
  obtain ⟨h1, _, h3, _, h5, _⟩ := h
  unfold Capped at *
  rw [h1, h3, h5]
  exact hb

theorem handlePictureDisplay_capped (K : Int) (hK1 : 1 ≤ K) (hK2 : K < 2 ^ 31)
    (d d1 : Decoder) (info : CUVIDPARSERDISPINFO) (v : Int) (c : Nat)
    (hb : Capped K d c) (h : handlePictureDisplay d info = Handled.ret v d1) :
    Capped K d1 (c + 1) := by
  obtain ⟨d2, hs, h0, hvp, _, rfl⟩ := handlePictureDisplay_ret d d1 info v h
  obtain ⟨hmc, hn, hnP, hPK⟩ := hb
  have hn0 : 0 ≤ d.m_nDecodedFrame := by rw [hn]; omega
  have hu32 : (toU32 (d.m_nDecodedFrame + 1) : Int) = d.m_nDecodedFrame + 1 :=
    toU32_of_range _ (by omega) (by omega)
  have hu64 : (toU64 d.m_nMaxCache : Int) = K := by
    rw [hmc]; exact toU64_of_range K (by omega) (by omega)
  rcases selectSlot_cases d d2 hs with ⟨hle, rfl⟩ | ⟨hlt, _, hcap, rfl⟩ | ⟨hlt, hncap, size, rfl⟩
  · dsimp only at h0 hvp ⊢
    refine ⟨hmc, ?_, ?_, hPK⟩
    · dsimp only; omega
    · dsimp only; omega
  · dsimp only at h0 hvp ⊢
    refine ⟨hmc, ?_, ?_, hPK⟩
    · dsimp only; omega
    · dsimp only; omega
  · dsimp only at h0 hvp ⊢
    have hne : d.m_nMaxCache ≠ -1 := by rw [hmc]; omega
    have hlt2 : d.m_vpFrame.length < toU64 d.m_nMaxCache := by
      by_contra hc
      exact hncap ⟨hne, not_lt.mp hc⟩
    refine ⟨hmc, ?_, ?_, ?_⟩
    · dsimp only; omega
    · dsimp only; simp only [List.length_append, List.length_singleton]; push_cast; omega
    · dsimp only; simp only [List.length_append, List.length_singleton]; push_cast; omega

theorem runEvents_capped (K : Int) (hK1 : 1 ≤ K) (hK2 : K < 2 ^ 31) (es : List Event) :
    ∀ (d d1 : Decoder) (c : Nat) (v : Int), Capped K d c →
      runEvents d es = Handled.ret v d1 →
      Capped K d1 (c + (displayTimestamps es).length) := by
  induction es with
  | nil =>
    intro d d1 c v hb h
    simp only [runEvents, Handled.ret.injEq] at h
    rw [← h.2]
    simpa [displayTimestamps] using hb
  | cons e es ih =>
    intro d d1 c v hb h
    simp only [runEvents] at h
    cases he : handleEvent d e with
    | undefined => simp [he] at h
    | throw t d2 => simp [he] at h
    | ret w d2 =>
      simp only [he] at h
      cases e with
      | display info =>
        have hb2 := handlePictureDisplay_capped K hK1 hK2 d d2 info w c hb he
        have := ih d2 d1 (c + 1) v hb2 h
        simp only [displayTimestamps, List.length_cons]
        rw [show c + ((displayTimestamps es).length + 1) = c + 1 + (displayTimestamps es).length
          by omega]
        exact this
      | sequence fmt caps ok =>
        have hp := handleEvent_poolView d d2 _ w (by intro info hc; cases hc) he
        simpa [displayTimestamps] using ih d2 d1 c v (Capped_of_poolView K d d2 c hp hb) h
      | picture idx =>
        have hp := handleEvent_poolView d d2 _ w (by intro info hc; cases hc) he
        simpa [displayTimestamps] using ih d2 d1 c v (Capped_of_poolView K d d2 c hp hb) h

/-- C3, counterexample: with `max_cache = 1`, a packet whose parse succeeds, in
which no callback throws and two display callbacks are processed, makes
`decode` return 1, not 2. -/
theorem decode_count_counterexample :
    examplePacket.parserOk = true
      ∧ threw (runEvents (resetCounters cappedDecoder) examplePacket.events) = false
      ∧ (displayTimestamps examplePacket.events).length = 2
      ∧ decode cappedDecoder examplePacket = some (1, cappedAfter) :=
  ⟨rfl, rfl, rfl, rfl⟩

/-- C3, amended: a `decode` call returns `-1` when the parser rejects the packet
or a callback throws; otherwise it returns `m_nDecodedFrame` as the callbacks
left it, which is the number `d` of display callbacks processed when the cache
is unbounded (`max_cache = -1`), and `min d K` when the cache limit is
`1 ≤ K < 2^31` and the pool is within the limit. -/
theorem decode_return_value (d d1 : Decoder) (pkt : Packet) (r : Int)
    (h : decode d pkt = some (r, d1)) :
    ((pkt.parserOk = false ∨ threw (runEvents (resetCounters d) pkt.events) = true) → r = -1)
      ∧ (¬ (pkt.parserOk = false ∨ threw (runEvents (resetCounters d) pkt.events) = true) →
          r = d1.m_nDecodedFrame
          ∧ (d.m_nMaxCache = -1 → r = (displayTimestamps pkt.events).length)
          ∧ ∀ K : Int, 1 ≤ K → K < 2 ^ 31 → d.m_nMaxCache = K → (d.m_vpFrame.length : Int) ≤ K →
              r = min ((displayTimestamps pkt.events).length : Int) K) := by
  unfold decode at h
  cases hre : runEvents (resetCounters d) pkt.events with
  | undefined => simp [hre] at h
  | throw t d2 =>
    simp only [hre, Option.some.injEq, Prod.mk.injEq] at h
    exact ⟨fun _ => h.1.symm, fun hc => absurd (Or.inr rfl) hc⟩
  | ret v d2 =>
    simp only [hre] at h
    cases hp : pkt.parserOk with
    | false =>
      simp only [hp, Bool.not_false, if_true, Option.some.injEq, Prod.mk.injEq] at h
      exact ⟨fun _ => h.1.symm, fun hc => absurd (Or.inl rfl) hc⟩
    | true =>
      simp only [hp, Bool.not_true, Bool.false_eq_true, if_false, Option.some.injEq,
        Prod.mk.injEq] at h
      obtain ⟨rfl, rfl⟩ := h
      refine ⟨fun hc => ?_, fun _ => ⟨rfl, fun hmc => ?_, fun K hK1 hK2 hmc hP => ?_⟩⟩
      · rcases hc with hc | hc
        · cases hc
        · simp [threw] at hc
      · have hb0 : Buffered (resetCounters d) [] :=
          ⟨rfl, rfl, Nat.zero_le _, fun i hi => absurd hi (Nat.not_lt_zero i)⟩
        have := (runEvents_unbounded pkt.events (resetCounters d) d2 [] v hmc hb0 hre).1.1
        simpa using this
      · have hc0 : Capped K (resetCounters d) 0 := by
          refine ⟨hmc, ?_, ?_, hP⟩
          · show (0 : Int) = min ((0 : Nat) : Int) K
            omega
          · show (0 : Int) ≤ _
            omega
        have := (runEvents_capped K hK1 hK2 pkt.events (resetCounters d) d2 0 v hc0 hre).2.1
        simpa using this

/-- C3, amended, at `examplePacket` on `cappedDecoder`: two display callbacks,
capacity 1, the call returns `min 2 1 = 1`. -/
theorem decode_return_value_witness :
    decode cappedDecoder examplePacket = some (1, cappedAfter)
      ∧ (1 : Int) = min ((displayTimestamps examplePacket.events).length : Int) 1 :=
  ⟨rfl, (decode_return_value cappedDecoder cappedAfter examplePacket 1 rfl).2
    (by decide) |>.2.2 1 (by decide) (by decide) rfl (by decide)⟩

/-! ## C4: the pool and the counter stay within the capacity -/

theorem toU64_le (x : Int) (h0 : 0 ≤ x) : (toU64 x : Int) ≤ x := by
  unfold toU64
  omega

theorem WithinCapacity_of_poolView (K : Int) (d d1 : Decoder)
    (h : poolView d1 = poolView d) (hb : WithinCapacity K d) : WithinCapacity K d1 := by
  simp only [poolView, Prod.mk.injEq] at h
  obtain ⟨h1, _, h3, _, h5, _⟩ := h
  unfold WithinCapacity at *
  rw [h1, h3, h5]
  exact hb

theorem handlePictureDisplay_within (K : Int) (hK : 1 ≤ K) (d d1 : Decoder)
    (info : CUVIDPARSERDISPINFO) (v : Int) (hb : WithinCapacity K d)
    (h : handlePictureDisplay d info = Handled.ret v d1) : WithinCapacity K d1 := by
  obtain ⟨d2, hs, h0, hvp, _, rfl⟩ := handlePictureDisplay_ret d d1 info v h
  obtain ⟨hmc, _, hPK⟩ := hb
  have hu64 := toU64_le K (by omega)
  rcases selectSlot_cases d d2 hs with ⟨_, rfl⟩ | ⟨_, _, _, rfl⟩ | ⟨_, hncap, size, rfl⟩
  · dsimp only at h0 hvp ⊢
    exact ⟨hmc, by dsimp only; omega, hPK⟩
  · dsimp only at h0 hvp ⊢
    exact ⟨hmc, by dsimp only; omega, hPK⟩
  · dsimp only at h0 hvp ⊢
    have hne : d.m_nMaxCache ≠ -1 := by rw [hmc]; omega
    have hlt2 : d.m_vpFrame.length < toU64 d.m_nMaxCache := by
      by_contra hc
      exact hncap ⟨hne, not_lt.mp hc⟩
    rw [hmc] at hlt2
    refine ⟨hmc, ?_, ?_⟩
    · dsimp only; omega
    · dsimp only; simp only [List.length_append, List.length_singleton]; push_cast; omega

/-- The two ways `get_frame` can end. -/
theorem get_frame_cases (d d1 : Decoder) (f : Option Frame) (h : get_frame d = some (f, d1)) :
    (d.m_nDecodedFrame ≤ 0 ∧ f = none ∧ d1 = d)
    ∨ (0 < d.m_nDecodedFrame ∧ 0 ≤ d.m_nDecodedFrameReturned
      ∧ d.m_nDecodedFrameReturned.toNat < d.m_vpFrame.length
      ∧ ∃ ts, d.m_vTimestamp[d.m_nDecodedFrameReturned.toNat]? = some ts
        ∧ f = some { slot := d.m_nDecodedFrameReturned.toNat, timestamp := ts,
                     frameIndex := d.m_iFrameIndex }
        ∧ d1 = { d with m_nDecodedFrame := d.m_nDecodedFrame - 1
                        m_nDecodedFrameReturned := d.m_nDecodedFrameReturned + 1 }) := by
  unfold get_frame at h
  by_cases h1 : d.m_nDecodedFrame > 0
  · rw [if_pos h1] at h
    dsimp only at h
    by_cases h2 : 0 ≤ d.m_nDecodedFrameReturned
        ∧ d.m_nDecodedFrameReturned.toNat < d.m_vpFrame.length
    · rw [if_pos h2] at h
      cases hts : d.m_vTimestamp[d.m_nDecodedFrameReturned.toNat]? with
      | none => simp [hts] at h
      | some ts =>
        simp only [hts, Option.some.injEq, Prod.mk.injEq] at h
        exact Or.inr ⟨h1, h2.1, h2.2, ts, rfl, h.1.symm, h.2.symm⟩
    · rw [if_neg h2] at h
      cases h
  · rw [if_neg h1] at h
    simp only [Option.some.injEq, Prod.mk.injEq] at h
    exact Or.inl ⟨not_lt.mp h1, h.1.symm, h.2.symm⟩

theorem get_frame_within (K : Int) (d d1 : Decoder) (f : Option Frame)
    (hb : WithinCapacity K d) (h : get_frame d = some (f, d1)) : WithinCapacity K d1 := by
  obtain ⟨hmc, hnP, hPK⟩ := hb
  rcases get_frame_cases d d1 f h with ⟨_, _, rfl⟩ | ⟨_, _, _, ts, _, _, rfl⟩
  · exact ⟨hmc, hnP, hPK⟩
  · exact ⟨hmc, by dsimp only; omega, hPK⟩

theorem step_within (K : Int) (hK : 1 ≤ K) (d d1 : Decoder) (s : Step)
    (hb : WithinCapacity K d) (h : step d s = some d1) : WithinCapacity K d1 := by
  cases s with
  | reset =>
    simp only [step, Option.some.injEq] at h
    rw [← h]
    exact ⟨hb.1, by show (0 : Int) ≤ _; omega, hb.2.2⟩
  | bump =>
    simp only [step, Option.some.injEq] at h
    rw [← h]
    exact hb
  | pull =>
    simp only [step] at h
    cases hg : get_frame d with
    | none => simp [hg] at h
    | some fd =>
      obtain ⟨f, d2⟩ := fd
      simp only [hg, Option.some.injEq] at h
      rw [← h]
      exact get_frame_within K d d2 f hb hg
  | event e =>
    simp only [step] at h
    cases he : handleEvent d e with
    | undefined => simp [he] at h
    | throw t d2 =>
      simp only [he, Option.some.injEq] at h
      subst h
      cases e with
      | display info => exact absurd he (handlePictureDisplay_no_throw d d2 info t)
      | sequence fmt caps ok =>
        exact WithinCapacity_of_poolView K d d2
          (handleVideoSequence_poolView d fmt caps ok d2 (Or.inr ⟨t, he⟩)) hb
      | picture idx =>
        exact WithinCapacity_of_poolView K d d2
          (handlePictureDecode_poolView d idx d2 (Or.inr ⟨t, he⟩)) hb
    | ret v d2 =>
      simp only [he, Option.some.injEq] at h
      subst h
      cases e with
      | display info => exact handlePictureDisplay_within K hK d d2 info v hb he
      | sequence fmt caps ok =>
        exact WithinCapacity_of_poolView K d d2
          (handleVideoSequence_poolView d fmt caps ok d2 (Or.inl ⟨v, he⟩)) hb
      | picture idx =>
        exact WithinCapacity_of_poolView K d d2
          (handlePictureDecode_poolView d idx d2 (Or.inl ⟨v, he⟩)) hb

theorem steps_within (K : Int) (hK : 1 ≤ K) (ss : List Step) :
    ∀ (d d1 : Decoder), WithinCapacity K d → steps d ss = some d1 → WithinCapacity K d1 := by
  induction ss with
  | nil =>
    intro d d1 hb h
    simp only [steps, Option.some.injEq] at h
    rw [← h]; exact hb
  | cons s ss ih =>
    intro d d1 hb h
    simp only [steps] at h
    cases hs : step d s with
    | none => simp [hs] at h
    | some d2 =>
      simp only [hs] at h
      exact ih d2 d1 (step_within K hK d d2 s hb hs) h

theorem steps_append (ss ts : List Step) :
    ∀ (d d1 : Decoder), steps d ss = some d1 → steps d (ss ++ ts) = steps d1 ts := by
  induction ss with
  | nil =>
    intro d d1 h
    simp only [steps, Option.some.injEq] at h
    rw [← h]
    rfl
  | cons s ss ih =>
    intro d d1 h
    simp only [steps, List.cons_append] at h ⊢
    cases hs : step d s with
    | none => simp [hs] at h
    | some d2 =>
      simp only [hs] at h ⊢
      exact ih d2 d1 h

/-- The callbacks of one parse, whether they all return or one of them throws,
are a sequence of steps. -/
theorem runEvents_steps (es : List Event) :
    ∀ (d d1 : Decoder),
      ((∃ v, runEvents d es = Handled.ret v d1) ∨ (∃ t, runEvents d es = Handled.throw t d1)) →
      ∃ ss, steps d ss = some d1 := by
  induction es with
  | nil =>
    intro d d1 h
    rcases h with ⟨v, h⟩ | ⟨t, h⟩
    · simp only [runEvents, Handled.ret.injEq] at h
      exact ⟨[], by rw [← h.2]; rfl⟩
    · simp [runEvents] at h
  | cons e es ih =>
    intro d d1 h
    simp only [runEvents] at h
    cases he : handleEvent d e with
    | undefined => simp [he] at h
    | throw t d2 =>
      simp only [he, Handled.throw.injEq, exists_false, false_or, reduceCtorEq] at h
      obtain ⟨t1, _, rfl⟩ := h
      exact ⟨[Step.event e], by simp [steps, step, he]⟩
    | ret w d2 =>
      simp only [he] at h
      obtain ⟨ss, hss⟩ := ih d2 d1 h
      exact ⟨Step.event e :: ss, by simp [steps, step, he, hss]⟩

/-- Every state reached through the public interface is reached by a sequence
of steps, so what holds after every sequence of steps holds after every
sequence of `decode` and `get_frame` calls, and in between. -/
theorem run_steps (calls : List Call) :
    ∀ (d d1 : Decoder) (outs : List Output), run d calls = some (outs, d1) →
      ∃ ss, steps d ss = some d1 := by
  induction calls with
  | nil =>
    intro d d1 outs h
    simp only [run, Option.some.injEq, Prod.mk.injEq] at h
    exact ⟨[], by rw [← h.2]; rfl⟩
  | cons c cs ih =>
    intro d d1 outs h
    cases c with
    | feed pkt =>
      rw [run_feed_cons] at h
      cases hd : decode d pkt with
      | none => simp [hd] at h
      | some rd =>
        obtain ⟨r, d2⟩ := rd
        simp only [hd] at h
        cases hrun : run d2 cs with
        | none => simp [hrun] at h
        | some od =>
          obtain ⟨os, d3⟩ := od
          simp only [hrun, Option.some.injEq, Prod.mk.injEq] at h
          obtain ⟨_, rfl⟩ := h
          obtain ⟨ss2, hss2⟩ := ih d2 d3 os hrun
          have hfirst : ∃ ss1, steps d ss1 = some d2 := by
            unfold decode at hd
            cases hre : runEvents (resetCounters d) pkt.events with
            | undefined => simp [hre] at hd
            | throw t d4 =>
              simp only [hre, Option.some.injEq, Prod.mk.injEq] at hd
              obtain ⟨ss, hss⟩ := runEvents_steps pkt.events (resetCounters d) d4 (Or.inr ⟨t, hre⟩)
              exact ⟨Step.reset :: ss, by rw [← hd.2]; simpa [steps, step] using hss⟩
            | ret v d4 =>
              simp only [hre] at hd
              obtain ⟨ss, hss⟩ := runEvents_steps pkt.events (resetCounters d) d4 (Or.inl ⟨v, hre⟩)
              split_ifs at hd
              · simp only [Option.some.injEq, Prod.mk.injEq] at hd
                exact ⟨Step.reset :: ss, by rw [← hd.2]; simpa [steps, step] using hss⟩
              · simp only [Option.some.injEq, Prod.mk.injEq] at hd
                refine ⟨Step.reset :: (ss ++ [Step.bump]), ?_⟩
                have h1 : steps d (Step.reset :: (ss ++ [Step.bump]))
                    = steps (resetCounters d) (ss ++ [Step.bump]) := by simp [steps, step]
                rw [h1, steps_append ss [Step.bump] (resetCounters d) d4 hss, ← hd.2]
                simp [steps, step]
          obtain ⟨ss1, hss1⟩ := hfirst
          exact ⟨ss1 ++ ss2, by rw [steps_append ss1 ss2 d d2 hss1]; exact hss2⟩
    | pull =>
      rw [run_pull_cons] at h
      cases hd : get_frame d with
      | none => simp [hd] at h
      | some rd =>
        obtain ⟨f0, d2⟩ := rd
        simp only [hd] at h
        cases hrun : run d2 cs with
        | none => simp [hrun] at h
        | some od =>
          obtain ⟨os, d3⟩ := od
          simp only [hrun, Option.some.injEq, Prod.mk.injEq] at h
          obtain ⟨_, rfl⟩ := h
          obtain ⟨ss2, hss2⟩ := ih d2 d3 os hrun
          exact ⟨Step.pull :: ss2, by simp [steps, step, hd, hss2]⟩

/-- C4: for every cache capacity `K ≥ 1` and every sequence of steps (entries
and exits of `decode`, parser callbacks, `get_frame` calls) applied to a
freshly made decoder, the state reached has at most `K` pool slots and a
buffered-frame count of at most `K`.  Every prefix of a sequence is a
sequence, so the bound holds at every point. -/
theorem pool_within_capacity (K : Int) (hK : 1 ≤ K) (bUseDeviceFrame : Bool) (eCodec : Nat)
    (gpu_id : Int) (cropRect : CropRect) (resizeDim : ResizeDim) (ss : List Step) (d : Decoder)
    (h : steps (create_cuvid_decoder bUseDeviceFrame eCodec K gpu_id cropRect resizeDim) ss
      = some d) :
    (d.m_vpFrame.length : Int) ≤ K ∧ d.m_nDecodedFrame ≤ K := by
  have h0 : WithinCapacity K
      (create_cuvid_decoder bUseDeviceFrame eCodec K gpu_id cropRect resizeDim) :=
    ⟨rfl, by show (0 : Int) ≤ ((0 : Nat) : Int); omega, by show ((0 : Nat) : Int) ≤ K; omega⟩
  obtain ⟨_, h1, h2⟩ := steps_within K hK ss _ d h0 h
  exact ⟨h2, le_trans h1 h2⟩

/-- C4 at capacity 3 and five displayed pictures before any consumption: the
pool has 3 slots and, after one `get_frame`, 2 frames are buffered. -/
theorem pool_within_capacity_witness :
    steps (create_cuvid_decoder true 4 3 0 ⟨0, 0, 0, 0⟩ ⟨0, 0⟩) fiveDisplays
        = some fiveDisplaysAfter
      ∧ fiveDisplaysAfter.m_vpFrame.length = 3 ∧ fiveDisplaysAfter.m_nDecodedFrame = 2
      ∧ (fiveDisplaysAfter.m_vpFrame.length : Int) ≤ 3 ∧ fiveDisplaysAfter.m_nDecodedFrame ≤ 3 :=
  ⟨rfl, rfl, rfl,
    pool_within_capacity 3 (by decide) true 4 0 ⟨0, 0, 0, 0⟩ ⟨0, 0⟩ fiveDisplays
      fiveDisplaysAfter rfl⟩

/-! ## C5: the frame index reported by `get_frame` -/

/-- C5, counterexample: two frames pulled after one `decode` call that
displayed two pictures report the same frame index, 1 and 1. -/
theorem frame_index_counterexample :
    (run exampleDecoder [Call.feed examplePacket, Call.pull, Call.pull]).map Prod.fst
        = some [Output.decoded 2,
                Output.frame (some { slot := 0, timestamp := 100, frameIndex := 1 }),
                Output.frame (some { slot := 1, timestamp := 200, frameIndex := 1 })]
      ∧ ¬ ((1 : Nat) < 1) :=
  ⟨rfl, by decide⟩

theorem handleEvent_frameIndex (d d1 : Decoder) (e : Event)
    (h : (∃ v, handleEvent d e = Handled.ret v d1) ∨ (∃ t, handleEvent d e = Handled.throw t d1)) :
    d1.m_iFrameIndex = d.m_iFrameIndex ∧ (0 ≤ d.m_nDecodedFrame → 0 ≤ d1.m_nDecodedFrame) := by
  cases e with
  | sequence fmt caps ok =>
    have hp := handleVideoSequence_poolView d fmt caps ok d1 h
    simp only [poolView, Prod.mk.injEq] at hp
    exact ⟨hp.2.2.2.2.2, fun h0 => by rw [hp.2.2.1]; exact h0⟩
  | picture idx =>
    have hp := handlePictureDecode_poolView d idx d1 h
    simp only [poolView, Prod.mk.injEq] at hp
    exact ⟨hp.2.2.2.2.2, fun h0 => by rw [hp.2.2.1]; exact h0⟩
  | display info =>
    rcases h with ⟨v, h⟩ | ⟨t, h⟩
    · obtain ⟨d2, hs, _, _, _, rfl⟩ := handlePictureDisplay_ret d d1 info v h
      rcases selectSlot_cases d d2 hs with ⟨_, rfl⟩ | ⟨_, _, _, rfl⟩ | ⟨_, _, size, rfl⟩ <;>
        exact ⟨rfl, fun h0 => by dsimp only; omega⟩
    · exact absurd h (handlePictureDisplay_no_throw d d1 info t)

theorem runEvents_frameIndex (es : List Event) :
    ∀ (d d1 : Decoder),
      ((∃ v, runEvents d es = Handled.ret v d1) ∨ (∃ t, runEvents d es = Handled.throw t d1)) →
      d1.m_iFrameIndex = d.m_iFrameIndex ∧ (0 ≤ d.m_nDecodedFrame → 0 ≤ d1.m_nDecodedFrame) := by
  induction es with
  | nil =>
    intro d d1 h
    rcases h with ⟨v, h⟩ | ⟨t, h⟩
    · simp only [runEvents, Handled.ret.injEq] at h
      rw [← h.2]
      exact ⟨rfl, id⟩
    · simp [runEvents] at h
  | cons e es ih =>
    intro d d1 h
    simp only [runEvents] at h
    cases he : handleEvent d e with
    | undefined => simp [he] at h
    | throw t d2 =>
      simp only [he, Handled.throw.injEq, exists_false, false_or, reduceCtorEq] at h
      obtain ⟨t1, _, rfl⟩ := h
      exact handleEvent_frameIndex d d2 e (Or.inr ⟨t, he⟩)
    | ret w d2 =>
      simp only [he] at h
      obtain ⟨h1, h2⟩ := ih d2 d1 h
      obtain ⟨h3, h4⟩ := handleEvent_frameIndex d d2 e (Or.inl ⟨w, he⟩)
      exact ⟨h1.trans h3, fun h0 => h2 (h4 h0)⟩

/-- A `decode` call either returns `-1` and leaves the frame index alone, or
returns a count that is not negative and adds one to the frame index. -/
theorem decode_frameIndex (d d1 : Decoder) (pkt : Packet) (r : Int)
    (h : decode d pkt = some (r, d1)) :
    (r = -1 ∧ d1.m_iFrameIndex = d.m_iFrameIndex)
      ∨ (0 ≤ r ∧ d1.m_iFrameIndex = (d.m_iFrameIndex + 1) % 2 ^ 32) := by
  unfold decode at h
  cases hre : runEvents (resetCounters d) pkt.events with
  | undefined => simp [hre] at h
  | throw t d2 =>
    simp only [hre, Option.some.injEq, Prod.mk.injEq] at h
    have := (runEvents_frameIndex pkt.events (resetCounters d) d2 (Or.inr ⟨t, hre⟩)).1
    exact Or.inl ⟨h.1.symm, by rw [← h.2]; exact this⟩
  | ret v d2 =>
    simp only [hre] at h
    obtain ⟨h1, h2⟩ := runEvents_frameIndex pkt.events (resetCounters d) d2 (Or.inl ⟨v, hre⟩)
    split_ifs at h
    · simp only [Option.some.injEq, Prod.mk.injEq] at h
      exact Or.inl ⟨h.1.symm, by rw [← h.2]; exact h1⟩
    · simp only [Option.some.injEq, Prod.mk.injEq] at h
      refine Or.inr ⟨by rw [← h.1]; exact h2 (le_refl _), ?_⟩
      rw [← h.2]
      show (d2.m_iFrameIndex + 1) % 2 ^ 32 = _
      rw [h1]
      rfl

theorem run_frameIndex (calls : List Call) :
    ∀ (d d1 : Decoder) (outs : List Output), d.m_iFrameIndex < 2 ^ 32 →
      run d calls = some (outs, d1) →
      ∀ (i : Nat) (f : Frame), outs[i]? = some (Output.frame (some f)) →
        f.frameIndex = (d.m_iFrameIndex + successes (outs.take i)) % 2 ^ 32 := by
  induction calls with
  | nil =>
    intro d d1 outs _ h i f hi
    simp only [run, Option.some.injEq, Prod.mk.injEq] at h
    rw [← h.1] at hi
    simp at hi
  | cons c cs ih =>
    intro d d1 outs hlt h i f hi
    cases c with
    | feed pkt =>
      rw [run_feed_cons] at h
      cases hd : decode d pkt with
      | none => simp [hd] at h
      | some rd =>
        obtain ⟨r, d2⟩ := rd
        simp only [hd] at h
        cases hrun : run d2 cs with
        | none => simp [hrun] at h
        | some od =>
          obtain ⟨os, d3⟩ := od
          simp only [hrun, Option.some.injEq, Prod.mk.injEq] at h
          obtain ⟨rfl, rfl⟩ := h
          cases i with
          | zero => simp at hi
          | succ i =>
            simp only [List.getElem?_cons_succ] at hi
            simp only [List.take_succ_cons, successes]
            rcases decode_frameIndex d d2 pkt r hd with ⟨hr, hidx⟩ | ⟨hr, hidx⟩
            · have := ih d2 d3 os (by rw [hidx]; exact hlt) hrun i f hi
              rw [this, hidx, if_pos hr]
              omega
            · have hlt2 : d2.m_iFrameIndex < 2 ^ 32 := by
                rw [hidx]; exact Nat.mod_lt _ (by norm_num)
              have := ih d2 d3 os hlt2 hrun i f hi
              rw [this, hidx, if_neg (by omega)]
              omega
    | pull =>
      rw [run_pull_cons] at h
      cases hd : get_frame d with
      | none => simp [hd] at h
      | some rd =>
        obtain ⟨f0, d2⟩ := rd
        simp only [hd] at h
        cases hrun : run d2 cs with
        | none => simp [hrun] at h
        | some od =>
          obtain ⟨os, d3⟩ := od
          simp only [hrun, Option.some.injEq, Prod.mk.injEq] at h
          obtain ⟨rfl, rfl⟩ := h
          have hidx : d2.m_iFrameIndex = d.m_iFrameIndex
              ∧ ∀ g, f0 = some g → g.frameIndex = d.m_iFrameIndex := by
            rcases get_frame_cases d d2 f0 hd with ⟨_, rfl, rfl⟩ | ⟨_, _, _, ts, _, rfl, rfl⟩
            · exact ⟨rfl, fun g hg => by cases hg⟩
            · exact ⟨rfl, fun g hg => by cases hg; rfl⟩
          cases i with
          | zero =>
            simp only [List.getElem?_cons_zero, Option.some.injEq, Output.frame.injEq] at hi
            rw [hidx.2 f hi]
            simp only [List.take_zero, successes, Nat.add_zero]
            exact (Nat.mod_eq_of_lt hlt).symm
          | succ i =>
            simp only [List.getElem?_cons_succ] at hi
            simp only [List.take_succ_cons, successes]
            have := ih d2 d3 os (by rw [hidx.1]; exact hlt) hrun i f hi
            rw [this, hidx.1]

/-- C5, amended: on a freshly made decoder, in every run of `decode` and
`get_frame` calls, each frame handed out reports as its frame index the number
of `decode` calls that succeeded before it, modulo `2^32`.  Frames pulled after
the same call therefore report the same index, and the index only grows with
further successful `decode` calls (until the 32-bit counter wraps). -/
theorem frame_index_counts_decodes (bUseDeviceFrame : Bool) (eCodec : Nat) (max_cache : Int)
    (gpu_id : Int) (cropRect : CropRect) (resizeDim : ResizeDim) (calls : List Call)
    (outs : List Output) (d1 : Decoder)
    (h : run (create_cuvid_decoder bUseDeviceFrame eCodec max_cache gpu_id cropRect resizeDim)
      calls = some (outs, d1))
    (i : Nat) (f : Frame) (hi : outs[i]? = some (Output.frame (some f))) :
    f.frameIndex = successes (outs.take i) % 2 ^ 32 := by
  have := run_frameIndex calls _ d1 outs (by show (0 : Nat) < 2 ^ 32; norm_num) h i f hi
  rw [this]
  show (0 + successes (outs.take i)) % 2 ^ 32 = _
  rw [Nat.zero_add]

/-- C5, amended, at `examplePacket` followed by two pulls: the second frame
(output 2) reports index 1, the number of successful calls before it. -/
theorem frame_index_counts_decodes_witness :
    run (create_cuvid_decoder true 4 (-1) 0 ⟨0, 0, 0, 0⟩ ⟨0, 0⟩)
        [Call.feed examplePacket, Call.pull, Call.pull]
      = some ([Output.decoded 2,
               Output.frame (some { slot := 0, timestamp := 100, frameIndex := 1 }),
               Output.frame (some { slot := 1, timestamp := 200, frameIndex := 1 })],
              { exampleAfter with m_nDecodedFrame := 0, m_nDecodedFrameReturned := 2 })
      ∧ (1 : Nat) = successes [Output.decoded 2,
          Output.frame (some { slot := 0, timestamp := 100, frameIndex := 1 })] % 2 ^ 32 :=
  ⟨rfl, frame_index_counts_decodes true 4 (-1) 0 ⟨0, 0, 0, 0⟩ ⟨0, 0⟩
    [Call.feed examplePacket, Call.pull, Call.pull]
    [Output.decoded 2, Output.frame (some { slot := 0, timestamp := 100, frameIndex := 1 }),
     Output.frame (some { slot := 1, timestamp := 200, frameIndex := 1 })]
    { exampleAfter with m_nDecodedFrame := 0, m_nDecodedFrameReturned := 2 } (by rfl) 2
    { slot := 1, timestamp := 200, frameIndex := 1 } (by rfl)⟩

/-! ## C6: a descriptor beyond the hardware maximum -/

/-- C6, counterexample: the coded width 8192 exceeds the maximum 4096, the
`decode` call in which the descriptor arrives returns `-1`, and the `get_frame`
call after it still hands out a frame (slot 0, timestamp 300). -/
theorem oversize_descriptor_counterexample :
    oversizeFormat.coded_width > exampleCaps.nMaxWidth
      ∧ (run exampleDecoder [Call.feed examplePacket, Call.pull, Call.pull,
            Call.feed oversizePacket, Call.pull]).map Prod.fst
        = some [Output.decoded 2,
                Output.frame (some { slot := 0, timestamp := 100, frameIndex := 1 }),
                Output.frame (some { slot := 1, timestamp := 200, frameIndex := 1 }),
                Output.decoded (-1),
                Output.frame (some { slot := 0, timestamp := 300, frameIndex := 1 })] :=
  ⟨by decide, rfl⟩

theorem displayTimestamps_append (es fs : List Event) :
    displayTimestamps (es ++ fs) = displayTimestamps es ++ displayTimestamps fs := by
  induction es with
  | nil => rfl
  | cons e es ih =>
    cases e <;> simp [displayTimestamps, ih]

/-- Running a list of callbacks that ends its first part normally carries on
with the second part from the state reached. -/
theorem runEvents_append (es fs : List Event) :
    ∀ (d d1 : Decoder) (v : Int), runEvents d es = Handled.ret v d1 →
      runEvents d (es ++ fs) = runEvents d1 fs := by
  induction es with
  | nil =>
    intro d d1 v h
    simp only [runEvents, Handled.ret.injEq] at h
    rw [← h.2]
    rfl
  | cons e es ih =>
    intro d d1 v h
    simp only [runEvents, List.cons_append] at h ⊢
    cases he : handleEvent d e with
    | undefined => simp [he] at h
    | throw t d2 => simp [he] at h
    | ret w d2 =>
      simp only [he] at h ⊢
      exact ih d2 d1 v h

/-- Callbacks other than display callbacks leave the pool and the cursor alone. -/
theorem runEvents_no_display (es : List Event) :
    ∀ (d d1 : Decoder) (v : Int), displayTimestamps es = [] →
      runEvents d es = Handled.ret v d1 → poolView d1 = poolView d := by
  induction es with
  | nil =>
    intro d d1 v _ h
    simp only [runEvents, Handled.ret.injEq] at h
    rw [← h.2]
  | cons e es ih =>
    intro d d1 v hts h
    simp only [runEvents] at h
    cases he : handleEvent d e with
    | undefined => simp [he] at h
    | throw t d2 => simp [he] at h
    | ret w d2 =>
      simp only [he] at h
      cases e with
      | display info => simp [displayTimestamps] at hts
      | sequence fmt caps ok =>
        rw [ih d2 d1 v (by simpa [displayTimestamps] using hts) h]
        exact handleEvent_poolView d d2 _ w (by intro info hc; cases hc) he
      | picture idx =>
        rw [ih d2 d1 v (by simpa [displayTimestamps] using hts) h]
        exact handleEvent_poolView d d2 _ w (by intro info hc; cases hc) he

/-- A descriptor beyond the hardware maximum makes `handleVideoSequence` throw
without touching the decoder. -/
theorem handleVideoSequence_oversize (d : Decoder) (fmt : CUVIDEOFORMAT)
    (caps : CUVIDDECODECAPS) (ok : Bool)
    (hbig : fmt.coded_width > caps.nMaxWidth ∨ fmt.coded_height > caps.nMaxHeight) :
    ∃ e, handleVideoSequence d fmt caps ok = Handled.throw e d := by
  unfold handleVideoSequence
  by_cases h1 : caps.bIsSupported = 0
  · exact ⟨_, if_pos h1⟩
  · rw [if_neg h1, if_pos hbig]
    exact ⟨_, rfl⟩

/-- C6, amended: when a descriptor whose coded width or height exceeds the
hardware maximum is announced in a `decode` call after callbacks `pre` that ran
normally, the call returns `-1`, no later callback of the packet is processed,
and the decoder is left exactly as `pre` left it.  So `get_frame` afterwards
returns `nullptr` when no display callback came before the descriptor in that
call, and with an unbounded cache it hands out exactly the pictures displayed
before the descriptor. -/
theorem oversize_descriptor_fails (d d0 : Decoder) (pre post : List Event)
    (fmt : CUVIDEOFORMAT) (caps : CUVIDDECODECAPS) (createOk parserOk : Bool) (v : Int)
    (hbig : fmt.coded_width > caps.nMaxWidth ∨ fmt.coded_height > caps.nMaxHeight)
    (hpre : runEvents (resetCounters d) pre = Handled.ret v d0) :
    decode d { events := pre ++ Event.sequence fmt caps createOk :: post, parserOk := parserOk }
        = some (-1, d0)
      ∧ (displayTimestamps pre = [] → get_frame d0 = some (none, d0))
      ∧ (d.m_nMaxCache = -1 →
          get_frames ((displayTimestamps pre).length + 1) d0
            = some (framesFrom d0.m_iFrameIndex 0 (displayTimestamps pre) ++ [none],
                    { d0 with m_nDecodedFrame := 0
                              m_nDecodedFrameReturned := ((displayTimestamps pre).length : Nat) })) := by
  obtain ⟨e, he⟩ := handleVideoSequence_oversize d0 fmt caps createOk hbig
  refine ⟨?_, ?_, ?_⟩
  · unfold decode
    dsimp only
    rw [runEvents_append pre _ (resetCounters d) d0 v hpre]
    simp only [runEvents, handleEvent, he]
  · intro hts
    have hp := runEvents_no_display pre (resetCounters d) d0 v hts hpre
    simp only [poolView, Prod.mk.injEq] at hp
    have hn : d0.m_nDecodedFrame = 0 := hp.2.2.1
    unfold get_frame
    rw [if_neg (by rw [hn]; decide)]
  · intro hmc
    have hb0 : Buffered (resetCounters d) [] :=
      ⟨rfl, rfl, Nat.zero_le _, fun i hi => absurd hi (Nat.not_lt_zero i)⟩
    obtain ⟨⟨hn, hret, hlen, hts⟩, _, _⟩ :=
      runEvents_unbounded pre (resetCounters d) d0 [] v hmc hb0 hpre
    simp only [List.nil_append] at hn hret hlen hts
    have := get_frames_buffered (displayTimestamps pre) d0 0 hn
      (by simpa using hret) (by simpa using hlen) (by simpa using hts)
    simpa using this

/-- C6, amended, at `oversizePacket` fed to `exampleAfter`: the call returns
`-1` and leaves the decoder as the display callback left it. -/
theorem oversize_descriptor_fails_witness :
    (oversizeFormat.coded_width > exampleCaps.nMaxWidth
        ∨ oversizeFormat.coded_height > exampleCaps.nMaxHeight)
      ∧ runEvents (resetCounters exampleAfter) [exampleDisplay 300] = Handled.ret 0 oversizeBefore
      ∧ decode exampleAfter oversizePacket = some (-1, oversizeBefore) :=
  ⟨by decide, by rfl,
    (oversize_descriptor_fails exampleAfter oversizeBefore [exampleDisplay 300] [] oversizeFormat
      exampleCaps true true 0 (by decide) (by rfl)).1⟩

/-! ## C7: the macroblock-count check -/

/-- A capability answer whose largest frame holds `2^32` macroblocks: against
a maximum size of 1048576x1048576 luma samples, a descriptor of
`65536 * 65536 = 2^32` macroblocks passes the check of line 236, because the
32-bit product is 0, and the negotiation returns. -/
theorem mbcount_product_wraps :
    hugeCaps.bIsSupported ≠ 0
      ∧ hugeFormat.coded_width ≤ hugeCaps.nMaxWidth
      ∧ hugeFormat.coded_height ≤ hugeCaps.nMaxHeight
      ∧ (hugeFormat.coded_width / 16) * (hugeFormat.coded_height / 16) > hugeCaps.nMaxMBCount
      ∧ ¬ (hugeCaps.nMaxWidth / 16) * (hugeCaps.nMaxHeight / 16) < 2 ^ 32
      ∧ ((hugeFormat.coded_width >>> 4) * (hugeFormat.coded_height >>> 4)) % 2 ^ 32 = 0
      ∧ threw (handleVideoSequence exampleDecoder hugeFormat hugeCaps true) = false
      ∧ (stateOr exampleDecoder
          (handleVideoSequence exampleDecoder hugeFormat hugeCaps true)).m_hDecoder = 1 := by
  refine ⟨by decide, by decide, by decide, by decide, by decide, by decide, by rfl, by rfl⟩

/-! ## C8: the output format chosen by negotiation -/

theorem maskHas_eq_testBit (mask fmt : Nat) : maskHas mask fmt = mask.testBit fmt := by
  unfold maskHas
  rw [Nat.one_shiftLeft]
  cases hb : mask.testBit fmt with
  | false =>
    have : mask &&& 2 ^ fmt = 0 := by
      apply Nat.eq_of_testBit_eq
      intro i
      rw [Nat.testBit_and, Nat.testBit_two_pow, Nat.zero_testBit]
      by_cases hi : fmt = i
      · subst hi; simp [hb]
      · simp [hi]
    simp [this]
  | true =>
    have : mask &&& 2 ^ fmt ≠ 0 := by
      intro hc
      have h1 : (mask &&& 2 ^ fmt).testBit fmt = true := by
        rw [Nat.testBit_and, Nat.testBit_two_pow_self, hb]; rfl
      rw [hc, Nat.zero_testBit] at h1
      cases h1
    simpa using this

theorem storeFormat_outputFormat (d : Decoder) (fmt : CUVIDEOFORMAT)
    (hc : fmt.chroma_format = cudaVideoChromaFormat_420
      ∨ fmt.chroma_format = cudaVideoChromaFormat_444
      ∨ fmt.chroma_format = cudaVideoChromaFormat_422) :
    (storeFormat d fmt).m_eOutputFormat
      = referenceDefaultFormat fmt.chroma_format fmt.bit_depth_luma_minus8 := by
  unfold storeFormat referenceDefaultFormat
  dsimp only
  rcases hc with hc | hc | hc <;> rw [hc] <;>
    simp [cudaVideoChromaFormat_420, cudaVideoChromaFormat_444, cudaVideoChromaFormat_422,
      Nat.pos_iff_ne_zero]

theorem checkOutputFormat_reference (d : Decoder) (caps : CUVIDDECODECAPS)
    (chroma depth : Nat) (hd : d.m_eOutputFormat = referenceDefaultFormat chroma depth) :
    (checkOutputFormat d caps).map (fun d1 => d1.m_eOutputFormat)
      = referenceOutputFormat chroma depth caps.nOutputFormatMask := by
  unfold checkOutputFormat referenceOutputFormat
  simp only [maskHas_eq_testBit, hd]
  cases h0 : caps.nOutputFormatMask.testBit (referenceDefaultFormat chroma depth) with
  | true => simp [hd]
  | false =>
    simp only [Bool.not_false, if_true, Bool.false_eq_true, if_false]
    cases h1 : caps.nOutputFormatMask.testBit cudaVideoSurfaceFormat_NV12 <;>
    cases h2 : caps.nOutputFormatMask.testBit cudaVideoSurfaceFormat_P016 <;>
    cases h3 : caps.nOutputFormatMask.testBit cudaVideoSurfaceFormat_YUV444 <;>
    cases h4 : caps.nOutputFormatMask.testBit cudaVideoSurfaceFormat_YUV444_16Bit <;>
    simp [List.find?, h1, h2, h3, h4]

theorem referenceDefaultFormat_lt (chroma depth : Nat) : referenceDefaultFormat chroma depth < 4 := by
  unfold referenceDefaultFormat
  split_ifs <;> decide

theorem referenceOutputFormat_none_iff (chroma depth mask : Nat) :
    referenceOutputFormat chroma depth mask = none
      ↔ (mask.testBit cudaVideoSurfaceFormat_NV12 = false
        ∧ mask.testBit cudaVideoSurfaceFormat_P016 = false
        ∧ mask.testBit cudaVideoSurfaceFormat_YUV444 = false
        ∧ mask.testBit cudaVideoSurfaceFormat_YUV444_16Bit = false) := by
  have hd := referenceDefaultFormat_lt chroma depth
  unfold referenceOutputFormat
  generalize referenceDefaultFormat chroma depth = dflt at hd
  simp only [cudaVideoSurfaceFormat_NV12, cudaVideoSurfaceFormat_P016,
    cudaVideoSurfaceFormat_YUV444, cudaVideoSurfaceFormat_YUV444_16Bit]
  have hcases : dflt = 0 ∨ dflt = 1 ∨ dflt = 2 ∨ dflt = 3 := by omega
  cases h0 : mask.testBit 0 <;> cases h1 : mask.testBit 1 <;> cases h2 : mask.testBit 2 <;>
    cases h3 : mask.testBit 3 <;>
    rcases hcases with h | h | h | h <;> subst h <;> simp [List.find?, h0, h1, h2, h3]

theorem targetGeometry_outputFormat (d : Decoder) (fmt : CUVIDEOFORMAT) :
    (targetGeometry d fmt).1.m_eOutputFormat = d.m_eOutputFormat := by
  unfold targetGeometry
  simp only []
  split_ifs <;> rfl

theorem targetSize_congr (d d1 : Decoder) (fmt : CUVIDEOFORMAT)
    (hc : d1.m_cropRect = d.m_cropRect) (hr : d1.m_resizeDim = d.m_resizeDim) :
    (targetSize d1 fmt).1 = (targetSize d fmt).1
      ∧ (targetSize d1 fmt).2.1 = (targetSize d fmt).2.1 := by
  unfold targetSize
  simp only [hc, hr]
  cases hcs : (d.m_cropRect.r != 0 && d.m_cropRect.b != 0) <;>
    cases hrs : (d.m_resizeDim.w != 0 && d.m_resizeDim.h != 0) <;> simp

theorem targetGeometry_lumaHeight (d : Decoder) (fmt : CUVIDEOFORMAT) :
    (targetGeometry d fmt).1.m_nLumaHeight = (targetSize d fmt).2.1 := by
  unfold targetGeometry
  rfl

theorem targetGeometry_lumaHeight_congr (d d1 : Decoder) (fmt : CUVIDEOFORMAT)
    (hc : d1.m_cropRect = d.m_cropRect) (hr : d1.m_resizeDim = d.m_resizeDim) :
    (targetGeometry d1 fmt).1.m_nLumaHeight = (targetGeometry d fmt).1.m_nLumaHeight := by
  rw [targetGeometry_lumaHeight, targetGeometry_lumaHeight, (targetSize_congr d d1 fmt hc hr).2]

theorem storeFormat_geometryInputs (d : Decoder) (fmt : CUVIDEOFORMAT) :
    (storeFormat d fmt).m_cropRect = d.m_cropRect
      ∧ (storeFormat d fmt).m_resizeDim = d.m_resizeDim := by
  unfold storeFormat
  simp only []
  split_ifs <;> exact ⟨rfl, rfl⟩

theorem checkOutputFormat_geometryInputs (d d1 : Decoder) (caps : CUVIDDECODECAPS)
    (h : checkOutputFormat d caps = some d1) :
    d1.m_cropRect = d.m_cropRect ∧ d1.m_resizeDim = d.m_resizeDim := by
  unfold checkOutputFormat at h
  split_ifs at h <;> simp at h <;> subst h <;> exact ⟨rfl, rfl⟩

theorem chromaHeight_isSome (lumaHeight eOutputFormat : Nat) (h : lumaHeight < 2 ^ 24) :
    ∃ ch, chromaHeight lumaHeight eOutputFormat = some ch := by
  unfold chromaHeight
  dsimp only
  have hf : floatOfUnsigned lumaHeight = lumaHeight := by
    unfold floatOfUnsigned
    rw [if_pos h]
  have hg : GetChromaHeightFactor eOutputFormat ≤ 2 := by
    unfold GetChromaHeightFactor
    split_ifs <;> decide
  rw [hf]
  have hv : lumaHeight * GetChromaHeightFactor eOutputFormat / 2 < 2 ^ 31 := by
    have : lumaHeight * GetChromaHeightFactor eOutputFormat ≤ lumaHeight * 2 :=
      Nat.mul_le_mul_left _ hg
    omega
  rw [if_pos hv]
  exact ⟨_, rfl⟩

/-- When `createSession` returns, the output format is the one it was given. -/
theorem createSession_outputFormat (d d1 : Decoder) (fmt : CUVIDEOFORMAT) (ok : Bool) (v : Int)
    (h : createSession d fmt ok = Handled.ret v d1) : d1.m_eOutputFormat = d.m_eOutputFormat := by
  unfold createSession at h
  have hg := targetGeometry_outputFormat { d with m_videoFormat := fmt } fmt
  dsimp only at h
  generalize targetGeometry { d with m_videoFormat := fmt } fmt = g at h hg
  obtain ⟨d2, info⟩ := g
  dsimp only at h hg
  split at h
  · cases h
  · simp only [Handled.ret.injEq] at h
    rw [← h.2]
    unfold cuvidCreateDecoder
    split_ifs <;> exact hg

/-- With a luma height below `2^24`, `createSession` returns. -/
theorem createSession_returns (d : Decoder) (fmt : CUVIDEOFORMAT) (ok : Bool)
    (hl : (targetGeometry d fmt).1.m_nLumaHeight < 2 ^ 24) :
    ∃ v d1, createSession d fmt ok = Handled.ret v d1 := by
  unfold createSession
  have hg : (targetGeometry { d with m_videoFormat := fmt } fmt).1.m_nLumaHeight
      = (targetGeometry d fmt).1.m_nLumaHeight :=
    targetGeometry_lumaHeight_congr d _ fmt rfl rfl
  dsimp only
  generalize targetGeometry { d with m_videoFormat := fmt } fmt = g at hg
  obtain ⟨d2, info⟩ := g
  dsimp only at hg ⊢
  obtain ⟨ch, hch⟩ := chromaHeight_isSome d2.m_nLumaHeight d2.m_eOutputFormat (by rw [hg]; exact hl)
  rw [hch]
  exact ⟨_, _, rfl⟩

/-- A descriptor that passes the three capability checks goes on to the output
format. -/
theorem handleVideoSequence_passes (d : Decoder) (fmt : CUVIDEOFORMAT) (caps : CUVIDDECODECAPS)
    (ok : Bool) (hsup : caps.bIsSupported ≠ 0)
    (hw : fmt.coded_width ≤ caps.nMaxWidth) (hh : fmt.coded_height ≤ caps.nMaxHeight)
    (hmb : ((fmt.coded_width >>> 4) * (fmt.coded_height >>> 4)) % 2 ^ 32 ≤ caps.nMaxMBCount) :
    handleVideoSequence d fmt caps ok = settleOutputFormat (storeFormat d fmt) fmt caps ok := by
  unfold handleVideoSequence
  rw [if_neg hsup, if_neg (by omega), if_neg (by omega)]

/-- C8: for every descriptor with chroma format 4:2:0, 4:4:4 or 4:2:2 that
passes the capability checks, negotiation throws the no-output-format error
exactly when none of NV12, P016, YUV444, YUV444_16Bit is in the capability
mask; whenever it returns, the stored output format is the reference
selection (the default by chroma format and bit depth if the mask has it,
otherwise the first of the four formats that the mask has); and it does
return with that format when the luma height is below `2^24`. -/
theorem output_format_selection (d : Decoder) (fmt : CUVIDEOFORMAT) (caps : CUVIDDECODECAPS)
    (ok : Bool)
    (hc : fmt.chroma_format = cudaVideoChromaFormat_420
      ∨ fmt.chroma_format = cudaVideoChromaFormat_444
      ∨ fmt.chroma_format = cudaVideoChromaFormat_422)
    (hsup : caps.bIsSupported ≠ 0)
    (hw : fmt.coded_width ≤ caps.nMaxWidth) (hh : fmt.coded_height ≤ caps.nMaxHeight)
    (hmb : ((fmt.coded_width >>> 4) * (fmt.coded_height >>> 4)) % 2 ^ 32 ≤ caps.nMaxMBCount) :
    ((∃ d1, handleVideoSequence d fmt caps ok = Handled.throw Thrown.noOutputFormat d1)
        ↔ (caps.nOutputFormatMask.testBit cudaVideoSurfaceFormat_NV12 = false
          ∧ caps.nOutputFormatMask.testBit cudaVideoSurfaceFormat_P016 = false
          ∧ caps.nOutputFormatMask.testBit cudaVideoSurfaceFormat_YUV444 = false
          ∧ caps.nOutputFormatMask.testBit cudaVideoSurfaceFormat_YUV444_16Bit = false))
      ∧ (∀ v d1, handleVideoSequence d fmt caps ok = Handled.ret v d1 →
          referenceOutputFormat fmt.chroma_format fmt.bit_depth_luma_minus8 caps.nOutputFormatMask
            = some d1.m_eOutputFormat)
      ∧ ((targetGeometry d fmt).1.m_nLumaHeight < 2 ^ 24 →
          ∀ f, referenceOutputFormat fmt.chroma_format fmt.bit_depth_luma_minus8
              caps.nOutputFormatMask = some f →
            ∃ v d1, handleVideoSequence d fmt caps ok = Handled.ret v d1
              ∧ d1.m_eOutputFormat = f) := by
  rw [handleVideoSequence_passes d fmt caps ok hsup hw hh hmb]
  have hdef := storeFormat_outputFormat d fmt hc
  have href := checkOutputFormat_reference (storeFormat d fmt) caps _ _ hdef
  have hlt : ¬ 32 ≤ (storeFormat d fmt).m_eOutputFormat := by
    rw [hdef]
    have := referenceDefaultFormat_lt fmt.chroma_format fmt.bit_depth_luma_minus8
    omega
  unfold settleOutputFormat
  rw [if_neg hlt]
  rw [← referenceOutputFormat_none_iff fmt.chroma_format fmt.bit_depth_luma_minus8, ← href]
  cases hco : checkOutputFormat (storeFormat d fmt) caps with
  | none =>
    refine ⟨⟨fun _ => rfl, fun _ => ⟨_, rfl⟩⟩, ?_, ?_⟩
    · intro v d1 h
      cases h
    · intro _ f hf
      cases hf
  | some d2 =>
    dsimp only
    refine ⟨⟨?_, ?_⟩, ?_, ?_⟩
    · rintro ⟨d1, h⟩
      exact absurd h (createSession_no_throw _ _ _ _ _)
    · intro h
      cases h
    · intro v d1 h
      rw [createSession_outputFormat d2 d1 fmt ok v h]
      rfl
    · intro hl f hf
      have hgi := checkOutputFormat_geometryInputs _ _ _ hco
      have hsi := storeFormat_geometryInputs d fmt
      have hl2 : (targetGeometry d2 fmt).1.m_nLumaHeight < 2 ^ 24 := by
        rw [targetGeometry_lumaHeight_congr d d2 fmt (hgi.1.trans hsi.1) (hgi.2.trans hsi.2)]
        exact hl
      obtain ⟨v, d1, hcs⟩ := createSession_returns d2 fmt ok hl2
      refine ⟨v, d1, hcs, ?_⟩
      rw [createSession_outputFormat d2 d1 fmt ok v hcs]
      simpa using hf

/-- C8 at a 10-bit 4:4:4 descriptor and a mask with NV12 and P016 only: the
default YUV444_16Bit is not in the mask, the negotiation returns, and the
stored format is the reference selection, NV12. -/
theorem output_format_selection_witness :
    handleVideoSequence exampleDecoder format444 exampleCaps true = Handled.ret 6 negotiated444
      ∧ negotiated444.m_eOutputFormat = cudaVideoSurfaceFormat_NV12
      ∧ referenceOutputFormat format444.chroma_format format444.bit_depth_luma_minus8
          exampleCaps.nOutputFormatMask = some negotiated444.m_eOutputFormat :=
  ⟨by rfl, by rfl,
    (output_format_selection exampleDecoder format444 exampleCaps true (Or.inr (Or.inl rfl))
      (by decide) (by decide) (by decide) (by decide)).2.1 6 negotiated444 (by rfl)⟩

/-! ## C9: the stored format after a failed negotiation -/

/-- C9, counterexample: on a decoder that holds a negotiated H.264 4:2:0 8-bit
NV12 format, a 10-bit 4:4:4 HEVC descriptor that fails with the
no-output-format error leaves the stored codec, chroma format, bit depth,
bytes per pixel and output format changed from (4, 1, 0, 1, 0) to
(8, 3, 2, 2, 3). -/
theorem failed_negotiation_counterexample :
    handleVideoSequence exampleAfter format444 noFormatCaps true
        = Handled.throw Thrown.noOutputFormat partlyStored
      ∧ (exampleAfter.m_eCodec, exampleAfter.m_eChromaFormat, exampleAfter.m_nBitDepthMinus8,
          exampleAfter.m_nBPP, exampleAfter.m_eOutputFormat) = (4, 1, 0, 1, 0)
      ∧ (partlyStored.m_eCodec, partlyStored.m_eChromaFormat, partlyStored.m_nBitDepthMinus8,
          partlyStored.m_nBPP, partlyStored.m_eOutputFormat) = (8, 3, 2, 2, 3) :=
  ⟨by rfl, by rfl, by rfl⟩

/-- What `storeFormat` writes: five members, nothing else. -/
theorem storeFormat_eq (d : Decoder) (fmt : CUVIDEOFORMAT) :
    storeFormat d fmt =
      { d with
        m_eCodec := fmt.codec
        m_eChromaFormat := fmt.chroma_format
        m_nBitDepthMinus8 := fmt.bit_depth_luma_minus8
        m_nBPP := if (fmt.bit_depth_luma_minus8 : Int) > 0 then 2 else 1
        m_eOutputFormat := (storeFormat d fmt).m_eOutputFormat } := by
  unfold storeFormat
  simp only []
  split_ifs <;> rfl

theorem settleOutputFormat_throw (d d1 : Decoder) (fmt : CUVIDEOFORMAT) (caps : CUVIDDECODECAPS)
    (ok : Bool) (e : Thrown) (h : settleOutputFormat d fmt caps ok = Handled.throw e d1) :
    e = Thrown.noOutputFormat ∧ d1 = d := by
  unfold settleOutputFormat at h
  split_ifs at h
  cases hc : checkOutputFormat d caps with
  | none =>
    simp only [hc, Handled.throw.injEq] at h
    exact ⟨h.1.symm, h.2.symm⟩
  | some d2 =>
    simp only [hc] at h
    exact absurd h (createSession_no_throw _ _ _ _ _)

/-- Lines 264-274 assign the output format only for the chroma formats 4:2:0,
4:4:4 and 4:2:2; for any other (monochrome) the member keeps its value. -/
theorem storeFormat_outputFormat_cases (d : Decoder) (fmt : CUVIDEOFORMAT) :
    (storeFormat d fmt).m_eOutputFormat
      = if fmt.chroma_format = cudaVideoChromaFormat_420
            ∨ fmt.chroma_format = cudaVideoChromaFormat_444
            ∨ fmt.chroma_format = cudaVideoChromaFormat_422
        then referenceDefaultFormat fmt.chroma_format fmt.bit_depth_luma_minus8
        else d.m_eOutputFormat := by
  split_ifs with hc
  · exact storeFormat_outputFormat d fmt hc
  · have h1 : ¬ fmt.chroma_format = cudaVideoChromaFormat_420 := fun h => hc (Or.inl h)
    have h2 : ¬ fmt.chroma_format = cudaVideoChromaFormat_444 := fun h => hc (Or.inr (Or.inl h))
    have h3 : ¬ fmt.chroma_format = cudaVideoChromaFormat_422 := fun h => hc (Or.inr (Or.inr h))
    unfold storeFormat
    dsimp only
    rw [if_neg h1, if_neg h2, if_neg h3]

/-- C9, amended: a negotiation that ends in a fatal failure ends in one of the
four errors.  After unsupported codec, unsupported resolution or unsupported
macroblock count the decoder is exactly as before.  After the
no-supported-output-format error the width, luma and chroma heights, chroma
plane count and maximum dimensions are as before, and so is everything else
except five members: the codec, chroma format and bit depth are those of the
rejected descriptor, the bytes per pixel are 2 when its luma bit depth exceeds
8 and 1 otherwise, and the output format is the default for the rejected
descriptor's chroma format and bit depth when that chroma format is 4:2:0,
4:4:4 or 4:2:2, and the value it had before the negotiation for any other
chroma format (monochrome). -/
theorem failed_negotiation_state (d d1 : Decoder) (fmt : CUVIDEOFORMAT) (caps : CUVIDDECODECAPS)
    (ok : Bool) (e : Thrown) (h : handleVideoSequence d fmt caps ok = Handled.throw e d1) :
    (e = Thrown.codecNotSupported ∨ e = Thrown.resolutionNotSupported
        ∨ e = Thrown.mbCountNotSupported ∨ e = Thrown.noOutputFormat)
      ∧ (e ≠ Thrown.noOutputFormat → d1 = d)
      ∧ (e = Thrown.noOutputFormat →
          d1 = { d with
                 m_eCodec := fmt.codec
                 m_eChromaFormat := fmt.chroma_format
                 m_nBitDepthMinus8 := fmt.bit_depth_luma_minus8
                 m_nBPP := if (fmt.bit_depth_luma_minus8 : Int) > 0 then 2 else 1
                 m_eOutputFormat :=
                   if fmt.chroma_format = cudaVideoChromaFormat_420
                       ∨ fmt.chroma_format = cudaVideoChromaFormat_444
                       ∨ fmt.chroma_format = cudaVideoChromaFormat_422
                   then referenceDefaultFormat fmt.chroma_format fmt.bit_depth_luma_minus8
                   else d.m_eOutputFormat })
      ∧ d1.m_nWidth = d.m_nWidth ∧ d1.m_nLumaHeight = d.m_nLumaHeight
      ∧ d1.m_nChromaHeight = d.m_nChromaHeight
      ∧ d1.m_nNumChromaPlanes = d.m_nNumChromaPlanes
      ∧ d1.m_nMaxWidth = d.m_nMaxWidth ∧ d1.m_nMaxHeight = d.m_nMaxHeight := by
  unfold handleVideoSequence at h
  split_ifs at h
  · simp only [Handled.throw.injEq] at h
    obtain ⟨rfl, rfl⟩ := h
    exact ⟨Or.inl rfl, fun _ => rfl, fun hc => (by cases hc), rfl, rfl, rfl, rfl, rfl, rfl⟩
  · simp only [Handled.throw.injEq] at h
    obtain ⟨rfl, rfl⟩ := h
    exact ⟨Or.inr (Or.inl rfl), fun _ => rfl, fun hc => (by cases hc), rfl, rfl, rfl, rfl, rfl, rfl⟩
  · simp only [Handled.throw.injEq] at h
    obtain ⟨rfl, rfl⟩ := h
    exact ⟨Or.inr (Or.inr (Or.inl rfl)), fun _ => rfl, fun hc => (by cases hc),
      rfl, rfl, rfl, rfl, rfl, rfl⟩
  · obtain ⟨rfl, rfl⟩ := settleOutputFormat_throw _ _ _ _ _ _ h
    refine ⟨Or.inr (Or.inr (Or.inr rfl)), fun hc => absurd rfl hc,
      fun _ => (by rw [← storeFormat_outputFormat_cases d fmt]; exact storeFormat_eq d fmt), ?_⟩
    rw [storeFormat_eq]
    exact ⟨rfl, rfl, rfl, rfl, rfl, rfl⟩

/-- C9, amended, at `format444` against `noFormatCaps` on `exampleAfter`: the
no-output-format error leaves width 1920 and luma height 1080 in place and
stores the default format YUV444_16Bit of the rejected descriptor; a
monochrome descriptor rejected next stores its chroma format 0 and leaves the
output format at YUV444_16Bit. -/
theorem failed_negotiation_state_witness :
    handleVideoSequence exampleAfter format444 noFormatCaps true
        = Handled.throw Thrown.noOutputFormat partlyStored
      ∧ exampleAfter.m_nWidth = 1920 ∧ exampleAfter.m_nLumaHeight = 1080
      ∧ partlyStored.m_nWidth = exampleAfter.m_nWidth
      ∧ partlyStored.m_nLumaHeight = exampleAfter.m_nLumaHeight
      ∧ partlyStored.m_eOutputFormat = cudaVideoSurfaceFormat_YUV444_16Bit
      ∧ handleVideoSequence partlyStored monochromeFormat noFormatCaps true
        = Handled.throw Thrown.noOutputFormat monochromeStored
      ∧ monochromeStored.m_eChromaFormat = 0
      ∧ monochromeStored.m_eOutputFormat = partlyStored.m_eOutputFormat
      ∧ monochromeStored
        = { partlyStored with
            m_eCodec := monochromeFormat.codec
            m_eChromaFormat := monochromeFormat.chroma_format
            m_nBitDepthMinus8 := monochromeFormat.bit_depth_luma_minus8
            m_nBPP := if (monochromeFormat.bit_depth_luma_minus8 : Int) > 0 then 2 else 1
            m_eOutputFormat :=
              if monochromeFormat.chroma_format = cudaVideoChromaFormat_420
                  ∨ monochromeFormat.chroma_format = cudaVideoChromaFormat_444
                  ∨ monochromeFormat.chroma_format = cudaVideoChromaFormat_422
              then referenceDefaultFormat monochromeFormat.chroma_format
                monochromeFormat.bit_depth_luma_minus8
              else partlyStored.m_eOutputFormat } :=
  ⟨by rfl, by rfl, by rfl,
    (failed_negotiation_state exampleAfter partlyStored format444 noFormatCaps true
      Thrown.noOutputFormat (by rfl)).2.2.2.1,
    (failed_negotiation_state exampleAfter partlyStored format444 noFormatCaps true
      Thrown.noOutputFormat (by rfl)).2.2.2.2.1,
    by rfl, by rfl, by rfl, by rfl,
    (failed_negotiation_state partlyStored monochromeStored monochromeFormat noFormatCaps true
      Thrown.noOutputFormat (by rfl)).2.2.1 rfl⟩

/-! ## C10: decode sessions made and destroyed -/

/-- C10, the code at the failing input: after a second successful negotiation
on the same instance two decoder contexts are live (handles 2 and 1);
`m_hDecoder` holds only the second, and the destructor destroys only that one,
so the first is never destroyed. -/
theorem second_negotiation_leaves_two_sessions :
    decode exampleDecoder examplePacket = some (2, exampleAfter)
      ∧ decode exampleAfter renegotiatePacket = some (0, exampleRenegotiated)
      ∧ exampleAfter.liveSessions = [1]
      ∧ exampleRenegotiated.liveSessions = [2, 1]
      ∧ exampleRenegotiated.m_hDecoder = 2
      ∧ (destroy exampleRenegotiated).liveSessions = [1] :=
  ⟨by rfl, by rfl, by rfl, by rfl, by rfl, by rfl⟩

/-! ## What a returning negotiation stores -/

theorem targetSize_eq (d d1 : Decoder) (fmt : CUVIDEOFORMAT)
    (hc : d1.m_cropRect = d.m_cropRect) (hr : d1.m_resizeDim = d.m_resizeDim) :
    targetSize d1 fmt = targetSize d fmt := by
  unfold targetSize
  simp only [hc, hr]
  cases hcs : (d.m_cropRect.r != 0 && d.m_cropRect.b != 0) <;>
    cases hrs : (d.m_resizeDim.w != 0 && d.m_resizeDim.h != 0) <;> simp

theorem targetGeometry_fields (d : Decoder) (fmt : CUVIDEOFORMAT) :
    (targetGeometry d fmt).1.m_nWidth = (targetSize d fmt).1
      ∧ (targetGeometry d fmt).1.m_nLumaHeight = (targetSize d fmt).2.1
      ∧ (targetGeometry d fmt).2 = (targetSize d fmt).2.2
      ∧ (targetGeometry d fmt).1.m_eOutputFormat = d.m_eOutputFormat
      ∧ (targetGeometry d fmt).1.m_nBPP = d.m_nBPP := by
  unfold targetGeometry
  refine ⟨rfl, rfl, rfl, ?_, ?_⟩ <;> (dsimp only; split_ifs <;> rfl)

/-- The members a returning `createSession` has written, in terms of the
state it started from. -/
theorem createSession_ret_fields (d d1 : Decoder) (fmt : CUVIDEOFORMAT) (ok : Bool) (v : Int)
    (h : createSession d fmt ok = Handled.ret v d1) :
    d1.m_nWidth = (targetSize d fmt).1
      ∧ d1.m_nLumaHeight = (targetSize d fmt).2.1
      ∧ chromaHeight (targetSize d fmt).2.1 d.m_eOutputFormat = some d1.m_nChromaHeight
      ∧ d1.m_nNumChromaPlanes = GetChromaPlaneCount d.m_eOutputFormat
      ∧ d1.m_nSurfaceWidth = toI32 (targetSize d fmt).2.2.ulTargetWidth
      ∧ d1.m_nSurfaceHeight = toI32 (targetSize d fmt).2.2.ulTargetHeight
      ∧ d1.m_displayRect = ⟨(targetSize d fmt).2.2.left, (targetSize d fmt).2.2.top,
          (targetSize d fmt).2.2.right, (targetSize d fmt).2.2.bottom⟩
      ∧ d1.m_eOutputFormat = d.m_eOutputFormat
      ∧ d1.m_nBPP = d.m_nBPP := by
  unfold createSession at h
  have hts : targetSize { d with m_videoFormat := fmt } fmt = targetSize d fmt :=
    targetSize_eq d _ fmt rfl rfl
  have hg := targetGeometry_fields { d with m_videoFormat := fmt } fmt
  rw [hts] at hg
  dsimp only at h hg
  generalize targetGeometry { d with m_videoFormat := fmt } fmt = g at h hg
  obtain ⟨d2, info⟩ := g
  dsimp only at h hg
  obtain ⟨hw, hl, hi, hf, hb⟩ := hg
  split at h
  · cases h
  · rename_i ch hch
    simp only [Handled.ret.injEq] at h
    obtain ⟨_, rfl⟩ := h
    rw [hl, hf] at hch
    unfold cuvidCreateDecoder
    split_ifs <;>
      exact ⟨hw, hl, hch, by rw [← hf], by rw [← hi], by rw [← hi], by rw [← hi], hf, hb⟩

theorem checkOutputFormat_bpp (d d1 : Decoder) (caps : CUVIDDECODECAPS)
    (h : checkOutputFormat d caps = some d1) : d1.m_nBPP = d.m_nBPP := by
  unfold checkOutputFormat at h
  split_ifs at h <;> simp at h <;> subst h <;> rfl

theorem storeFormat_bpp (d : Decoder) (fmt : CUVIDEOFORMAT) :
    (storeFormat d fmt).m_nBPP = if (fmt.bit_depth_luma_minus8 : Int) > 0 then 2 else 1 := by
  rw [storeFormat_eq]

/-- A returning negotiation passed through the output-format test and
`createSession`. -/
theorem handleVideoSequence_ret (d d1 : Decoder) (fmt : CUVIDEOFORMAT) (caps : CUVIDDECODECAPS)
    (ok : Bool) (v : Int) (h : handleVideoSequence d fmt caps ok = Handled.ret v d1) :
    ∃ d2, checkOutputFormat (storeFormat d fmt) caps = some d2
      ∧ createSession d2 fmt ok = Handled.ret v d1 := by
  unfold handleVideoSequence at h
  split_ifs at h
  unfold settleOutputFormat at h
  split_ifs at h
  cases hc : checkOutputFormat (storeFormat d fmt) caps with
  | none => simp [hc] at h
  | some d2 =>
    simp only [hc] at h
    exact ⟨d2, rfl, h⟩

/-- The members a returning negotiation has written: the geometry of
`targetSize`, the chroma height and plane count for the output format, the
bytes per pixel by bit depth, and the output format settled by the mask test. -/
theorem handleVideoSequence_ret_fields (d d1 : Decoder) (fmt : CUVIDEOFORMAT)
    (caps : CUVIDDECODECAPS) (ok : Bool) (v : Int)
    (h : handleVideoSequence d fmt caps ok = Handled.ret v d1) :
    d1.m_nWidth = (targetSize d fmt).1
      ∧ d1.m_nLumaHeight = (targetSize d fmt).2.1
      ∧ chromaHeight d1.m_nLumaHeight d1.m_eOutputFormat = some d1.m_nChromaHeight
      ∧ d1.m_nNumChromaPlanes = GetChromaPlaneCount d1.m_eOutputFormat
      ∧ d1.m_nSurfaceWidth = toI32 (targetSize d fmt).2.2.ulTargetWidth
      ∧ d1.m_nSurfaceHeight = toI32 (targetSize d fmt).2.2.ulTargetHeight
      ∧ d1.m_displayRect = ⟨(targetSize d fmt).2.2.left, (targetSize d fmt).2.2.top,
          (targetSize d fmt).2.2.right, (targetSize d fmt).2.2.bottom⟩
      ∧ d1.m_nBPP = (if (fmt.bit_depth_luma_minus8 : Int) > 0 then 2 else 1)
      ∧ (checkOutputFormat (storeFormat d fmt) caps).map (fun s => s.m_eOutputFormat)
          = some d1.m_eOutputFormat := by
  obtain ⟨d2, hc, hs⟩ := handleVideoSequence_ret d d1 fmt caps ok v h
  obtain ⟨h1, h2, h3, h4, h5, h6, h7, h8, h9⟩ := createSession_ret_fields d2 d1 fmt ok v hs
  have hgi := checkOutputFormat_geometryInputs _ _ _ hc
  have hsi := storeFormat_geometryInputs d fmt
  have hts : targetSize d2 fmt = targetSize d fmt :=
    targetSize_eq d d2 fmt (hgi.1.trans hsi.1) (hgi.2.trans hsi.2)
  rw [hts] at h1 h2 h3 h5 h6 h7
  refine ⟨h1, h2, ?_, ?_, h5, h6, h7, ?_, ?_⟩
  · rw [h2, h8]; exact h3
  · rw [h8]; exact h4
  · rw [h9, checkOutputFormat_bpp _ _ _ hc, storeFormat_bpp]
  · rw [hc, h8]; rfl

/-! ## C11: crop and resize -/

/-- C11, counterexample: with the crop rectangle (100, 0)-(50, 50) the
negotiation returns and stores the width 4294967246, not `50 - 100`; with the
crop rectangle (0, 0)-(40000, 40000) it returns and stores the display-area
bounds (0, 0, -25536, -25536), not the crop rectangle. -/
theorem crop_geometry_counterexample :
    handleVideoSequence invertedCropDecoder exampleFormat exampleCaps true
        = Handled.ret 4 invertedCropNegotiated
      ∧ invertedCropNegotiated.m_nWidth = 4294967246
      ∧ invertedCropDecoder.m_cropRect.r - invertedCropDecoder.m_cropRect.l = -50
      ∧ handleVideoSequence wideCropDecoder exampleFormat exampleCaps true
        = Handled.ret 4 wideCropNegotiated
      ∧ wideCropNegotiated.m_displayRect = ⟨0, 0, -25536, -25536⟩
      ∧ wideCropDecoder.m_cropRect = ⟨0, 0, 40000, 40000⟩ :=
  ⟨by rfl, by rfl, by rfl, by rfl, by rfl, by rfl⟩

theorem targetSize_crop (d : Decoder) (fmt : CUVIDEOFORMAT)
    (hr : d.m_cropRect.r ≠ 0) (hb : d.m_cropRect.b ≠ 0) :
    targetSize d fmt
      = (toU32 (d.m_cropRect.r - d.m_cropRect.l), toU32 (d.m_cropRect.b - d.m_cropRect.t),
         { ulTargetWidth := toU32 (d.m_cropRect.r - d.m_cropRect.l)
           ulTargetHeight := toU32 (d.m_cropRect.b - d.m_cropRect.t)
           left := toI16 d.m_cropRect.l, top := toI16 d.m_cropRect.t
           right := toI16 d.m_cropRect.r, bottom := toI16 d.m_cropRect.b }) := by
  unfold targetSize
  have hcs : (d.m_cropRect.r != 0 && d.m_cropRect.b != 0) = true := by simp [hr, hb]
  simp only [hcs]
  cases hrs : (d.m_resizeDim.w != 0 && d.m_resizeDim.h != 0) <;> simp

theorem toI16_of_range (x : Int) (h0 : -2 ^ 15 ≤ x) (h1 : x < 2 ^ 15) : toI16 x = x := by
  unfold toI16
  dsimp only
  split_ifs <;> omega

/-- C11, amended: for every returning negotiation on a decoder whose crop
rectangle has non-zero right and bottom, whatever the resize dimensions, the
output width is `right - left` and the luma height `bottom - top`, each
converted to `unsigned int` (so equal to the difference when it is not
negative); the target width and height handed to the driver are those two
values; and the display-area bounds are the crop coordinates converted to
`short` (so equal to the crop rectangle when every coordinate is in
`-32768..32767`). -/
theorem crop_wins_over_resize (d d1 : Decoder) (fmt : CUVIDEOFORMAT) (caps : CUVIDDECODECAPS)
    (ok : Bool) (v : Int) (hr : d.m_cropRect.r ≠ 0) (hb : d.m_cropRect.b ≠ 0)
    (h : handleVideoSequence d fmt caps ok = Handled.ret v d1) :
    d1.m_nWidth = toU32 (d.m_cropRect.r - d.m_cropRect.l)
      ∧ d1.m_nLumaHeight = toU32 (d.m_cropRect.b - d.m_cropRect.t)
      ∧ (targetSize d fmt).2.2.ulTargetWidth = d1.m_nWidth
      ∧ (targetSize d fmt).2.2.ulTargetHeight = d1.m_nLumaHeight
      ∧ d1.m_nSurfaceWidth = toI32 d1.m_nWidth
      ∧ d1.m_nSurfaceHeight = toI32 d1.m_nLumaHeight
      ∧ d1.m_displayRect = ⟨toI16 d.m_cropRect.l, toI16 d.m_cropRect.t,
          toI16 d.m_cropRect.r, toI16 d.m_cropRect.b⟩
      ∧ (0 ≤ d.m_cropRect.r - d.m_cropRect.l → d.m_cropRect.r - d.m_cropRect.l < 2 ^ 32 →
          (d1.m_nWidth : Int) = d.m_cropRect.r - d.m_cropRect.l)
      ∧ (0 ≤ d.m_cropRect.b - d.m_cropRect.t → d.m_cropRect.b - d.m_cropRect.t < 2 ^ 32 →
          (d1.m_nLumaHeight : Int) = d.m_cropRect.b - d.m_cropRect.t)
      ∧ ((∀ x ∈ [d.m_cropRect.l, d.m_cropRect.t, d.m_cropRect.r, d.m_cropRect.b],
            -2 ^ 15 ≤ x ∧ x < 2 ^ 15) →
          d1.m_displayRect = d.m_cropRect) := by
  obtain ⟨h1, h2, _, _, h5, h6, h7, _, _⟩ := handleVideoSequence_ret_fields d d1 fmt caps ok v h
  rw [targetSize_crop d fmt hr hb] at h1 h2 h5 h6 h7 ⊢
  dsimp only at h1 h2 h5 h6 h7 ⊢
  refine ⟨h1, h2, h1.symm, h2.symm, by rw [h5, h1], by rw [h6, h2], h7, ?_, ?_, ?_⟩
  · intro h0 hlt
    rw [h1]
    exact toU32_of_range _ h0 hlt
  · intro h0 hlt
    rw [h2]
    exact toU32_of_range _ h0 hlt
  · intro hall
    have hl := hall d.m_cropRect.l (by simp)
    have ht := hall d.m_cropRect.t (by simp)
    have hr2 := hall d.m_cropRect.r (by simp)
    have hb2 := hall d.m_cropRect.b (by simp)
    rw [h7, toI16_of_range _ hl.1 hl.2, toI16_of_range _ ht.1 ht.2,
      toI16_of_range _ hr2.1 hr2.2, toI16_of_range _ hb2.1 hb2.2]

/-- C11, amended, at the crop rectangle (100, 50)-(740, 410) with resize
1280x720 also set: width 640, luma height 360, display area the crop
rectangle. -/
theorem crop_wins_over_resize_witness :
    handleVideoSequence cropResizeDecoder exampleFormat exampleCaps true
        = Handled.ret 4 cropResizeNegotiated
      ∧ cropResizeDecoder.m_resizeDim = ⟨1280, 720⟩
      ∧ cropResizeNegotiated.m_nWidth = 640 ∧ cropResizeNegotiated.m_nLumaHeight = 360
      ∧ cropResizeNegotiated.m_displayRect = ⟨100, 50, 740, 410⟩
      ∧ cropResizeNegotiated.m_nWidth
        = toU32 (cropResizeDecoder.m_cropRect.r - cropResizeDecoder.m_cropRect.l) :=
  ⟨by rfl, by rfl, by rfl, by rfl, by rfl,
    (crop_wins_over_resize cropResizeDecoder cropResizeNegotiated exampleFormat exampleCaps true 4
      (by decide) (by decide) (by rfl)).1⟩

/-! ## C18: bytes per pixel and output format -/

/-- C18, counterexample: a 10-bit 4:2:2 descriptor negotiated against a mask
with NV12 and P016 ends with the 8-bit layout NV12 selected (line 274) and 2
bytes per pixel stored (line 262), so the frame size is
`1920 * (1080 + 540) * 2`; the same happens to a 10-bit 4:2:0 descriptor when
the mask holds NV12 only and the fallback of lines 280-281 picks it. -/
theorem bpp_format_counterexample :
    handleVideoSequence exampleDecoder format422_10bit exampleCaps true
        = Handled.ret 5 negotiated422
      ∧ negotiated422.m_eOutputFormat = cudaVideoSurfaceFormat_NV12
      ∧ negotiated422.m_nBPP = 2
      ∧ get_frame_size negotiated422 = some 6220800
      ∧ handleVideoSequence exampleDecoder format420_10bit onlyNV12Caps true
        = Handled.ret 5 negotiated10bitNV12
      ∧ negotiated10bitNV12.m_eOutputFormat = cudaVideoSurfaceFormat_NV12
      ∧ negotiated10bitNV12.m_nBPP = 2 :=
  ⟨by rfl, by rfl, by rfl, by rfl, by rfl, by rfl, by rfl⟩

/-- C18, amended: after every returning negotiation (for every chroma format,
bit depth and capability mask) the stored bytes per pixel is 2 exactly when
the descriptor's luma bit depth exceeds 8 and 1 exactly when it is 8.  When the chroma format is 4:2:0 or 4:4:4 and the capability mask
has the default format (no fallback, no 4:2:2 downgrade), this agrees with the
selected output format: 2 exactly for P016 and YUV444_16Bit, 1 exactly for NV12
and YUV444. -/
theorem bpp_follows_bit_depth (d d1 : Decoder) (fmt : CUVIDEOFORMAT) (caps : CUVIDDECODECAPS)
    (ok : Bool) (v : Int) (h : handleVideoSequence d fmt caps ok = Handled.ret v d1) :
    (d1.m_nBPP = 2 ↔ fmt.bit_depth_luma_minus8 + 8 > 8)
      ∧ (d1.m_nBPP = 1 ↔ fmt.bit_depth_luma_minus8 + 8 = 8)
      ∧ ((fmt.chroma_format = cudaVideoChromaFormat_420
            ∨ fmt.chroma_format = cudaVideoChromaFormat_444) →
          caps.nOutputFormatMask.testBit
            (referenceDefaultFormat fmt.chroma_format fmt.bit_depth_luma_minus8) = true →
          (d1.m_nBPP = 2 ↔ (d1.m_eOutputFormat = cudaVideoSurfaceFormat_P016
              ∨ d1.m_eOutputFormat = cudaVideoSurfaceFormat_YUV444_16Bit))
            ∧ (d1.m_nBPP = 1 ↔ (d1.m_eOutputFormat = cudaVideoSurfaceFormat_NV12
              ∨ d1.m_eOutputFormat = cudaVideoSurfaceFormat_YUV444))) := by
  obtain ⟨_, _, _, _, _, _, _, h8, h9⟩ := handleVideoSequence_ret_fields d d1 fmt caps ok v h
  have hbpp2 : d1.m_nBPP = 2 ↔ fmt.bit_depth_luma_minus8 + 8 > 8 := by
    rw [h8]
    split_ifs with hd
    · exact ⟨fun _ => (by omega), fun _ => rfl⟩
    · exact ⟨fun hc => (by cases hc), fun hc => (by omega)⟩
  have hbpp1 : d1.m_nBPP = 1 ↔ fmt.bit_depth_luma_minus8 + 8 = 8 := by
    rw [h8]
    split_ifs with hd
    · exact ⟨fun hc => (by cases hc), fun hc => (by omega)⟩
    · exact ⟨fun _ => (by omega), fun _ => rfl⟩
  refine ⟨hbpp2, hbpp1, ?_⟩
  intro hc hmask
  have hdef := storeFormat_outputFormat d fmt
    (by rcases hc with hc | hc
        · exact Or.inl hc
        · exact Or.inr (Or.inl hc))
  have href := checkOutputFormat_reference (storeFormat d fmt) caps _ _ hdef
  rw [h9] at href
  unfold referenceOutputFormat at href
  rw [if_pos hmask] at href
  have hfmt : d1.m_eOutputFormat
      = referenceDefaultFormat fmt.chroma_format fmt.bit_depth_luma_minus8 :=
    Option.some.inj href
  rw [hbpp2, hbpp1, hfmt]
  unfold referenceDefaultFormat
  rcases hc with hc | hc <;> rw [hc] <;>
    simp only [cudaVideoChromaFormat_420, cudaVideoChromaFormat_444, cudaVideoSurfaceFormat_NV12,
      cudaVideoSurfaceFormat_P016, cudaVideoSurfaceFormat_YUV444,
      cudaVideoSurfaceFormat_YUV444_16Bit] <;>
    by_cases hd : fmt.bit_depth_luma_minus8 + 8 > 8 <;> simp [hd] <;> omega

/-- C18, amended, at a 10-bit 4:2:0 descriptor and a mask with NV12 and P016:
P016 is selected, 2 bytes per pixel are stored, and the two agree. -/
theorem bpp_follows_bit_depth_witness :
    handleVideoSequence exampleDecoder format420_10bit exampleCaps true
        = Handled.ret 5 negotiated10bitP016
      ∧ negotiated10bitP016.m_eOutputFormat = cudaVideoSurfaceFormat_P016
      ∧ negotiated10bitP016.m_nBPP = 2
      ∧ (negotiated10bitP016.m_nBPP = 2 ↔ format420_10bit.bit_depth_luma_minus8 + 8 > 8)
      ∧ (negotiated10bitP016.m_nBPP = 2
          ↔ (negotiated10bitP016.m_eOutputFormat = cudaVideoSurfaceFormat_P016
            ∨ negotiated10bitP016.m_eOutputFormat = cudaVideoSurfaceFormat_YUV444_16Bit)) :=
  ⟨by rfl, by rfl, by rfl,
    (bpp_follows_bit_depth exampleDecoder negotiated10bitP016 format420_10bit exampleCaps true 5
      (by rfl)).1,
    ((bpp_follows_bit_depth exampleDecoder negotiated10bitP016 format420_10bit exampleCaps true 5
      (by rfl)).2.2 (Or.inl rfl) (by decide)).1⟩

/-! ## C15: the plane copies and the frame size -/

/-- A frame that does not fit an `int`: with resize dimensions 65536x43692, a
target of 4 GiB per frame, the negotiation returns with NV12, width 65536,
luma height 43692 (below `2^24`) and chroma height 21846; `get_frame_size()`
is 131072 (the 32-bit product of `65536 * 65538`), and the luma copy would
write byte 131072 of the slot (row 2). -/
theorem plane_copies_beyond_int_range :
    handleVideoSequence hugeResizeDecoder exampleFormat exampleCaps true
        = Handled.ret 4 hugeResizeNegotiated
      ∧ hugeResizeNegotiated.m_eOutputFormat = cudaVideoSurfaceFormat_NV12
      ∧ (hugeResizeNegotiated.m_nWidth, hugeResizeNegotiated.m_nLumaHeight,
          hugeResizeNegotiated.m_nChromaHeight, hugeResizeNegotiated.m_nNumChromaPlanes,
          hugeResizeNegotiated.m_nBPP) = (65536, 43692, 21846, 1, 1)
      ∧ get_frame_size hugeResizeNegotiated = some 131072
      ∧ (planeCopies hugeResizeNegotiated).head? = some ⟨0, 65536, 65536, 43692⟩
      ∧ PlaneCopy.writes ⟨0, 65536, 65536, 43692⟩ 131072 :=
  ⟨by rfl, by rfl, by rfl, by rfl, by rfl, ⟨2, by decide, by decide, by decide⟩⟩

theorem GrownTo_of_poolView (d d1 : Decoder) (c : Nat)
    (h : poolView d1 = poolView d) (hb : GrownTo d c) : GrownTo d1 c := by
  simp only [poolView, Prod.mk.injEq] at h
  obtain ⟨h1, _, h3, _, _, _⟩ := h
  unfold GrownTo at *
  rw [h1, h3]
  exact hb

/-- With a negative cache limit a display callback that returns has grown the
pool by one slot and counted the picture. -/
theorem handlePictureDisplay_negative (K : Int) (hK : K < 0) (hK2 : -2 ^ 31 ≤ K)
    (d d1 : Decoder) (info : CUVIDPARSERDISPINFO) (v : Int) (c : Nat)
    (hmc : d.m_nMaxCache = K) (hb : GrownTo d c)
    (h : handlePictureDisplay d info = Handled.ret v d1) :
    GrownTo d1 (c + 1) := by
  obtain ⟨d2, hs, h0, hvp, _, rfl⟩ := handlePictureDisplay_ret d d1 info v h
  obtain ⟨hn, hP⟩ := hb
  rcases selectSlot_cases d d2 hs with ⟨_, rfl⟩ | ⟨hlt, _, hcap, rfl⟩ | ⟨_, _, size, rfl⟩
  · dsimp only at h0 hvp
    omega
  · exfalso
    have h32 : toU32 (d.m_nDecodedFrame + 1) < 2 ^ 32 := by
      unfold toU32
      omega
    have h64 : 2 ^ 64 - 2 ^ 31 ≤ toU64 d.m_nMaxCache := by
      rw [hmc]
      unfold toU64
      omega
    omega
  · exact ⟨by dsimp only; rw [hn]; push_cast; rfl,
      by dsimp only; rw [List.length_append, hP]; rfl⟩

theorem runEvents_negative (K : Int) (hK : K < 0) (hK2 : -2 ^ 31 ≤ K) (es : List Event) :
    ∀ (d d1 : Decoder) (c : Nat) (v : Int), d.m_nMaxCache = K → GrownTo d c →
      runEvents d es = Handled.ret v d1 →
      GrownTo d1 (c + (displayTimestamps es).length) := by
  induction es with
  | nil =>
    intro d d1 c v _ hb h
    simp only [runEvents, Handled.ret.injEq] at h
    rw [← h.2]
    simpa [displayTimestamps] using hb
  | cons e es ih =>
    intro d d1 c v hmc hb h
    simp only [runEvents] at h
    cases he : handleEvent d e with
    | undefined => simp [he] at h
    | throw t d2 => simp [he] at h
    | ret w d2 =>
      simp only [he] at h
      have hmc2 : d2.m_nMaxCache = K :=
        (handleEvent_maxCache d d2 e (Or.inl ⟨w, he⟩)).trans hmc
      cases e with
      | display info =>
        have hb2 := handlePictureDisplay_negative K hK hK2 d d2 info w c hmc hb he
        have := ih d2 d1 (c + 1) v hmc2 hb2 h
        simp only [displayTimestamps, List.length_cons]
        rw [show c + ((displayTimestamps es).length + 1) = c + 1 + (displayTimestamps es).length
          by omega]
        exact this
      | sequence fmt caps ok =>
        have hp := handleEvent_poolView d d2 _ w (by intro info hc; cases hc) he
        simpa [displayTimestamps] using ih d2 d1 c v hmc2 (GrownTo_of_poolView d d2 c hp hb) h
      | picture idx =>
        have hp := handleEvent_poolView d d2 _ w (by intro info hc; cases hc) he
        simpa [displayTimestamps] using ih d2 d1 c v hmc2 (GrownTo_of_poolView d d2 c hp hb) h

/-- C12: for every negative cache limit (an `int`, so not below `-2^31`), a
successful `decode` call that starts from an empty pool and processes `d`
display callbacks returns `d` and leaves a pool of `d` slots and a
buffered-frame count of `d`: every picture got a slot of its own. -/
theorem negative_cache_is_unbounded (K : Int) (hK : K < 0) (hK2 : -2 ^ 31 ≤ K)
    (d d1 : Decoder) (pkt : Packet) (r : Int) (hmc : d.m_nMaxCache = K)
    (hempty : d.m_vpFrame = []) (h : decode d pkt = some (r, d1)) (hr : r ≠ -1) :
    d1.m_vpFrame.length = (displayTimestamps pkt.events).length
      ∧ d1.m_nDecodedFrame = (displayTimestamps pkt.events).length
      ∧ r = (displayTimestamps pkt.events).length := by
  obtain ⟨v, d2, hrun, _, rfl, rfl⟩ := decode_success d d1 pkt r h hr
  have hb0 : GrownTo (resetCounters d) 0 :=
    ⟨rfl, by show d.m_vpFrame.length = 0; rw [hempty]; rfl⟩
  obtain ⟨hn, hP⟩ := runEvents_negative K hK hK2 pkt.events (resetCounters d) d2 0 v hmc hb0 hrun
  rw [Nat.zero_add] at hn hP
  exact ⟨hP, hn, hn⟩

/-- C12 at `max_cache = -5` and three display callbacks: three slots, three
buffered frames. -/
theorem negative_cache_is_unbounded_witness :
    minusFiveDecoder.m_nMaxCache = -5 ∧ minusFiveDecoder.m_vpFrame = []
      ∧ decode minusFiveDecoder threeDisplays = some (3, minusFiveAfter)
      ∧ minusFiveAfter.m_vpFrame.length = 3 ∧ minusFiveAfter.m_nDecodedFrame = 3
      ∧ minusFiveAfter.m_vpFrame.length = (displayTimestamps threeDisplays.events).length :=
  ⟨by rfl, by rfl, by rfl, by rfl, by rfl,
    (negative_cache_is_unbounded (-5) (by decide) (by decide) minusFiveDecoder minusFiveAfter
      threeDisplays 3 (by rfl) (by rfl) (by rfl) (by decide)).1⟩

/-! ## C14: reuse of the last slot at capacity -/

theorem CappedStamps_of_poolView (K : Nat) (d d1 : Decoder) (pre : List Int)
    (h : poolView d1 = poolView d) (hb : CappedStamps K d pre) : CappedStamps K d1 pre := by
  simp only [poolView, Prod.mk.injEq] at h
  obtain ⟨h1, h2, h3, h4, h5, _⟩ := h
  unfold CappedStamps at *
  rw [h1, h2, h3, h4, h5]
  exact hb

/-- A display callback at full capacity: the counter and the pool stay as
they are and slot `K - 1` takes the new timestamp. -/
theorem handlePictureDisplay_at_capacity (K : Nat) (hK1 : 1 ≤ K) (hK2 : K < 2 ^ 31)
    (d : Decoder) (info : CUVIDPARSERDISPINFO)
    (hmc : d.m_nMaxCache = K) (hvp : d.m_vpFrame.length = K) (hvt : d.m_vTimestamp.length = K)
    (hn : d.m_nDecodedFrame = K)
    (hstat : info.statusError = true → 0 ≤ info.picture_index ∧ info.picture_index < 32) :
    handlePictureDisplay d info
      = Handled.ret 1 { d with m_vTimestamp := d.m_vTimestamp.set (K - 1) info.timestamp } := by
  have hu32 : toU32 (d.m_nDecodedFrame + 1) = K + 1 := by
    rw [hn]; unfold toU32; omega
  have hu64 : toU64 d.m_nMaxCache = K := by
    rw [hmc]; unfold toU64; omega
  have hsel : selectSlot d = some { d with m_nDecodedFrame := d.m_nDecodedFrame + 1 - 1 } := by
    unfold selectSlot
    dsimp only
    rw [if_pos (by rw [hu32, hvp]; omega), if_pos ⟨by rw [hmc]; omega, by rw [hu64, hvp]⟩]
  unfold handlePictureDisplay
  rw [if_neg (by
    rintro ⟨hs, hnr⟩
    exact hnr (hstat hs)), hsel]
  dsimp only
  have hidx : (d.m_nDecodedFrame + 1 - 1 - 1).toNat = K - 1 := by rw [hn]; omega
  rw [hidx, if_pos ⟨by rw [hn]; omega, by rw [hvp]; omega, by rw [hvt]; omega⟩]
  have hnn : d.m_nDecodedFrame + 1 - 1 = d.m_nDecodedFrame := by omega
  rw [hnn]

theorem getLast?_snoc (pre : List Int) (t : Int) : (pre ++ [t]).getLast? = some t := by
  simp

theorem handlePictureDisplay_cappedStamps (K : Nat) (hK1 : 1 ≤ K) (hK2 : K < 2 ^ 31)
    (d d1 : Decoder) (info : CUVIDPARSERDISPINFO) (v : Int) (pre : List Int)
    (hb : CappedStamps K d pre) (h : handlePictureDisplay d info = Handled.ret v d1) :
    CappedStamps K d1 (pre ++ [info.timestamp]) := by
  obtain ⟨d2, hs, h0, hvp, hvt, rfl⟩ := handlePictureDisplay_ret d d1 info v h
  obtain ⟨hmc, hn, hret, hnP, hPK, ha, hlast⟩ := hb
  have hu32 : (toU32 (d.m_nDecodedFrame + 1) : Int) = d.m_nDecodedFrame + 1 :=
    toU32_of_range _ (by omega) (by omega)
  have hu64 : toU64 d.m_nMaxCache = K := by
    rw [hmc]; unfold toU64; omega
  -- below capacity: the picture goes into slot `pre.length`
  have hbelow : ∀ (vt : List Int), pre.length < K → pre.length < vt.length →
      (∀ i, i < pre.length → vt[i]? = pre[i]?) →
      (∀ i, i < (pre ++ [info.timestamp]).length → i + 1 < K →
          (vt.set pre.length info.timestamp)[i]? = (pre ++ [info.timestamp])[i]?)
        ∧ (K ≤ (pre ++ [info.timestamp]).length →
          (vt.set pre.length info.timestamp)[K - 1]? = (pre ++ [info.timestamp]).getLast?) := by
    intro vt hlt hlen hpre
    have hall := getElem?_snoc_set vt pre pre.length info.timestamp rfl hlen hpre
    refine ⟨fun i hi _ => hall i hi, fun hK => ?_⟩
    simp only [List.length_append, List.length_singleton] at hK
    have hKe : K - 1 = pre.length := by omega
    rw [hKe, getLast?_snoc, hall pre.length (by simp)]
    simp
  rcases selectSlot_cases d d2 hs with ⟨hle, rfl⟩ | ⟨hlt, _, hcap, rfl⟩ | ⟨hlt, hncap, size, rfl⟩
  · dsimp only at h0 hvp hvt ⊢
    have hnlt : pre.length < K := by omega
    have hidx : (d.m_nDecodedFrame + 1 - 1).toNat = pre.length := by omega
    rw [hidx] at hvt ⊢
    obtain ⟨ha2, hl2⟩ := hbelow d.m_vTimestamp hnlt hvt (fun i hi => ha i hi (by omega))
    exact ⟨hmc, by dsimp only; simp only [List.length_append, List.length_singleton]; omega,
      hret, by dsimp only; omega, hPK, ha2, hl2⟩
  · dsimp only at h0 hvp hvt ⊢
    have hfull : K ≤ pre.length := by omega
    have hidx : (d.m_nDecodedFrame + 1 - 1 - 1).toNat = K - 1 := by omega
    rw [hidx] at hvt ⊢
    refine ⟨hmc, by dsimp only; simp only [List.length_append, List.length_singleton]; omega,
      hret, by dsimp only; omega, hPK, ?_, ?_⟩
    · intro i hi hiK
      dsimp only
      rw [List.getElem?_set_ne (by omega), ha i (by omega) hiK,
        List.getElem?_append_left (by omega)]
    · intro _
      dsimp only
      rw [getLast?_snoc, List.getElem?_set, if_pos rfl, if_pos hvt]
  · dsimp only at h0 hvp hvt ⊢
    have hne : d.m_nMaxCache ≠ -1 := by rw [hmc]; omega
    have hlt2 : d.m_vpFrame.length < toU64 d.m_nMaxCache := by
      by_contra hc
      exact hncap ⟨hne, not_lt.mp hc⟩
    have hnlt : pre.length < K := by omega
    have hidx : (d.m_nDecodedFrame + 1 - 1).toNat = pre.length := by omega
    rw [hidx] at hvt ⊢
    have hpre : ∀ i, i < pre.length → (d.m_vTimestamp ++ [0])[i]? = pre[i]? := by
      intro i hi
      have hsome := ha i hi (by omega)
      have hil : i < d.m_vTimestamp.length := by
        by_contra hcon
        rw [List.getElem?_eq_none (not_lt.mp hcon), List.getElem?_eq_getElem hi] at hsome
        cases hsome
      rw [List.getElem?_append_left hil]
      exact hsome
    obtain ⟨ha2, hl2⟩ := hbelow (d.m_vTimestamp ++ [0]) hnlt hvt hpre
    refine ⟨hmc, by dsimp only; simp only [List.length_append, List.length_singleton]; omega,
      hret, ?_, ?_, ha2, hl2⟩
    · dsimp only; simp only [List.length_append, List.length_singleton]; push_cast; omega
    · dsimp only; simp only [List.length_append, List.length_singleton]; omega

theorem runEvents_cappedStamps (K : Nat) (hK1 : 1 ≤ K) (hK2 : K < 2 ^ 31) (es : List Event) :
    ∀ (d d1 : Decoder) (pre : List Int) (v : Int), CappedStamps K d pre →
      runEvents d es = Handled.ret v d1 →
      CappedStamps K d1 (pre ++ displayTimestamps es) := by
  induction es with
  | nil =>
    intro d d1 pre v hb h
    simp only [runEvents, Handled.ret.injEq] at h
    rw [← h.2]
    simpa [displayTimestamps] using hb
  | cons e es ih =>
    intro d d1 pre v hb h
    simp only [runEvents] at h
    cases he : handleEvent d e with
    | undefined => simp [he] at h
    | throw t d2 => simp [he] at h
    | ret w d2 =>
      simp only [he] at h
      cases e with
      | display info =>
        have hb2 := handlePictureDisplay_cappedStamps K hK1 hK2 d d2 info w pre hb he
        have := ih d2 d1 _ v hb2 h
        simpa [displayTimestamps] using this
      | sequence fmt caps ok =>
        have hp := handleEvent_poolView d d2 _ w (by intro info hc; cases hc) he
        simpa [displayTimestamps] using
          ih d2 d1 pre v (CappedStamps_of_poolView K d d2 pre hp hb) h
      | picture idx =>
        have hp := handleEvent_poolView d d2 _ w (by intro info hc; cases hc) he
        simpa [displayTimestamps] using
          ih d2 d1 pre v (CappedStamps_of_poolView K d d2 pre hp hb) h

/-- C14: for every cache capacity `1 ≤ K` (an `int`, so below `2^31`): a display
callback that arrives while the pool has `K` slots and `K` frames are buffered
returns, leaves the pool and the buffered-frame count as they are, and writes
the new timestamp into slot `K - 1`, all other timestamps unchanged; and after
a successful `decode` call with `d > K` display callbacks (timestamps
`t1..td`), the `K` frames pulled carry `t1, ..., t(K-1), td`, and the next
`get_frame` gives `nullptr`. -/
theorem over_capacity_reuses_last_slot (K : Nat) (hK1 : 1 ≤ K) (hK2 : K < 2 ^ 31) :
    (∀ (d : Decoder) (info : CUVIDPARSERDISPINFO),
        d.m_nMaxCache = K → d.m_vpFrame.length = K → d.m_vTimestamp.length = K →
        d.m_nDecodedFrame = K →
        (info.statusError = true → 0 ≤ info.picture_index ∧ info.picture_index < 32) →
        handlePictureDisplay d info
          = Handled.ret 1 { d with m_vTimestamp := d.m_vTimestamp.set (K - 1) info.timestamp })
      ∧ (∀ (d d1 : Decoder) (pkt : Packet) (r : Int),
          d.m_nMaxCache = K → d.m_vpFrame.length ≤ K →
          decode d pkt = some (r, d1) → r ≠ -1 →
          K < (displayTimestamps pkt.events).length →
          get_frames (K + 1) d1
            = some (framesFrom d1.m_iFrameIndex 0
                      ((displayTimestamps pkt.events).take (K - 1)
                        ++ [(displayTimestamps pkt.events).getLastD 0]) ++ [none],
                    { d1 with m_nDecodedFrame := 0, m_nDecodedFrameReturned := (K : Nat) })) := by
  refine ⟨fun d info hmc hvp hvt hn hstat =>
    handlePictureDisplay_at_capacity K hK1 hK2 d info hmc hvp hvt hn hstat, ?_⟩
  intro d d1 pkt r hmc hP h hr hlen
  obtain ⟨v, d2, hrun, _, rfl, rfl⟩ := decode_success d d1 pkt r h hr
  have hb0 : CappedStamps K (resetCounters d) [] := by
    refine ⟨hmc, ?_, rfl, ?_, hP, fun i hi => absurd hi (Nat.not_lt_zero i), fun hc => ?_⟩
    · show (0 : Int) = ((min 0 K : Nat) : Int)
      simp
    · show (0 : Int) ≤ _
      omega
    · simp only [List.length_nil] at hc
      omega
  obtain ⟨_, hn, hret, hnP, _, ha, hlast⟩ :=
    runEvents_cappedStamps K hK1 hK2 pkt.events (resetCounters d) d2 [] v hb0 hrun
  simp only [List.nil_append] at hn hret hnP ha hlast
  generalize displayTimestamps pkt.events = ts at hlen hn ha hlast ⊢
  have hne : ts ≠ [] := by
    intro hc
    rw [hc] at hlen
    simp at hlen
  have hlastD : ts.getLast? = some (ts.getLastD 0) := by
    cases ts with
    | nil => exact absurd rfl hne
    | cons a as => simp [List.getLast?_cons]
  have hexplen : (ts.take (K - 1) ++ [ts.getLastD 0]).length = K := by
    simp only [List.length_append, List.length_take, List.length_singleton]
    omega
  have hmin : min ts.length K = K := by omega
  rw [hmin] at hn
  have := get_frames_buffered (ts.take (K - 1) ++ [ts.getLastD 0])
    { d2 with m_iFrameIndex := (d2.m_iFrameIndex + 1) % 2 ^ 32 } 0
    (by rw [hexplen]; exact hn)
    (by simpa using hret)
    (by rw [hexplen]; dsimp only; omega)
    (by
      intro i hi
      rw [hexplen] at hi
      dsimp only
      rw [Nat.zero_add]
      by_cases hik : i + 1 < K
      · rw [ha i (by omega) hik, List.getElem?_append_left (by simp; omega),
          List.getElem?_take_of_lt (by omega)]
      · have hie : i = K - 1 := by omega
        rw [hie, hlast (by omega), hlastD,
          List.getElem?_append_right (by simp)]
        simp only [List.length_take]
        rw [show K - 1 - min (K - 1) ts.length = 0 by omega]
        rfl)
  rw [hexplen] at this
  simpa using this

/-- C14 at capacity 3 and five display callbacks with timestamps 1 to 5: the
call returns 3 and the frames pulled carry 1, 2, 5. -/
theorem over_capacity_reuses_last_slot_witness :
    capacityThreeDecoder.m_nMaxCache = 3
      ∧ decode capacityThreeDecoder fiveDisplayPacket = some (3, capacityThreeAfter)
      ∧ (get_frames 4 capacityThreeAfter).map Prod.fst
        = some [some { slot := 0, timestamp := 1, frameIndex := 1 },
                some { slot := 1, timestamp := 2, frameIndex := 1 },
                some { slot := 2, timestamp := 5, frameIndex := 1 }, none] :=
  ⟨by rfl, by rfl, by
    rw [(over_capacity_reuses_last_slot 3 (by decide) (by decide)).2 capacityThreeDecoder
      capacityThreeAfter fiveDisplayPacket 3 (by rfl) (by decide) (by rfl) (by decide)
      (by decide)]
    rfl⟩

/-! ## C13: the persistent-failure diagnostic -/

theorem frameLoop_success (frameIndex n logged : Nat) :
    frameLoop frameIndex true n logged = logged := by
  induction n generalizing logged with
  | zero => rfl
  | succ n ih =>
    simp only [frameLoop]
    rw [if_neg (by simp)]
    exact ih logged

theorem loopBody_logs_nothing (st st1 : AppState) (pkt : Packet) (h : loopBody st pkt = some st1) :
    st1.alwaysFailed = st.alwaysFailed := by
  unfold loopBody at h
  cases hd : decode st.decoder pkt with
  | none => simp [hd] at h
  | some rd =>
    obtain ⟨n, d1⟩ := rd
    simp only [hd, Option.some.injEq] at h
    rw [← h]
    dsimp only
    by_cases hn : n > 0
    · rw [if_pos hn]
      exact frameLoop_success _ _ _
    · have h0 : n.toNat = 0 := by omega
      rw [h0]
      rfl

theorem decodeLoop_logs_nothing (stream : List Packet) :
    ∀ (st st1 : AppState), decodeLoop st stream = some st1 →
      st1.alwaysFailed = st.alwaysFailed := by
  induction stream with
  | nil =>
    intro st st1 h
    simp only [decodeLoop, Option.some.injEq] at h
    rw [h]
  | cons pkt pkts ih =>
    intro st st1 h
    simp only [decodeLoop] at h
    cases hb : loopBody st pkt with
    | none => simp [hb] at h
    | some st2 =>
      simp only [hb] at h
      rw [ih st2 st1 h, loopBody_logs_nothing st st2 pkt hb]

/-- Whatever the stream, a completed `test_hard_decode` has logged no
"Always failed" line: the only place that logs it is inside the loop over the
frames of a call, which runs only after `ever_success` has been set. -/
theorem always_failed_never_logged (codec : Nat) (extra : Packet) (stream : List Packet)
    (st : AppState) (h : test_hard_decode codec extra stream = some st) :
    st.alwaysFailed = 0 := by
  unfold test_hard_decode at h
  cases hd : decode (create_cuvid_decoder true codec (-1) 0 ⟨0, 0, 0, 0⟩ ⟨0, 0⟩) extra with
  | none => simp [hd] at h
  | some rd =>
    obtain ⟨n, d⟩ := rd
    simp only [hd] at h
    exact decodeLoop_logs_nothing stream _ st h

theorem decode_silentPacket (d : Decoder) :
    decode d silentPacket
      = some (0, { resetCounters d with m_iFrameIndex := (d.m_iFrameIndex + 1) % 2 ^ 32 }) := rfl

theorem loopBody_silentPacket (st : AppState) (hs : st.ever_success = false) :
    loopBody st silentPacket
      = some { decoder :=
                 { resetCounters st.decoder with
                   m_iFrameIndex := (st.decoder.m_iFrameIndex + 1) % 2 ^ 32 }
               ever_success := false
               total_frames := st.total_frames + 0
               alwaysFailed := st.alwaysFailed } := by
  unfold loopBody
  rw [decode_silentPacket]
  dsimp only
  rw [if_neg (by decide), hs]
  rfl

theorem decodeLoop_silentPackets (n : Nat) :
    ∀ (st : AppState), st.ever_success = false → st.decoder.m_iFrameIndex + n < 2 ^ 32 →
      (decodeLoop st (List.replicate n silentPacket)).map appSummary
        = some (st.decoder.m_iFrameIndex + n, false, st.total_frames, st.alwaysFailed) := by
  induction n with
  | zero =>
    intro st hs _
    simp only [List.replicate, decodeLoop, Option.map_some', appSummary, Nat.add_zero, hs]
  | succ n ih =>
    intro st hs hlt
    simp only [List.replicate, decodeLoop, loopBody_silentPacket st hs]
    rw [ih _ rfl (by
      show (st.decoder.m_iFrameIndex + 1) % 2 ^ 32 + n < 2 ^ 32
      omega)]
    show some ((st.decoder.m_iFrameIndex + 1) % 2 ^ 32 + n, false, st.total_frames + 0,
      st.alwaysFailed) = _
    rw [Nat.mod_eq_of_lt (by omega), Int.add_zero,
      show st.decoder.m_iFrameIndex + 1 + n = st.decoder.m_iFrameIndex + (n + 1) by omega]

/-- C13, the code at the failing input: the extra data and then 1001 packets
are fed, every `decode` call succeeds with 0 frames; at the end
`get_frame_index()` is 1002 (above 1000), `ever_success` is false, and no
"Always failed" line has been logged. -/
theorem always_failed_not_logged_after_1001_feeds :
    (test_hard_decode 4 silentPacket (List.replicate 1001 silentPacket)).map appSummary
      = some (1002, false, 0, 0) := by
  unfold test_hard_decode
  rw [decode_silentPacket]
  dsimp only
  rw [decodeLoop_silentPackets 1001 _ rfl (by decide)]
  rfl

/-! ## C16: the slot index with capacity 0 -/

/-- C16, the code at the failing input: with `max_cache = 0` and an empty pool
the first display callback takes its increment back, so the buffered-frame
count is 0 and the destination slot index is `-1` in a pool of size 0; the
callback and the `decode` call around it leave defined behaviour. -/
theorem zero_capacity_slot_index_invalid :
    zeroCacheDecoder.m_nMaxCache = 0 ∧ zeroCacheDecoder.m_vpFrame = []
      ∧ (selectSlot (resetCounters zeroCacheDecoder)).map
          (fun s => (s.m_nDecodedFrame, s.m_nDecodedFrame - 1, s.m_vpFrame.length))
        = some (0, -1, 0)
      ∧ handlePictureDisplay (resetCounters zeroCacheDecoder)
          { picture_index := 0, timestamp := 100, statusError := false } = Handled.undefined
      ∧ decode zeroCacheDecoder { events := [exampleDisplay 100], parserOk := true } = none :=
  ⟨by rfl, by rfl, by rfl, by rfl, by rfl⟩

/-- With a capacity of at least 1 the slot chosen is a valid index: from a
state whose counter is within the pool, whose pool is within the capacity and
whose two vectors have the same length. -/
theorem selectSlot_index_valid (K : Int) (hK1 : 1 ≤ K) (hK2 : K < 2 ^ 31) (d d2 : Decoder)
    (hmc : d.m_nMaxCache = K) (h0 : 0 ≤ d.m_nDecodedFrame)
    (hnP : d.m_nDecodedFrame ≤ d.m_vpFrame.length) (hPK : (d.m_vpFrame.length : Int) ≤ K)
    (hlen : d.m_vTimestamp.length = d.m_vpFrame.length) (hs : selectSlot d = some d2) :
    0 ≤ d2.m_nDecodedFrame - 1
      ∧ (d2.m_nDecodedFrame - 1).toNat < d2.m_vpFrame.length
      ∧ (d2.m_nDecodedFrame - 1).toNat < d2.m_vTimestamp.length := by
  have hu32 : (toU32 (d.m_nDecodedFrame + 1) : Int) = d.m_nDecodedFrame + 1 :=
    toU32_of_range _ (by omega) (by omega)
  have hu64 : (toU64 d.m_nMaxCache : Int) = K := by
    rw [hmc]; exact toU64_of_range K (by omega) (by omega)
  rcases selectSlot_cases d d2 hs with ⟨hle, rfl⟩ | ⟨hlt, _, hcap, rfl⟩ | ⟨hlt, _, size, rfl⟩
  · dsimp only
    exact ⟨by omega, by omega, by omega⟩
  · dsimp only
    exact ⟨by omega, by omega, by omega⟩
  · dsimp only
    simp only [List.length_append, List.length_singleton]
    exact ⟨by omega, by omega, by omega⟩

/-! ## C17: slot sizes across a format change -/

/-- C17, the code at the failing input: a 1280x720 stream displays one picture
(slot 0 is allocated with 1382400 bytes), the frame is pulled, then a format
change to 1920x1080 arrives with one picture.  The picture is copied into the
same slot 0, still of 1382400 bytes, while `get_frame_size()` is now 3110400;
the luma copy writes byte 1382400 (row 720), past the end of the slot. -/
theorem format_change_overruns_slot :
    run exampleDecoder [Call.feed smallPacket, Call.pull, Call.feed largePacket]
        = some ([Output.decoded 1,
                 Output.frame (some { slot := 0, timestamp := 100, frameIndex := 1 }),
                 Output.decoded 1], upscaledAfter)
      ∧ upscaledAfter.m_vpFrame = [1382400]
      ∧ upscaledAfter.m_vTimestamp = [200]
      ∧ get_frame_size upscaledAfter = some 3110400
      ∧ (planeCopies upscaledAfter).head? = some ⟨0, 1920, 1920, 1080⟩
      ∧ PlaneCopy.writes ⟨0, 1920, 1920, 1080⟩ 1382400 :=
  ⟨by rfl, by rfl, by rfl, by rfl, by rfl, ⟨720, by decide, by decide, by decide⟩⟩

end FFHDDecoder
